import Mathlib

/-!
Verification of the azure-diagrammer core: relationship inference
(`discovery/relationships.py`), data-flow derivation (`discovery/data_flow.py`),
IP resolution (`discovery/ip_resolver.py`) and the layout engine
(`model/layout.py`).

The Python code is shallowly embedded: JSON-like property bags become the
inductive `Py`; operations that can raise in Python (`.get` on a non-dict,
`.lower()` on a non-string, iterating a non-iterable, ...) return
`Except PyErr`.  Dict values mirror CPython dicts: insertion-ordered
association lists with unique keys; `dict.get` is association-list lookup.
Case folding on resource IDs and types is ASCII (Azure IDs are ASCII).
Geometry in the layout engine is modelled over `ℚ` (the Python constants and
arithmetic are exact in binary floating point for the magnitudes involved).
-/

/-- Python runtime errors that the embedded code can raise. -/
inductive PyErr where
  | attributeError
  | typeError
  | keyError
deriving Repr, DecidableEq

/-- A Python/JSON-like value: the property-bag type consumed by the core. -/
inductive Py where
  | none
  | bool (b : Bool)
  | int (n : Int)
  | str (s : String)
  | list (xs : List Py)
  | dict (entries : List (String × Py))
deriving Repr, Inhabited

/-- First-match lookup in an association list modelling a Python dict
(CPython dicts have unique keys, so first match equals the dict entry). -/
def pyLookup : List (String × Py) → String → Option Py
  | [], _ => Option.none
  | (k, v) :: rest, key => if k = key then some v else pyLookup rest key

/-- Python truthiness: `None`, `False`, `0`, `""`, `[]`, and the empty dict
are falsy, everything else truthy. -/
def Py.truthy : Py → Bool
  | .none => false
  | .bool b => b
  | .int n => n != 0
  | .str s => s != ""
  | .list xs => !xs.isEmpty
  | .dict d => !d.isEmpty

/-- Python `a or b`: the left operand when truthy, otherwise the right. -/
def pyOr (a b : Py) : Py := if a.truthy then a else b

/-- Python `x.get(key, dflt)`: dict lookup with default; AttributeError on
any non-dict receiver. -/
def pyGet : Py → String → Py → Except PyErr Py
  | .dict d, k, dflt => .ok ((pyLookup d k).getD dflt)
  | _, _, _ => .error .attributeError

/-- Python `x[key]` with a string key: KeyError when the key is missing,
TypeError on non-dict receivers (the code only subscripts dicts). -/
def pySubscript : Py → String → Except PyErr Py
  | .dict d, k =>
    match pyLookup d k with
    | some v => .ok v
    | Option.none => .error .keyError
  | _, _ => .error .typeError

/-- ASCII case folding, `str.lower` (resource IDs and types are ASCII). -/
def strLower (s : String) : String := String.mk (s.data.map Char.toLower)

/-- ASCII case folding, `str.upper`. -/
def strUpper (s : String) : String := String.mk (s.data.map Char.toUpper)

/-- Python `x.lower()`: ASCII lowering of a string, AttributeError otherwise. -/
def pyLowerStr : Py → Except PyErr String
  | .str s => .ok (strLower s)
  | _ => .error .attributeError

/-- Python `x.upper()`: ASCII uppering of a string, AttributeError otherwise. -/
def pyUpperStr : Py → Except PyErr String
  | .str s => .ok (strUpper s)
  | _ => .error .attributeError

/-- Python iteration `for v in x`: list elements, string characters, or dict
keys; TypeError for non-iterables (`None`, numbers, booleans). -/
def pyIter : Py → Except PyErr (List Py)
  | .list xs => .ok xs
  | .str s => .ok (s.data.map (fun c => .str (String.mk [c])))
  | .dict d => .ok (d.map (fun kv => .str kv.1))
  | _ => .error .typeError

/-- Python `v == lit` for a string literal `lit`: only equal strings compare
equal (no Python value of another type equals a `str`). -/
def pyEqStr (v : Py) (s : String) : Bool :=
  match v with
  | .str t => t = s
  | _ => false

/-- Does the first list start with the second? -/
def listStartsWith : List Char → List Char → Bool
  | _, [] => true
  | [], _ :: _ => false
  | a :: as, b :: bs => a = b && listStartsWith as bs

/-- Contiguous-sublist test on characters. -/
def listHasSub : List Char → List Char → Bool
  | hay, need =>
    if listStartsWith hay need then true
    else match hay with
      | [] => false
      | _ :: rest => listHasSub rest need

/-- Python `sub in s` for strings: contiguous substring test. -/
def strContainsSub (s sub : String) : Bool := listHasSub s.data sub.data

/-- Python `s.startswith(pre)`. -/
def pyStartsWith (s pre : String) : Bool := listStartsWith s.data pre.data

/-- Python `key in x` for a string key: dict-key membership, list element
equality, or substring test; TypeError on non-containers. -/
def pyContains : Py → String → Except PyErr Bool
  | .dict d, k => .ok (pyLookup d k).isSome
  | .list xs, k => .ok (xs.any (fun v => pyEqStr v k))
  | .str s, k => .ok (strContainsSub s k)
  | _, _ => .error .typeError

/-- Escape one character as Python `repr` does for the common escapes
(backslash, the active quote, newline, tab, carriage return). -/
def pyCharEsc (q : Char) (c : Char) : String :=
  if c = '\\' then "\\\\"
  else if c = q then String.mk ['\\', c]
  else if c = '\n' then "\\n"
  else if c = '\t' then "\\t"
  else if c = '\r' then "\\r"
  else String.mk [c]

/-- Python `repr` of a string: quoted with a single quote unless the string
contains one and no double quote, with the common escapes applied. -/
def pyStrQuote (s : String) : String :=
  let sq : Char := Char.ofNat 39
  let q : Char := if s.data.contains sq && !(s.data.contains '"') then '"' else sq
  String.mk [q] ++ String.join (s.data.map (pyCharEsc q)) ++ String.mk [q]

mutual

/-- Python `str(v)`, as interpolated by f-strings. -/
def pyStr : Py → String
  | .none => "None"
  | .bool true => "True"
  | .bool false => "False"
  | .int n => toString n
  | .str s => s
  | .list xs => "[" ++ String.intercalate ", " (pyReprList xs) ++ "]"
  | .dict d => "\x7b" ++ String.intercalate ", " (pyReprEntries d) ++ "\x7d"

/-- Python `repr(v)`: like `str` but strings are quoted. -/
def pyRepr : Py → String
  | .none => "None"
  | .bool true => "True"
  | .bool false => "False"
  | .int n => toString n
  | .str s => pyStrQuote s
  | .list xs => "[" ++ String.intercalate ", " (pyReprList xs) ++ "]"
  | .dict d => "\x7b" ++ String.intercalate ", " (pyReprEntries d) ++ "\x7d"

/-- Reprs of the elements of a list value. -/
def pyReprList : List Py → List String
  | [] => []
  | v :: rest => pyRepr v :: pyReprList rest

/-- Reprs of the entries of a dict value, `'key': value` style. -/
def pyReprEntries : List (String × Py) → List String
  | [] => []
  | (k, v) :: rest => (pyStrQuote k ++ ": " ++ pyRepr v) :: pyReprEntries rest

end

/-! ## Relationship inference engine (`discovery/relationships.py`) -/

/-- A discovered relationship between two Azure resources
(`ResourceRelationship` in `relationships.py`).  The constructor lower-cases
both IDs; see `mkRelationship`. -/
structure ResourceRelationship where
  source_id : String
  target_id : String
  relationship_type : String
  label : String
deriving Repr, DecidableEq

/-- The `ResourceRelationship` constructor: lower-cases `source_id` and
`target_id` before storing them.  The source argument is always a string at
the call sites (a resource ID already extracted), while the target may be an
arbitrary property value, so `.lower()` on it can raise AttributeError. -/
def mkRelationship (source : String) (target : Py) (rtype lbl : String) :
    Except PyErr ResourceRelationship := do
  let t ← pyLowerStr target
  .ok ⟨strLower source, t, rtype, lbl⟩

/-- The identity triple of a relationship: `__eq__`/`__hash__` compare only
`(source_id, target_id, relationship_type)`; the label is metadata. -/
def relTriple (r : ResourceRelationship) : String × String × String :=
  (r.source_id, r.target_id, r.relationship_type)

/-- The `__eq__` of `ResourceRelationship`: fieldwise on the triple, ignoring
the label. -/
def relEq (a b : ResourceRelationship) : Bool :=
  a.source_id = b.source_id && a.target_id = b.target_id &&
    a.relationship_type = b.relationship_type

/-- Adding one element to the relationship set: a no-op when an element with
the same identity triple is already present (Python `set.add` keeps the
existing element). -/
def setInsert (s : List ResourceRelationship) (r : ResourceRelationship) :
    List ResourceRelationship :=
  if s.any (fun x => relEq x r) then s else s ++ [r]

/-- Python `relationships.update(new)`: insert the new relationships in
order.  The list represents the set contents in first-insertion order. -/
def setUpdate (s : List ResourceRelationship) (new : List ResourceRelationship) :
    List ResourceRelationship :=
  new.foldl setInsert s

/-- The `_safe_get` helper: navigate nested dicts, returning the default as
soon as an intermediate value is not a dict. -/
def safeGet : Py → List String → Py → Py
  | cur, [], _ => cur
  | .dict d, k :: ks, dflt => safeGet ((pyLookup d k).getD dflt) ks dflt
  | _, _ :: _, dflt => dflt

/-- The `_extract_id` helper: a dict yields its `id` entry (or `None`), a
string yields itself when it starts with the cloud root path, anything else
yields `None`. -/
def extractId : Py → Py
  | .dict d => (pyLookup d "id").getD .none
  | .str s => if pyStartsWith s "/subscriptions/" then .str s else .none
  | _ => .none

/-- The literal matched case-insensitively by `_ip_config_to_nic_id`. -/
def nicLit : List Char := "/microsoft.network/networkinterfaces/".data

/-- Is there a match of `nicLit` at the head of `cs` (already lower-cased)
followed by at least one non-slash character? -/
def nicLitAt (cs : List Char) : Bool :=
  listStartsWith cs nicLit &&
    (match cs.drop nicLit.length with
     | c :: _ => c != '/'
     | [] => false)

/-- Length of the regex group at a given split: the literal plus the maximal
run of non-slash characters after it. -/
def nicMatchLen (cs : List Char) : Nat :=
  nicLit.length + ((cs.drop nicLit.length).takeWhile (fun c => c != '/')).length

/-- Find the largest split position `p` (greedy `.*`) such that the literal
matches at `p`; `.` does not match a newline, so the prefix before `p` must
be newline-free.  Returns the full `group(1)` length. -/
def nicScan : List Char → Nat → Option Nat
  | cs, p =>
    let here : Option Nat :=
      if nicLitAt cs then some (p + nicMatchLen cs) else Option.none
    match cs with
    | [] => here
    | c :: rest =>
      if c = '\n' then here
      else match nicScan rest (p + 1) with
        | some n => some n
        | Option.none => here

/-- The `_ip_config_to_nic_id` helper:
`re.match(r"(.*/microsoft\.network/networkinterfaces/[^/]+)", s, IGNORECASE)`
and return `group(1)`; `None` when there is no match. -/
def nicIdMatch (s : String) : Option String :=
  match nicScan (strLower s).data 0 with
  | some n => some (String.mk (s.data.take n))
  | Option.none => Option.none

/-- Calling `_ip_config_to_nic_id` on a property value: `re.match` raises
TypeError on non-strings. -/
def ipConfigToNicId : Py → Except PyErr (Option String)
  | .str s => .ok (nicIdMatch s)
  | _ => .error .typeError

/-- The `if <ref>: rels.append(ResourceRelationship(source, ref, type, label))`
statement shared by the extractors: zero or one relationship, guarded by the
truthiness of the target reference. -/
def relIf (source : String) (target : Py) (rtype lbl : String) :
    Except PyErr (List ResourceRelationship) :=
  if target.truthy then do
    let r ← mkRelationship source target rtype lbl
    .ok [r]
  else .ok []

/-- One `for x in items: rels.extend(body x)` loop over property values,
propagating the first error, as every extractor loop does. -/
def pyForRels (body : Py → Except PyErr (List ResourceRelationship)) :
    List Py → Except PyErr (List ResourceRelationship)
  | [] => .ok []
  | x :: rest => do
    let head ← body x
    let tail ← pyForRels body rest
    .ok (head ++ tail)

/-- Loop body over `properties.networkProfile.networkInterfaces` in
`_infer_vm_relationships`. -/
def vmNicBody (vmId : String) (nicRef : Py) :
    Except PyErr (List ResourceRelationship) :=
  relIf vmId (extractId nicRef) "has_nic" "NIC"

/-- The `_infer_vm_relationships` extractor: VM to NIC edges. -/
def inferVmRelationships (vmId : String) (props : Py) :
    Except PyErr (List ResourceRelationship) := do
  let nics := safeGet props ["networkProfile", "networkInterfaces"] (.list [])
  let items ← pyIter nics
  pyForRels (vmNicBody vmId) items

/-- Loop body over `ipConfigurations` in `_infer_nic_relationships`. -/
def nicIpConfigBody (nicId : String) (ipConfig : Py) :
    Except PyErr (List ResourceRelationship) := do
  let ipProps := pyOr (← pyGet ipConfig "properties" (.dict [])) (.dict [])
  let subnetRef ← pyGet ipProps "subnet" .none
  let part1 ← relIf nicId (extractId subnetRef) "in_subnet" "Subnet"
  let pipRef ← pyGet ipProps "publicIPAddress" .none
  let part2 ← relIf nicId (extractId pipRef) "has_public_ip" "Public IP"
  .ok (part1 ++ part2)

/-- The `_infer_nic_relationships` extractor: NIC to NSG, subnet, public IP. -/
def inferNicRelationships (nicId : String) (props : Py) :
    Except PyErr (List ResourceRelationship) := do
  let head ← relIf nicId (extractId (safeGet props ["networkSecurityGroup"] .none))
    "secured_by" "NSG"
  let items ← pyIter (safeGet props ["ipConfigurations"] (.list []))
  let rest ← pyForRels (nicIpConfigBody nicId) items
  .ok (head ++ rest)

/-- Loop body over `virtualNetworkPeerings` in `_infer_vnet_relationships`. -/
def vnetPeeringBody (vnetId : String) (peering : Py) :
    Except PyErr (List ResourceRelationship) := do
  let peeringProps := pyOr (← pyGet peering "properties" (.dict [])) (.dict [])
  relIf vnetId (extractId (safeGet peeringProps ["remoteVirtualNetwork"] .none))
    "peered_with" "VNet Peering"

/-- The `_infer_vnet_relationships` extractor: VNet peering edges. -/
def inferVnetRelationships (vnetId : String) (props : Py) :
    Except PyErr (List ResourceRelationship) := do
  let peerings := safeGet props ["virtualNetworkPeerings"] (.list [])
  let items ← pyIter peerings
  pyForRels (vnetPeeringBody vnetId) items

/-- Loop body for the two NSG association loops (`subnets`,
`networkInterfaces`), differing only in the label. -/
def nsgRefBody (nsgId lbl : String) (ref : Py) :
    Except PyErr (List ResourceRelationship) :=
  relIf nsgId (extractId ref) "applied_to" lbl

/-- The `_infer_nsg_relationships` extractor: NSG applied to subnets/NICs. -/
def inferNsgRelationships (nsgId : String) (props : Py) :
    Except PyErr (List ResourceRelationship) := do
  let subnets := safeGet props ["subnets"] (.list [])
  let part1 ← pyForRels (nsgRefBody nsgId "NSG -> Subnet") (← pyIter subnets)
  let nics := safeGet props ["networkInterfaces"] (.list [])
  let part2 ← pyForRels (nsgRefBody nsgId "NSG -> NIC") (← pyIter nics)
  .ok (part1 ++ part2)

/-- Inner loop body over `backendIPConfigurations` in
`_infer_lb_relationships`. -/
def lbIfaceBody (lbId : String) (iface : Py) :
    Except PyErr (List ResourceRelationship) :=
  if (extractId iface).truthy then do
    let nicId ← ipConfigToNicId (extractId iface)
    match nicId with
    | some nid => relIf lbId (.str nid) "load_balances" "Backend"
    | Option.none => .ok []
  else .ok []

/-- Outer loop body over `backendAddressPools` in `_infer_lb_relationships`. -/
def lbPoolBody (lbId : String) (pool : Py) :
    Except PyErr (List ResourceRelationship) := do
  let poolProps := pyOr (← pyGet pool "properties" (.dict [])) (.dict [])
  let interfaces ← pyGet poolProps "backendIPConfigurations" (.list [])
  let items ← pyIter interfaces
  pyForRels (lbIfaceBody lbId) items

/-- The `_infer_lb_relationships` extractor: LB to backend NICs. -/
def inferLbRelationships (lbId : String) (props : Py) :
    Except PyErr (List ResourceRelationship) := do
  let pools := safeGet props ["backendAddressPools"] (.list [])
  let items ← pyIter pools
  pyForRels (lbPoolBody lbId) items

/-- Inner loop body over `backendAddresses` in `_infer_appgw_relationships`. -/
def appgwAddrBody (appgwId : String) (addr : Py) :
    Except PyErr (List ResourceRelationship) := do
  let fqdn ← pyGet addr "fqdn" (.str "")
  relIf appgwId fqdn "routes_to" ("Backend: " ++ pyStr fqdn)

/-- Outer loop body over `backendAddressPools` in
`_infer_appgw_relationships`. -/
def appgwPoolBody (appgwId : String) (pool : Py) :
    Except PyErr (List ResourceRelationship) := do
  let poolProps := pyOr (← pyGet pool "properties" (.dict [])) (.dict [])
  let addresses ← pyGet poolProps "backendAddresses" (.list [])
  let items ← pyIter addresses
  pyForRels (appgwAddrBody appgwId) items

/-- Loop body over `gatewayIPConfigurations` in
`_infer_appgw_relationships`. -/
def appgwGwIpBody (appgwId : String) (gwIp : Py) :
    Except PyErr (List ResourceRelationship) := do
  let gwProps := pyOr (← pyGet gwIp "properties" (.dict [])) (.dict [])
  let subnetRef ← pyGet gwProps "subnet" .none
  relIf appgwId (extractId subnetRef) "in_subnet" "AppGW Subnet"

/-- The `_infer_appgw_relationships` extractor: AppGW backends and subnet. -/
def inferAppgwRelationships (appgwId : String) (props : Py) :
    Except PyErr (List ResourceRelationship) := do
  let pools := safeGet props ["backendAddressPools"] (.list [])
  let part1 ← pyForRels (appgwPoolBody appgwId) (← pyIter pools)
  let gwIpConfigs := safeGet props ["gatewayIPConfigurations"] (.list [])
  let part2 ← pyForRels (appgwGwIpBody appgwId) (← pyIter gwIpConfigs)
  .ok (part1 ++ part2)

/-- Python `a += b` on the values that occur when concatenating the two
private-link connection lists: list extend (any iterable), string and
numeric addition; TypeError otherwise. -/
def pyIadd : Py → Py → Except PyErr Py
  | .list xs, b => do
    let ys ← pyIter b
    .ok (.list (xs ++ ys))
  | .str s, .str t => .ok (.str (s ++ t))
  | .int a, .int b => .ok (.int (a + b))
  | .int a, .bool b => .ok (.int (a + if b then 1 else 0))
  | .bool a, .int b => .ok (.int ((if a then 1 else 0) + b))
  | .bool a, .bool b => .ok (.int ((if a then 1 else 0) + if b then 1 else 0))
  | _, _ => .error .typeError

/-- Loop body over the private-link service connections in
`_infer_pe_relationships`. -/
def peConnBody (peId : String) (conn : Py) :
    Except PyErr (List ResourceRelationship) := do
  let connProps := pyOr (← pyGet conn "properties" (.dict [])) (.dict [])
  let serviceId ← pyGet connProps "privateLinkServiceId" .none
  relIf peId serviceId "private_link_to" "Private Link"

/-- The `_infer_pe_relationships` extractor: private endpoint to target
service and to subnet. -/
def inferPeRelationships (peId : String) (props : Py) :
    Except PyErr (List ResourceRelationship) := do
  let conns0 := safeGet props ["privateLinkServiceConnections"] (.list [])
  let manual := safeGet props ["manualPrivateLinkServiceConnections"] (.list [])
  let connections ← pyIadd conns0 manual
  let items ← pyIter connections
  let part1 ← pyForRels (peConnBody peId) items
  let part2 ← relIf peId (extractId (safeGet props ["subnet"] .none)) "in_subnet" "PE Subnet"
  .ok (part1 ++ part2)

/-- The `_infer_app_service_relationships` extractor: VNet integration and
hosting plan. -/
def inferAppServiceRelationships (appId : String) (props : Py) :
    Except PyErr (List ResourceRelationship) := do
  let part1 ← relIf appId (safeGet props ["virtualNetworkSubnetId"] .none)
    "vnet_integrated" "VNet Integration"
  let part2 ← relIf appId (safeGet props ["serverFarmId"] .none)
    "hosted_on" "App Service Plan"
  .ok (part1 ++ part2)

/-- Loop body over `privateEndpointConnections` in
`_infer_data_resource_relationships`. -/
def dataPeBody (resourceId : String) (peConn : Py) :
    Except PyErr (List ResourceRelationship) := do
  let peProps := pyOr (← pyGet peConn "properties" (.dict [])) (.dict [])
  relIf resourceId (extractId (safeGet peProps ["privateEndpoint"] .none))
    "has_private_endpoint" "Private Endpoint"

/-- The `rule_props.get("virtualNetworkSubnetId") or rule.get("id", "")`
fallback in `_infer_data_resource_relationships` (short-circuiting: the
second `get` runs only when the first value is falsy). -/
def vnetRuleSubnetId (rule fromProps : Py) : Except PyErr Py :=
  if fromProps.truthy then pure fromProps else pyGet rule "id" (.str "")

/-- Loop body over `virtualNetworkRules` in
`_infer_data_resource_relationships`. -/
def dataVnetRuleBody (resourceId : String) (rule : Py) :
    Except PyErr (List ResourceRelationship) := do
  let ruleProps :=
    match rule with
    | .dict d => (pyLookup d "properties").getD (.dict [])
    | _ => .dict []
  let fromProps ← pyGet ruleProps "virtualNetworkSubnetId" .none
  let subnetId ← vnetRuleSubnetId rule fromProps
  if subnetId.truthy then do
    let sl ← pyLowerStr subnetId
    if strContainsSub sl "/subnets/" then
      relIf resourceId subnetId "vnet_rule" "VNet Service Endpoint"
    else .ok []
  else .ok []

/-- The `_infer_data_resource_relationships` extractor: SQL/Cosmos/Redis to
private endpoints and VNet rules. -/
def inferDataResourceRelationships (resourceId : String) (props : Py) :
    Except PyErr (List ResourceRelationship) := do
  let peConnections := safeGet props ["privateEndpointConnections"] (.list [])
  let part1 ← pyForRels (dataPeBody resourceId) (← pyIter peConnections)
  let vnetRules := safeGet props ["virtualNetworkRules"] (.list [])
  let part2 ← pyForRels (dataVnetRuleBody resourceId) (← pyIter vnetRules)
  .ok (part1 ++ part2)

/-- The dead `resource_index` comprehension at the head of
`build_relationship_graph`: it produces nothing used later but evaluates
`r["id"].lower()` for every resource containing an `id`, so its possible
errors are part of the function's behaviour. -/
def indexLoop : List Py → Except PyErr Unit
  | [] => .ok ()
  | r :: rest => do
    let mem ← pyContains r "id"
    if mem then do
      let v ← pySubscript r "id"
      let _ ← pyLowerStr v
      indexLoop rest
    else indexLoop rest

/-- One iteration of the dispatch loop in `build_relationship_graph`:
select the extractor by the lower-cased resource type and update the set. -/
def dispatchResource (relationships : List ResourceRelationship) (resource : Py) :
    Except PyErr (List ResourceRelationship) := do
  let rid ← pyLowerStr (← pyGet resource "id" (.str ""))
  let rtype ← pyLowerStr (← pyGet resource "type" (.str ""))
  let props := pyOr (← pyGet resource "properties" (.dict [])) (.dict [])
  if rtype = "microsoft.compute/virtualmachines" then
    pure (setUpdate relationships (← inferVmRelationships rid props))
  else if rtype = "microsoft.network/networkinterfaces" then
    pure (setUpdate relationships (← inferNicRelationships rid props))
  else if rtype = "microsoft.network/virtualnetworks" then
    pure (setUpdate relationships (← inferVnetRelationships rid props))
  else if rtype = "microsoft.network/networksecuritygroups" then
    pure (setUpdate relationships (← inferNsgRelationships rid props))
  else if rtype = "microsoft.network/loadbalancers" then
    pure (setUpdate relationships (← inferLbRelationships rid props))
  else if rtype = "microsoft.network/applicationgateways" then
    pure (setUpdate relationships (← inferAppgwRelationships rid props))
  else if rtype = "microsoft.network/privateendpoints" then
    pure (setUpdate relationships (← inferPeRelationships rid props))
  else if rtype = "microsoft.web/sites" then
    pure (setUpdate relationships (← inferAppServiceRelationships rid props))
  else if rtype = "microsoft.sql/servers" ∨ rtype = "microsoft.documentdb/databaseaccounts"
      ∨ rtype = "microsoft.cache/redis" then
    pure (setUpdate relationships (← inferDataResourceRelationships rid props))
  else
    pure relationships

/-- The `build_relationship_graph` function.  The returned list is the
contents of the Python relationship set in first-insertion order; CPython
returns `list(set)`, whose enumeration is an unspecified permutation of
these contents because string hashing is randomized per process. -/
def buildRelationshipSet (resources : List Py) :
    Except PyErr (List ResourceRelationship) := do
  indexLoop resources
  resources.foldlM dispatchResource []

/-! ## Data flow derivation (`discovery/data_flow.py`) -/

/-- A directed data flow (`DataFlow` in `data_flow.py`).  `source`,
`destination` and `protocol` are stored verbatim (the Python constructor
annotates them `str` but stores whatever value reaches it); `port`, `label`
and `flow_type` are strings at every call site. -/
structure DataFlow where
  source : Py
  destination : Py
  protocol : Py
  port : String
  label : String
  flow_type : String
deriving Repr

/-- The `DataFlow._build_label` method: uppercased protocol then port,
space-joined, omitting falsy and `"*"` values. -/
def buildLabel (protocol : Py) (port : String) : Except PyErr String := do
  let parts1 ←
    if protocol.truthy && !(pyEqStr protocol "*") then do
      let u ← pyUpperStr protocol
      pure [u]
    else pure []
  let parts := parts1 ++ (if port ≠ "" && port ≠ "*" then [port] else [])
  .ok (String.intercalate " " parts)

/-- The `DataFlow` constructor: stores the fields and sets
`label = label or _build_label()`, so an empty label argument triggers
auto-derivation from protocol and port. -/
def mkDataFlow (source destination protocol : Py) (port lbl ft : String) :
    Except PyErr DataFlow := do
  let label ← if lbl ≠ "" then pure lbl else buildLabel protocol port
  .ok ⟨source, destination, protocol, port, label, ft⟩

/-- The `label_parts` block of `_flows_from_nsg_rules`: uppercased protocol
then stringified port, space-joined, omitting falsy and `"*"` values. -/
def nsgRuleLabel (protocol destPort : Py) : Except PyErr String := do
  let parts1 ←
    if protocol.truthy && !(pyEqStr protocol "*") then do
      let u ← pyUpperStr protocol
      pure [u]
    else pure []
  let parts :=
    parts1 ++ (if destPort.truthy && !(pyEqStr destPort "*") then [pyStr destPort] else [])
  .ok (String.intercalate " " parts)

/-- One iteration of the rule loop in `_flows_from_nsg_rules`: the flows (zero
or one) contributed by a single NSG rule record. -/
def ruleFlows (rule : Py) : Except PyErr (List DataFlow) := do
  let access ← pyLowerStr (pyOr (← pyGet rule "access" .none) (.str ""))
  let direction ← pyLowerStr (pyOr (← pyGet rule "direction" .none) (.str ""))
  if access ≠ "allow" then .ok []
  else do
    let source ← pyGet rule "sourceAddressPrefix" (.str "*")
    let destination ← pyGet rule "destinationAddressPrefix" (.str "*")
    let protocol ← pyGet rule "protocol" (.str "*")
    let destPort ← pyGet rule "destinationPortRange" (.str "*")
    let nsgName ← pyGet rule "nsgName" (.str "")
    let _ruleName ← pyGet rule "ruleName" (.str "")
    if pyEqStr source "*" && pyEqStr destination "*" then .ok []
    else do
      let label ← nsgRuleLabel protocol destPort
      if direction = "inbound" then do
        let f ← mkDataFlow source
          (.str (pyStr nsgName ++ " (" ++ pyStr destination ++ ")"))
          protocol (pyStr destPort) label "network"
        .ok [f]
      else if direction = "outbound" then do
        let f ← mkDataFlow
          (.str (pyStr nsgName ++ " (" ++ pyStr source ++ ")"))
          destination protocol (pyStr destPort) label "network"
        .ok [f]
      else .ok []

/-- The `_flows_from_nsg_rules` function: concatenate the per-rule flows. -/
def flowsFromNsgRules : List Py → Except PyErr (List DataFlow)
  | [] => .ok []
  | rule :: rest => do
    let head ← ruleFlows rule
    let tail ← flowsFromNsgRules rest
    .ok (head ++ tail)

/-- Dict assignment `d[k] = v` on a string-valued dict: overwrite in place
when the key exists, else append (CPython keeps the first-insertion slot). -/
def dictInsertStr (d : List (String × String)) (k v : String) :
    List (String × String) :=
  if d.any (fun kv => kv.1 = k) then
    d.map (fun kv => if kv.1 = k then (k, v) else kv)
  else d ++ [(k, v)]

/-- Generic association-list lookup keyed by strings (first match). -/
def alistLookup {α : Type} : List (String × α) → String → Option α
  | [], _ => Option.none
  | (k, v) :: rest, key => if k = key then some v else alistLookup rest key

/-- One step of the relationship scan in `_flows_from_private_endpoints`,
populating the `pe_to_service` and `pe_to_subnet` dicts. -/
def peMapsStep (maps : List (String × String) × List (String × String))
    (rel : ResourceRelationship) :
    List (String × String) × List (String × String) :=
  if rel.relationship_type = "private_link_to" then
    (dictInsertStr maps.1 rel.source_id rel.target_id, maps.2)
  else if rel.relationship_type = "in_subnet" &&
      strContainsSub rel.source_id "/privateendpoints/" then
    (maps.1, dictInsertStr maps.2 rel.source_id rel.target_id)
  else maps

/-- The `pe_to_service` dict: private endpoint ID to target service ID
(a later relationship for the same endpoint overwrites the value). -/
def peToService (rels : List ResourceRelationship) : List (String × String) :=
  (rels.foldl peMapsStep ([], [])).1

/-- The `pe_to_subnet` dict: private endpoint ID to subnet ID. -/
def peToSubnet (rels : List ResourceRelationship) : List (String × String) :=
  (rels.foldl peMapsStep ([], [])).2

/-- Python `s.rstrip("/")`. -/
def rstripSlash (s : String) : String :=
  String.mk (s.data.reverse.dropWhile (fun c => c = '/')).reverse

/-- Helper for `splitSlash`: accumulate the current segment (reversed). -/
def splitSlashAux : List Char → List Char → List String
  | acc, [] => [String.mk acc.reverse]
  | acc, c :: rest =>
    if c = '/' then String.mk acc.reverse :: splitSlashAux [] rest
    else splitSlashAux (c :: acc) rest

/-- Python `s.split("/")`: split on every slash, keeping empty segments. -/
def splitSlash (s : String) : List String := splitSlashAux [] s.data

/-- The string path of `_extract_name_from_id`: last path segment of the
ID after stripping trailing slashes; `"Unknown"` for the empty string. -/
def extractNameStr (s : String) : String :=
  if s = "" then "Unknown" else (splitSlash (rstripSlash s)).getLastD "Unknown"

/-- The `_extract_name_from_id` helper on an arbitrary property value: falsy
values yield `"Unknown"`, non-string truthy values raise (no `rstrip`). -/
def extractNameFromId : Py → Except PyErr String
  | v =>
    if !v.truthy then .ok "Unknown"
    else match v with
      | .str s => .ok (extractNameStr s)
      | _ => .error .attributeError

/-- Dict assignment `d[k] = v` for `Py`-valued dicts. -/
def dictInsertPy (d : List (String × Py)) (k : String) (v : Py) :
    List (String × Py) :=
  if d.any (fun kv => kv.1 = k) then
    d.map (fun kv => if kv.1 = k then (k, v) else kv)
  else d ++ [(k, v)]

/-- The `resource_names` dict comprehension in
`_flows_from_private_endpoints`: lower-cased resource ID to name, defaulting
to the last ID path segment (the default expression is evaluated eagerly, as
an argument of `dict.get`). -/
def resourceNames : List Py → Except PyErr (List (String × Py))
  | [] => .ok []
  | r :: rest => do
    let mem ← pyContains r "id"
    if mem then do
      let idv ← pySubscript r "id"
      let key ← pyLowerStr idv
      let idStr ←
        match idv with
        | .str s => pure s
        | _ => Except.error PyErr.attributeError
      let dflt := Py.str ((splitSlash idStr).getLastD "")
      let name ← pyGet r "name" dflt
      let tail ← resourceNames rest
      .ok (dictInsertPy tail key name)
    else resourceNames rest

/-- One iteration of the `pe_to_service.items()` loop in
`_flows_from_private_endpoints`. -/
def peFlowOf (names : List (String × Py)) (subnetMap : List (String × String))
    (entry : String × String) : DataFlow :=
  let subnetId := (alistLookup subnetMap entry.1).getD ""
  let sourceName :=
    let n := extractNameStr subnetId
    if n = "" then "VNet" else n
  let targetName : Py :=
    (pyLookup names (strLower entry.2)).getD (.str (extractNameStr entry.2))
  { source := .str sourceName
    destination := targetName
    protocol := .str "TCP"
    port := "443"
    label := "Private Link -> " ++ pyStr targetName
    flow_type := "private_link" }

/-- The `_flows_from_private_endpoints` function: one `private_link` flow per
entry of the `pe_to_service` dict, in dict order. -/
def flowsFromPrivateEndpoints (resources : List Py)
    (relationships : List ResourceRelationship) :
    Except PyErr (List DataFlow) := do
  let serviceMap := peToService relationships
  let subnetMap := peToSubnet relationships
  let names ← resourceNames resources
  .ok (serviceMap.map (peFlowOf names subnetMap))

/-- Innermost loop of `_flows_from_service_endpoints`: one flow per truthy
`serviceEndpoints[].service` of a subnet. -/
def seEndpointLoop (vnetName subnetName : Py) :
    List Py → Except PyErr (List DataFlow)
  | [] => .ok []
  | endpoint :: rest => do
    let service ← pyGet endpoint "service" (.str "")
    let head ←
      if service.truthy then do
        let f ← mkDataFlow (.str (pyStr vnetName ++ "/" ++ pyStr subnetName))
          service (.str "TCP") ""
          ("Service Endpoint: " ++ pyStr service) "service_endpoint"
        pure [f]
      else pure []
    let tail ← seEndpointLoop vnetName subnetName rest
    .ok (head ++ tail)

/-- Middle loop of `_flows_from_service_endpoints` over a VNet's subnets. -/
def seSubnetLoop (vnetName : Py) : List Py → Except PyErr (List DataFlow)
  | [] => .ok []
  | subnet :: rest => do
    let subnetProps := pyOr (← pyGet subnet "properties" (.dict [])) (.dict [])
    let subnetName ← pyGet subnet "name" (.str "")
    let serviceEndpoints ← pyGet subnetProps "serviceEndpoints" (.list [])
    let items ← pyIter serviceEndpoints
    let head ← seEndpointLoop vnetName subnetName items
    let tail ← seSubnetLoop vnetName rest
    .ok (head ++ tail)

/-- The `_flows_from_service_endpoints` function: scan virtual networks for
subnet service endpoints. -/
def flowsFromServiceEndpoints : List Py → Except PyErr (List DataFlow)
  | [] => .ok []
  | resource :: rest => do
    let rtype ← pyLowerStr (pyOr (← pyGet resource "type" .none) (.str ""))
    let head ←
      if rtype ≠ "microsoft.network/virtualnetworks" then pure []
      else do
        let props := pyOr (← pyGet resource "properties" (.dict [])) (.dict [])
        let subnets ← pyGet props "subnets" (.list [])
        let vnetName ← pyGet resource "name" (.str "")
        let items ← pyIter subnets
        seSubnetLoop vnetName items
    let tail ← flowsFromServiceEndpoints rest
    .ok (head ++ tail)

/-- Inner loop of `_flows_from_diagnostic_settings` over the
`diagnosticSettings` entries of one resource. -/
def diagSettingLoop (resourceName : Py) : List Py → Except PyErr (List DataFlow)
  | [] => .ok []
  | setting :: rest => do
    let settingProps := pyOr (← pyGet setting "properties" (.dict [])) (.dict [])
    let workspaceId ← pyGet settingProps "workspaceId" .none
    let part1 ←
      if workspaceId.truthy then do
        let dest ← extractNameFromId workspaceId
        let f ← mkDataFlow resourceName (.str dest) (.str "") ""
          "Diagnostics -> Log Analytics" "diagnostic"
        pure [f]
      else pure []
    let storageId ← pyGet settingProps "storageAccountId" .none
    let part2 ←
      if storageId.truthy then do
        let dest ← extractNameFromId storageId
        let f ← mkDataFlow resourceName (.str dest) (.str "") ""
          "Diagnostics -> Storage" "diagnostic"
        pure [f]
      else pure []
    let ehId ← pyGet settingProps "eventHubAuthorizationRuleId" .none
    let part3 ←
      if ehId.truthy then do
        let dest ← extractNameFromId ehId
        let f ← mkDataFlow resourceName (.str dest) (.str "") ""
          "Diagnostics -> Event Hub" "diagnostic"
        pure [f]
      else pure []
    let tail ← diagSettingLoop resourceName rest
    .ok (part1 ++ part2 ++ part3 ++ tail)

/-- The `_flows_from_diagnostic_settings` function. -/
def flowsFromDiagnosticSettings : List Py → Except PyErr (List DataFlow)
  | [] => .ok []
  | resource :: rest => do
    let props := pyOr (← pyGet resource "properties" (.dict [])) (.dict [])
    let resourceName ← pyGet resource "name" (.str "")
    let diagSettings ← pyGet props "diagnosticSettings" (.list [])
    let items ← pyIter diagSettings
    let head ← diagSettingLoop resourceName items
    let tail ← flowsFromDiagnosticSettings rest
    .ok (head ++ tail)

/-- The `discover_data_flows` function: the four sub-derivations
concatenated in order; the NSG sub-derivation runs only when `nsg_rules` is
truthy (present and non-empty). -/
def discoverDataFlows (resources : List Py)
    (relationships : List ResourceRelationship)
    (nsgRules : Option (List Py)) : Except PyErr (List DataFlow) := do
  let part1 ←
    match nsgRules with
    | some rules => if rules.isEmpty then pure [] else flowsFromNsgRules rules
    | Option.none => pure []
  let part2 ← flowsFromPrivateEndpoints resources relationships
  let part3 ← flowsFromServiceEndpoints resources
  let part4 ← flowsFromDiagnosticSettings resources
  .ok (part1 ++ part2 ++ part3 ++ part4)

/-! ## IP resolution (`discovery/ip_resolver.py`) -/

/-- Python `d.setdefault(k, []).append(v)` on a dict of lists. -/
def mapAppend {α : Type} (m : List (String × List α)) (k : String) (v : α) :
    List (String × List α) :=
  if m.any (fun kv => kv.1 = k) then
    m.map (fun kv => if kv.1 = k then (kv.1, kv.2 ++ [v]) else kv)
  else m ++ [(k, [v])]

/-- The three lookup tables built by `IPResolver._build_indexes`. -/
structure IPResolver where
  nicPrivateIps : List (String × List Py)
  nicPublicIpIds : List (String × List String)
  publicIpAddresses : List (String × Py)
deriving Repr

/-- Python `(ref.get("id") or "").lower() if isinstance(ref, dict) else ""`,
the guarded ID extraction used on NIC and public-IP references. -/
def guardedIdLower : Py → Except PyErr String
  | .dict d => pyLowerStr (pyOr ((pyLookup d "id").getD .none) (.str ""))
  | _ => .ok ""

/-- One iteration of the `ipConfigurations` loop in
`IPResolver._build_indexes`. -/
def ipConfigIndexBody (rid : String) (res : IPResolver) (ipConfig : Py) :
    Except PyErr IPResolver := do
  let ipProps := pyOr (← pyGet ipConfig "properties" .none) (.dict [])
  let privIp ← pyGet ipProps "privateIPAddress" (.str "")
  let res1 :=
    if privIp.truthy then
      { res with nicPrivateIps := mapAppend res.nicPrivateIps rid privIp }
    else res
  let pipRef := pyOr (← pyGet ipProps "publicIPAddress" .none) (.dict [])
  let pipId ← guardedIdLower pipRef
  if pipId ≠ "" then
    .ok { res1 with nicPublicIpIds := mapAppend res1.nicPublicIpIds rid pipId }
  else .ok res1

/-- One iteration of the resource loop in `IPResolver._build_indexes`. -/
def buildIndexBody (res : IPResolver) (resource : Py) :
    Except PyErr IPResolver := do
  let rid ← pyLowerStr (pyOr (← pyGet resource "id" .none) (.str ""))
  let rtype ← pyLowerStr (pyOr (← pyGet resource "type" .none) (.str ""))
  let props := pyOr (← pyGet resource "properties" .none) (.dict [])
  if rtype = "microsoft.network/publicipaddresses" then do
    let ipAddr ← pyGet props "ipAddress" (.str "")
    if ipAddr.truthy then
      .ok { res with
            publicIpAddresses := dictInsertPy res.publicIpAddresses rid ipAddr }
    else .ok res
  else if rtype = "microsoft.network/networkinterfaces" then do
    let ipConfigs ← pyGet props "ipConfigurations" (.list [])
    let items ← pyIter ipConfigs
    items.foldlM (ipConfigIndexBody rid) res
  else .ok res

/-- The `IPResolver` constructor: build the three indexes in one pass. -/
def buildIPResolver (resources : List Py) : Except PyErr IPResolver :=
  resources.foldlM buildIndexBody ⟨[], [], []⟩

/-- One iteration of the NIC-reference loop in `IPResolver.get_vm_ips`. -/
def vmNicIpsBody (res : IPResolver) (acc : List String) (nicRef : Py) :
    Except PyErr (List String) := do
  let nicId ← guardedIdLower nicRef
  if nicId = "" then .ok acc
  else
    let privs := (alistLookup res.nicPrivateIps nicId).getD []
    let acc1 := acc ++ privs.map (fun p => "priv: " ++ pyStr p)
    let pips := (alistLookup res.nicPublicIpIds nicId).getD []
    let acc2 := pips.foldl
      (fun a pipId =>
        let pubIp := (pyLookup res.publicIpAddresses pipId).getD (.str "")
        if pubIp.truthy then a ++ ["pub: " ++ pyStr pubIp] else a)
      acc1
    .ok acc2

/-- The `IPResolver.get_vm_ips` method: displayable private/public IP
strings for a VM, resolved through the indexes. -/
def getVmIps (res : IPResolver) (vm : Py) : Except PyErr (List String) := do
  let props := pyOr (← pyGet vm "properties" .none) (.dict [])
  let networkProfile := pyOr (← pyGet props "networkProfile" .none) (.dict [])
  let nicRefs ← pyGet networkProfile "networkInterfaces" (.list [])
  let items ← pyIter nicRefs
  items.foldlM (vmNicIpsBody res) []

/-- One iteration of the frontend-configuration loop in
`IPResolver.get_lb_frontend_ips`. -/
def lbFeBody (res : IPResolver) (acc : List String) (feConfig : Py) :
    Except PyErr (List String) := do
  let feProps := pyOr (← pyGet feConfig "properties" .none) (.dict [])
  let privIp ← pyGet feProps "privateIPAddress" (.str "")
  let acc1 := if privIp.truthy then acc ++ ["fe: " ++ pyStr privIp] else acc
  let pipRef := pyOr (← pyGet feProps "publicIPAddress" .none) (.dict [])
  let pipId ← guardedIdLower pipRef
  if pipId ≠ "" then
    let pubIp := (pyLookup res.publicIpAddresses pipId).getD (.str "")
    if pubIp.truthy then .ok (acc1 ++ ["fe: " ++ pyStr pubIp]) else .ok acc1
  else .ok acc1

/-- The `IPResolver.get_lb_frontend_ips` method: frontend IP strings of a
load balancer or application gateway (`get_appgw_listener_ips` delegates to
this method unchanged). -/
def getLbFrontendIps (res : IPResolver) (lb : Py) :
    Except PyErr (List String) := do
  let props := pyOr (← pyGet lb "properties" .none) (.dict [])
  let feConfigs ← pyGet props "frontendIPConfigurations" (.list [])
  let items ← pyIter feConfigs
  items.foldlM (lbFeBody res) []

/-- Is a frontend IP display string counted as private by
`IPResolver.has_public_ip` (the RFC1918 heuristic on the `fe: ` entries)? -/
def privateFe (ip : String) : Bool :=
  pyStartsWith ip "fe: 10." || pyStartsWith ip "fe: 172." || pyStartsWith ip "fe: 192.168."

/-- The `IPResolver.has_public_ip` method.  The Python loop over the
frontend IPs returns `True` at the first non-private entry and falls through
to `False`, which equals the `any` of the fully-computed list. -/
def hasPublicIp (res : IPResolver) (resource : Py) : Except PyErr Bool := do
  let rtype ← pyLowerStr (pyOr (← pyGet resource "type" .none) (.str ""))
  if rtype = "microsoft.network/publicipaddresses" then .ok true
  else if rtype = "microsoft.compute/virtualmachines" then do
    let ips ← getVmIps res resource
    .ok (ips.any (fun ip => pyStartsWith ip "pub:"))
  else if rtype = "microsoft.network/loadbalancers" ∨
      rtype = "microsoft.network/applicationgateways" then do
    let ips ← getLbFrontendIps res resource
    .ok (ips.any (fun ip => !privateFe ip))
  else .ok false

/-! ## Graph model and layout engine (`model/graph.py`, `model/layout.py`)

Geometry is over `ℚ`; the `str`-valued enums (`EdgeType`, `GroupType`) are
modelled as strings.  Python mutates node/group objects in place through
`node_map`/`group_map`; the embedding tags objects by their list index and
builds the maps with CPython dict semantics (a duplicate ID maps to its last
occurrence).  The recursive group layout is fuelled: `Option.none` models the
`RecursionError` Python raises on cyclic `children` references (any acyclic
reference structure has depth at most the number of groups, which the chosen
fuel covers). -/

/-- A 2D position (`Position` in `graph.py`). -/
structure Position where
  x : ℚ
  y : ℚ
deriving Repr, DecidableEq, Inhabited

/-- An element size (`Size` in `graph.py`, default 120×80). -/
structure Size where
  w : ℚ
  h : ℚ
deriving Repr, DecidableEq, Inhabited

/-- A group bounding box (`BoundingBox` in `graph.py`, default 400×300). -/
structure BoundingBox where
  x : ℚ
  y : ℚ
  w : ℚ
  h : ℚ
deriving Repr, DecidableEq, Inhabited

/-- The default `Size` of `graph.py`. -/
def defaultSize : Size := ⟨120, 80⟩

/-- The default `BoundingBox` of `graph.py`. -/
def defaultBox : BoundingBox := ⟨0, 0, 400, 300⟩

/-- A diagram node (`DiagramNode` in `graph.py`). -/
structure DiagramNode where
  id : String
  name : String
  azure_resource_type : String
  azure_resource_id : String
  properties : List (String × Py)
  position : Position
  size : Size
  icon_path : Option String
  group_id : Option String
  display_info : String
  style : List (String × String)
deriving Repr, Inhabited

/-- A diagram edge (`DiagramEdge` in `graph.py`); `edge_type` holds the
string value of the `EdgeType` enum. -/
structure DiagramEdge where
  id : String
  source_id : String
  target_id : String
  label : String
  edge_type : String
  style : List (String × String)
  bidirectional : Bool
deriving Repr

/-- A diagram group (`DiagramGroup` in `graph.py`); `group_type` holds the
string value of the `GroupType` enum. -/
structure DiagramGroup where
  id : String
  name : String
  group_type : String
  children : List String
  parent_id : Option String
  bounding_box : BoundingBox
  style : List (String × String)
  azure_resource_id : String
  properties : List (String × Py)
deriving Repr, Inhabited

/-- A diagram page (`DiagramPage` in `graph.py`). -/
structure DiagramPage where
  id : String
  title : String
  nodes : List DiagramNode
  edges : List DiagramEdge
  groups : List DiagramGroup
deriving Repr, Inhabited

/-- The `LayoutStrategy` enum of `layout.py`. -/
inductive LayoutStrategy where
  | hierarchical
  | left_to_right
  | grid
  | force_directed
deriving Repr, DecidableEq

/-- Layout constant `PADDING`. -/
def PADDING : ℚ := 40

/-- Layout constant `GROUP_PADDING`. -/
def GROUP_PADDING : ℚ := 50

/-- Layout constant `NODE_SPACING_X`. -/
def NODE_SPACING_X : ℚ := 160

/-- Layout constant `NODE_SPACING_Y`. -/
def NODE_SPACING_Y : ℚ := 120

/-- Layout constant `GROUP_HEADER_HEIGHT`. -/
def GROUP_HEADER_HEIGHT : ℚ := 30

/-- The `nodes_per_row` computation: `max(3, int(800 / NODE_SPACING_X))`. -/
def nodesPerRow : Nat := max 3 ((800 : ℚ) / NODE_SPACING_X).floor.toNat

/-- The mutable layout state: the page's node and group lists (Python
mutates the listed objects in place; objects are identified by index). -/
structure LayoutSt where
  nodes : List DiagramNode
  groups : List DiagramGroup
deriving Repr

/-- Modify the element at an index (no-op when out of range).  This models
Python's in-place mutation of the object stored at that list position. -/
def modifyIdx {α : Type} : List α → Nat → (α → α) → List α
  | [], _, _ => []
  | a :: l, 0, f => f a :: l
  | a :: l, Nat.succ i, f => a :: modifyIdx l i f

/-- Write a node's `position` (the only node field layout assigns). -/
def setNodePos (st : LayoutSt) (i : Nat) (p : Position) : LayoutSt :=
  { st with nodes := modifyIdx st.nodes i (fun n => { n with position := p }) }

/-- Write a group's `bounding_box` (the only group field layout assigns). -/
def setGroupBox (st : LayoutSt) (i : Nat) (bb : BoundingBox) : LayoutSt :=
  { st with groups := modifyIdx st.groups i (fun g => { g with bounding_box := bb }) }

/-- Read a node by index. -/
def nodeAt (st : LayoutSt) (i : Nat) : DiagramNode := st.nodes.getD i default

/-- Read a group by index. -/
def groupAt (st : LayoutSt) (i : Nat) : DiagramGroup := st.groups.getD i default

/-- Insert/overwrite an entry of an ID-to-index dict. -/
def insertIdx (m : List (String × Nat)) (k : String) (i : Nat) :
    List (String × Nat) :=
  if m.any (fun kv => kv.1 = k) then
    m.map (fun kv => if kv.1 = k then (k, i) else kv)
  else m ++ [(k, i)]

/-- Helper for `buildIdIndex`, tracking the next index. -/
def buildIdIndexAux : List String → Nat → List (String × Nat) → List (String × Nat)
  | [], _, m => m
  | idv :: rest, i, m => buildIdIndexAux rest (i + 1) (insertIdx m idv i)

/-- The `node_map`/`group_map` dict comprehensions: ID to the index of the
object (the last occurrence for a duplicated ID, as in CPython). -/
def buildIdIndex (ids : List String) : List (String × Nat) :=
  buildIdIndexAux ids 0 []

/-- Indices of the list elements satisfying a test, in order. -/
def idxWhere {α : Type} (l : List α) (p : α → Bool) : List Nat :=
  (l.enum.filter (fun x => p x.2)).map (fun x => x.1)

/-- Partition a group's `children` into group indices and node indices,
preserving order; an ID found in neither map is skipped (the
degrade-gracefully policy of the layout engine). -/
def resolveChildren (groupMap nodeMap : List (String × Nat)) :
    List String → List Nat × List Nat
  | [] => ([], [])
  | cid :: rest =>
    let tail := resolveChildren groupMap nodeMap rest
    match alistLookup groupMap cid with
    | some gi => (gi :: tail.1, tail.2)
    | Option.none =>
      match alistLookup nodeMap cid with
      | some ni => (tail.1, ni :: tail.2)
      | Option.none => tail

/-- State of the child-node row fold in `_layout_group_recursive`:
`(node_x, node_y, row_height, max_row_width, col)` plus the layout state. -/
structure RowSt where
  nodeX : ℚ
  nodeY : ℚ
  rowHeight : ℚ
  maxRowWidth : ℚ
  col : Nat
  st : LayoutSt

/-- One step of the child-node loop of `_layout_group_recursive`: wrap to a
fresh row when the column count reaches `nodesPerRow`, then place the node
and advance the cursor and the row statistics. -/
def rowStep (innerX : ℚ) (ni : Nat) (s : RowSt) : RowSt :=
  let s0 :=
    if s.col ≥ nodesPerRow then
      { s with nodeX := innerX, nodeY := s.nodeY + s.rowHeight + NODE_SPACING_Y,
               rowHeight := 0, col := 0 }
    else s
  let n := nodeAt s0.st ni
  let st1 := setNodePos s0.st ni ⟨s0.nodeX, s0.nodeY⟩
  let nodeX1 := s0.nodeX + n.size.w + NODE_SPACING_X
  let rowHeight1 := if n.size.h > s0.rowHeight then n.size.h else s0.rowHeight
  let maxRowWidth1 :=
    if nodeX1 - innerX > s0.maxRowWidth then nodeX1 - innerX else s0.maxRowWidth
  { nodeX := nodeX1, nodeY := s0.nodeY, rowHeight := rowHeight1,
    maxRowWidth := maxRowWidth1, col := s0.col + 1, st := st1 }

/-- The child-node loop of `_layout_group_recursive`: place nodes in wrapped
rows of `nodesPerRow`, tracking row height and maximal row width. -/
def layoutNodeRow (innerX : ℚ) : List Nat → RowSt → RowSt
  | [], s => s
  | ni :: rest, s => layoutNodeRow innerX rest (rowStep innerX ni s)

mutual

/-- The `_layout_group_recursive` function: position a group's child groups
side by side, then its child nodes in wrapped rows, then compute its
bounding box (content plus `GROUP_PADDING`, floored at 200 wide / 100 tall). -/
def layoutGroupRec : Nat → Nat → List (String × Nat) → List (String × Nat) →
    ℚ → ℚ → LayoutSt → Option LayoutSt
  | 0, _, _, _, _, _, _ => Option.none
  | Nat.succ fuel, gi, groupMap, nodeMap, startX, startY, st =>
    let innerX := startX + GROUP_PADDING
    let innerY := startY + GROUP_PADDING + GROUP_HEADER_HEIGHT
    let g := groupAt st gi
    let resolved := resolveChildren groupMap nodeMap g.children
    let childGroups := resolved.1
    let childNodes := resolved.2
    match layoutChildGroups fuel groupMap nodeMap innerY childGroups
        (innerX, 0, st) with
    | Option.none => Option.none
    | some (cx, maxChildHeight, st1) =>
      let nodeY0 := innerY +
        (if childGroups.isEmpty then 0 else maxChildHeight + PADDING)
      let rowOut := layoutNodeRow innerX childNodes
        { nodeX := innerX, nodeY := nodeY0, rowHeight := 0, maxRowWidth := 0,
          col := 0, st := st1 }
      let contentWidth := max (max (cx - innerX) rowOut.maxRowWidth) 200
      let contentBottom :=
        if childNodes.isEmpty then innerY + maxChildHeight
        else rowOut.nodeY + rowOut.rowHeight
      let contentHeight := contentBottom - startY + GROUP_PADDING
      let bb : BoundingBox :=
        ⟨startX, startY, contentWidth + GROUP_PADDING * 2, max contentHeight 100⟩
      some (setGroupBox rowOut.st gi bb)

/-- The child-group loop of `_layout_group_recursive`: recursively lay out
each child group at the advancing x cursor, tracking the tallest child. -/
def layoutChildGroups : Nat → List (String × Nat) → List (String × Nat) →
    ℚ → List Nat → ℚ × ℚ × LayoutSt → Option (ℚ × ℚ × LayoutSt)
  | _, _, _, _, [], acc => some acc
  | fuel, groupMap, nodeMap, innerY, gi :: rest, (cx, maxH, st) =>
    match layoutGroupRec fuel gi groupMap nodeMap cx innerY st with
    | Option.none => Option.none
    | some st1 =>
      let bb := (groupAt st1 gi).bounding_box
      let cx1 := cx + bb.w + PADDING
      let maxH1 := if bb.h > maxH then bb.h else maxH
      layoutChildGroups fuel groupMap nodeMap innerY rest (cx1, maxH1, st1)

end

/-- The root-group loop of `_layout_hierarchical`: lay out the parentless
groups side by side at the top of the canvas. -/
def rootLoop (fuel : Nat) (groupMap nodeMap : List (String × Nat)) :
    List Nat → ℚ × LayoutSt → Option (ℚ × LayoutSt)
  | [], acc => some acc
  | gi :: rest, (curX, st) =>
    match layoutGroupRec fuel gi groupMap nodeMap curX PADDING st with
    | Option.none => Option.none
    | some st1 =>
      rootLoop fuel groupMap nodeMap rest
        (curX + (groupAt st1 gi).bounding_box.w + PADDING, st1)

/-- All child IDs referenced by any group of the page (the
`grouped_node_ids` set). -/
def groupedIds (groups : List DiagramGroup) : List String :=
  groups.foldl (fun acc g => acc ++ g.children) []

/-- The ungrouped-node row of `_layout_hierarchical`: place the nodes left
to right below all root groups. -/
def placeUngrouped (uy : ℚ) : List Nat → ℚ × LayoutSt → LayoutSt
  | [], acc => acc.2
  | ni :: rest, (ux, st) =>
    let st1 := setNodePos st ni ⟨ux, uy⟩
    placeUngrouped uy rest (ux + (nodeAt st ni).size.w + NODE_SPACING_X, st1)

/-- The `_layout_hierarchical` strategy. -/
def layoutHierarchical (page : DiagramPage) : Option DiagramPage :=
  let nodeMap := buildIdIndex (page.nodes.map (fun n => n.id))
  let groupMap := buildIdIndex (page.groups.map (fun g => g.id))
  let rootIdxs := idxWhere page.groups (fun g => g.parent_id.isNone)
  let grouped := groupedIds page.groups
  let ungroupedIdxs := idxWhere page.nodes (fun n => !grouped.contains n.id)
  let st0 : LayoutSt := ⟨page.nodes, page.groups⟩
  match rootLoop (page.groups.length + 1) groupMap nodeMap rootIdxs
      (PADDING, st0) with
  | Option.none => Option.none
  | some (_, st1) =>
    let st2 :=
      if ungroupedIdxs.isEmpty then st1
      else
        let maxGroupBottom := rootIdxs.foldl
          (fun m gi =>
            let bb := (groupAt st1 gi).bounding_box
            if bb.y + bb.h > m then bb.y + bb.h else m)
          PADDING
        placeUngrouped (maxGroupBottom + PADDING) ungroupedIdxs (PADDING, st1)
    some { page with nodes := st2.nodes, groups := st2.groups }

/-- The column-node loop of `_layout_left_to_right`: stack a lane's nodes
vertically, tracking the widest node. -/
def ltrNodeLoop (colX : ℚ) : List Nat → ℚ × ℚ × LayoutSt → ℚ × ℚ × LayoutSt
  | [], acc => acc
  | ni :: rest, (nodeY, maxW, st) =>
    let n := nodeAt st ni
    let st1 := setNodePos st ni ⟨colX + GROUP_PADDING, nodeY⟩
    let maxW1 := if n.size.w > maxW then n.size.w else maxW
    ltrNodeLoop colX rest (nodeY + n.size.h + NODE_SPACING_Y, maxW1, st1)

/-- The swim-lane loop of `_layout_left_to_right`: each group of the page
(in page order) becomes a column. -/
def ltrGroupLoop (nodeMap : List (String × Nat)) :
    List Nat → ℚ × LayoutSt → ℚ × LayoutSt
  | [], acc => acc
  | gi :: rest, (colX, st) =>
    let g := groupAt st gi
    let childNodes := (g.children.filterMap (alistLookup nodeMap))
    let nodeY0 := PADDING + GROUP_PADDING + GROUP_HEADER_HEIGHT
    let out := ltrNodeLoop colX childNodes (nodeY0, 0, st)
    let groupWidth := max (out.2.1 + GROUP_PADDING * 2) 200
    let groupHeight := max (out.1 - PADDING + GROUP_PADDING) 150
    let st1 := setGroupBox out.2.2 gi ⟨colX, PADDING, groupWidth, groupHeight⟩
    ltrGroupLoop nodeMap rest (colX + groupWidth + PADDING, st1)

/-- The ungrouped-node column of `_layout_left_to_right`. -/
def ltrUngrouped (colX : ℚ) : List Nat → ℚ × LayoutSt → LayoutSt
  | [], acc => acc.2
  | ni :: rest, (uy, st) =>
    let st1 := setNodePos st ni ⟨colX, uy⟩
    ltrUngrouped colX rest (uy + (nodeAt st ni).size.h + NODE_SPACING_Y, st1)

/-- The `_layout_left_to_right` strategy (total: it has no recursion on the
group structure). -/
def layoutLeftToRight (page : DiagramPage) : DiagramPage :=
  let nodeMap := buildIdIndex (page.nodes.map (fun n => n.id))
  let allGroupIdxs := List.range page.groups.length
  let st0 : LayoutSt := ⟨page.nodes, page.groups⟩
  let out := ltrGroupLoop nodeMap allGroupIdxs (PADDING, st0)
  let grouped := groupedIds page.groups
  let ungroupedIdxs := idxWhere page.nodes (fun n => !grouped.contains n.id)
  let st2 := ltrUngrouped out.1 ungroupedIdxs (PADDING, out.2)
  { page with nodes := st2.nodes, groups := st2.groups }

/-- The cell-node loop of `_layout_grid`: place child nodes inside a fixed
cell, wrapping when the x cursor passes the cell's inner right edge. -/
def gridNodeLoop (gx colWidth : ℚ) : List Nat → ℚ × ℚ × LayoutSt → ℚ × ℚ × LayoutSt
  | [], acc => acc
  | ni :: rest, (nx, ny, st) =>
    let n := nodeAt st ni
    let st1 := setNodePos st ni ⟨nx, ny⟩
    let nx1 := nx + n.size.w + 20
    let wrapped :=
      if nx1 > gx + colWidth - GROUP_PADDING then
        (gx + GROUP_PADDING, ny + n.size.h + 20)
      else (nx1, ny)
    gridNodeLoop gx colWidth rest (wrapped.1, wrapped.2, st1)

/-- The child-group loop of `_layout_grid`: recursively lay out a root
group's child groups starting below its child nodes. -/
def gridChildGroups (fuel : Nat) (groupMap nodeMap : List (String × Nat))
    (cgy : ℚ) : List Nat → ℚ × LayoutSt → Option LayoutSt
  | [], acc => some acc.2
  | gi :: rest, (cgx, st) =>
    match layoutGroupRec fuel gi groupMap nodeMap cgx cgy st with
    | Option.none => Option.none
    | some st1 =>
      gridChildGroups fuel groupMap nodeMap cgy rest
        (cgx + (groupAt st1 gi).bounding_box.w + PADDING, st1)

/-- The root-group loop of `_layout_grid`: tile the root groups into fixed
350×250 cells in at most four columns. -/
def gridRootLoop (fuel : Nat) (groupMap nodeMap : List (String × Nat))
    (cols : Nat) : List (Nat × Nat) → LayoutSt → Option LayoutSt
  | [], st => some st
  | (idx, gi) :: rest, st =>
    let colWidth : ℚ := 350
    let rowHeight : ℚ := 250
    let row := idx / cols
    let col := idx % cols
    let gx := PADDING + (col : ℚ) * (colWidth + PADDING)
    let gy := PADDING + (row : ℚ) * (rowHeight + PADDING)
    let st1 := setGroupBox st gi ⟨gx, gy, colWidth, rowHeight⟩
    let g := groupAt st1 gi
    let childNodes := g.children.filterMap (alistLookup nodeMap)
    let nx0 := gx + GROUP_PADDING
    let ny0 := gy + GROUP_PADDING + GROUP_HEADER_HEIGHT
    let out := gridNodeLoop gx colWidth childNodes (nx0, ny0, st1)
    let childGroups := g.children.filterMap (alistLookup groupMap)
    let cgy :=
      if childNodes.isEmpty then gy + GROUP_PADDING + GROUP_HEADER_HEIGHT
      else out.2.1 + PADDING
    match gridChildGroups fuel groupMap nodeMap cgy childGroups
        (gx + GROUP_PADDING, out.2.2) with
    | Option.none => Option.none
    | some st2 => gridRootLoop fuel groupMap nodeMap cols rest st2

/-- The `_layout_grid` strategy. -/
def layoutGrid (page : DiagramPage) : Option DiagramPage :=
  let nodeMap := buildIdIndex (page.nodes.map (fun n => n.id))
  let groupMap := buildIdIndex (page.groups.map (fun g => g.id))
  let rootIdxs := idxWhere page.groups (fun g => g.parent_id.isNone)
  let cols := max 1 (min 4 rootIdxs.length)
  let st0 : LayoutSt := ⟨page.nodes, page.groups⟩
  match gridRootLoop (page.groups.length + 1) groupMap nodeMap cols
      rootIdxs.enum st0 with
  | Option.none => Option.none
  | some st1 => some { page with nodes := st1.nodes, groups := st1.groups }

/-- The `layout_page` dispatch: hierarchical, left-to-right, or grid, with
any other strategy falling back to hierarchical. -/
def layoutPage (page : DiagramPage) (strategy : LayoutStrategy) :
    Option DiagramPage :=
  match strategy with
  | .hierarchical => layoutHierarchical page
  | .left_to_right => some (layoutLeftToRight page)
  | .grid => layoutGrid page
  | .force_directed => layoutHierarchical page

/-! ## Derived definitions used by the specification statements -/

/-- The label auto-derivation formula of the spec: uppercased protocol then
port, space-joined, omitting empty and `"*"` values. -/
def autoLabel (prot port : String) : String :=
  String.intercalate " "
    ((if prot ≠ "" ∧ prot ≠ "*" then [strUpper prot] else []) ++
     (if port ≠ "" ∧ port ≠ "*" then [port] else []))

/-- The lower-cased `type` of a resource record, as every `IPResolver`
method computes it. -/
def resourceTypeLower (r : Py) : Except PyErr String := do
  pyLowerStr (pyOr (← pyGet r "type" .none) (.str ""))

/-- An NSG rule record in the shape produced by `discover_nsg_rules`
(string-valued fields). -/
def mkNsgRule (access direction src dst proto dport nsg rname : String) : Py :=
  .dict [("access", .str access), ("direction", .str direction),
         ("sourceAddressPrefix", .str src), ("destinationAddressPrefix", .str dst),
         ("protocol", .str proto), ("destinationPortRange", .str dport),
         ("nsgName", .str nsg), ("ruleName", .str rname)]

/-- The evaluated access field of a rule, as `_flows_from_nsg_rules` reads
it: `(rule.get("access") or "").lower()`. -/
def ruleAccess (rule : Py) : Except PyErr String := do
  pyLowerStr (pyOr (← pyGet rule "access" .none) (.str ""))

/-- Does a rule's access evaluate to `allow` (case-insensitively)? -/
def isAllowRule (rule : Py) : Bool :=
  match ruleAccess rule with
  | .ok a => a = "allow"
  | .error _ => false

/-- An `fe: `-tagged frontend IP display string. -/
def feTagged (ip : String) : Prop := pyStartsWith ip "fe: " = true

/-- The empty IP resolver (no resources indexed). -/
def emptyResolver : IPResolver := ⟨[], [], []⟩

/-- A DataFlow as built from protocol TCP, port 443 and no label. -/
def c9Flow : DataFlow := ⟨.str "a", .str "b", .str "TCP", "443", "TCP 443", "network"⟩

/-- A public-IP resource record with no `ipAddress` in its properties. -/
def c10PipRes : Py := .dict [("type", .str "Microsoft.Network/publicIPAddresses")]

/-- A network interface referencing a public IP address. -/
def c10NicRes : Py :=
  .dict [("type", .str "Microsoft.Network/networkInterfaces"),
         ("properties", .dict [("ipConfigurations", .list [
           .dict [("properties", .dict [
             ("publicIPAddress", .dict [("id", .str "/subscriptions/s/pip1")])])]])])]

/-- A resolver knowing one public IP address. -/
def c8Resolver : IPResolver := ⟨[], [], [("/subscriptions/s/pip1", .str "20.185.100.42")]⟩

/-- A load balancer whose frontend references that public IP. -/
def c8Lb : Py :=
  .dict [("type", .str "Microsoft.Network/loadBalancers"),
         ("properties", .dict [("frontendIPConfigurations", .list [
           .dict [("properties", .dict [
             ("publicIPAddress", .dict [("id", .str "/subscriptions/s/PIP1")])])]])])]

/-- A relationship whose two IDs are lower-cased strings. -/
def relLowered (r : ResourceRelationship) : Prop :=
  (∃ s, r.source_id = strLower s) ∧ (∃ t, r.target_id = strLower t)

/-- The invariant of the relationship set: identity triples are pairwise
distinct and every stored ID is lower-cased. -/
def relGood (l : List ResourceRelationship) : Prop :=
  (l.map relTriple).Nodup ∧ ∀ r ∈ l, relLowered r

/-- A resource whose `networkInterfaces` property is `null`: `_safe_get`
returns `None` and the `for nic_ref in ...` loop raises TypeError. -/
def c4Input : List Py :=
  [.dict [("id", .str "vm1"), ("type", .str "Microsoft.Compute/virtualMachines"),
    ("properties", .dict [("networkProfile", .dict [("networkInterfaces", .none)])])]]

/-- A NIC resource with one subnet and one public-IP reference: its
inference yields a two-element relationship set. -/
def c1Input : List Py :=
  [.dict [("id", .str "/subscriptions/s/providers/Microsoft.Network/networkInterfaces/NIC1"),
    ("type", .str "Microsoft.Network/networkInterfaces"),
    ("properties", .dict [("ipConfigurations", .list [
      .dict [("properties", .dict [
        ("subnet", .dict [("id", .str "/subscriptions/s/VNET/subnets/Sub1")]),
        ("publicIPAddress", .dict [("id", .str "/subscriptions/s/publicIPAddresses/PIP1")])])]])])]]

/-- The `in_subnet` relationship inferred from `c1Input`. -/
def c1RelSubnet : ResourceRelationship :=
  ⟨"/subscriptions/s/providers/microsoft.network/networkinterfaces/nic1",
   "/subscriptions/s/vnet/subnets/sub1", "in_subnet", "Subnet"⟩

/-- The `has_public_ip` relationship inferred from `c1Input`. -/
def c1RelPip : ResourceRelationship :=
  ⟨"/subscriptions/s/providers/microsoft.network/networkinterfaces/nic1",
   "/subscriptions/s/publicipaddresses/pip1", "has_public_ip", "Public IP"⟩

/-- A VM listing the same NIC twice with differing letter case. -/
def c6Input : List Py :=
  [.dict [("id", .str "VM1"), ("type", .str "Microsoft.Compute/VirtualMachines"),
    ("properties", .dict [("networkProfile", .dict [("networkInterfaces", .list [
      .dict [("id", .str "/subscriptions/S/NIC1")],
      .dict [("id", .str "/subscriptions/s/nic1")]])])])]]

/-- A `private_link_to` relationship whose endpoint has no subnet
relationship. -/
def c2Rel : ResourceRelationship :=
  ⟨"/subscriptions/s/resourcegroups/rg/providers/microsoft.network/privateendpoints/pe1",
   "/subscriptions/s/resourcegroups/rg/providers/microsoft.sql/servers/sql1",
   "private_link_to", "Private Link"⟩

/-- The single private-link flow derived from `c2Rel` alone. -/
def c2Flow : DataFlow :=
  ⟨.str "Unknown", .str "sql1", .str "TCP", "443", "Private Link -> sql1", "private_link"⟩

/-- A private endpoint with both a target service and a subnet. -/
def c2wRels : List ResourceRelationship :=
  [⟨"/subscriptions/s/resourcegroups/rg/providers/microsoft.network/privateendpoints/pe1",
    "/subscriptions/s/resourcegroups/rg/providers/microsoft.sql/servers/sql1",
    "private_link_to", "Private Link"⟩,
   ⟨"/subscriptions/s/resourcegroups/rg/providers/microsoft.network/privateendpoints/pe1",
    "/subscriptions/s/resourcegroups/rg/providers/microsoft.network/virtualnetworks/vnet1/subnets/data-subnet",
    "in_subnet", "PE Subnet"⟩]

/-- The SQL server resource named by the target of `c2wRels`. -/
def c2wResources : List Py :=
  [.dict [("id", .str "/subscriptions/s/resourceGroups/rg/providers/Microsoft.Sql/servers/SQL1"),
    ("type", .str "Microsoft.Sql/servers"), ("name", .str "sql-server-prod")]]

/-- The resource-name map built from `c2wResources`. -/
def c2wNames : List (String × Py) :=
  [("/subscriptions/s/resourcegroups/rg/providers/microsoft.sql/servers/sql1",
    .str "sql-server-prod")]

/-- The private-link flow derived from `c2wResources`/`c2wRels`. -/
def c2wOut : List DataFlow :=
  [⟨.str "data-subnet", .str "sql-server-prod", .str "TCP", "443",
    "Private Link -> sql-server-prod", "private_link"⟩]

/-- Frame relation on nodes: `b` may differ from `a` only in `position`. -/
def nodeFrame (a b : DiagramNode) : Prop := b = { a with position := b.position }

/-- Frame relation on groups: `b` may differ from `a` only in
`bounding_box`. -/
def groupFrame (a b : DiagramGroup) : Prop := b = { a with bounding_box := b.bounding_box }

/-- Frame relation on layout states: node lists are pointwise `nodeFrame`
related and group lists pointwise `groupFrame` related. -/
def stFrame (s t : LayoutSt) : Prop :=
  List.Forall₂ nodeFrame s.nodes t.nodes ∧ List.Forall₂ groupFrame s.groups t.groups

/-- `t` agrees with `s` at every group index outside `Sg` and every node
index outside `Sn`: the step from `s` to `t` only wrote inside the sets. -/
def localTo (Sg Sn : List Nat) (s t : LayoutSt) : Prop :=
  (∀ j, j ∉ Sg → t.groups[j]? = s.groups[j]?) ∧
  (∀ j, j ∉ Sn → t.nodes[j]? = s.nodes[j]?)

/-- Every node reachable by index (including the out-of-range default) has a
nonnegative width. -/
def widthsOk (st : LayoutSt) : Prop := ∀ i, 0 ≤ (nodeAt st i).size.w

/-- `t` agrees with `s` at every group index in `Sg` and node index in
`Sn`. -/
def agreeOn (Sg Sn : List Nat) (s t : LayoutSt) : Prop :=
  (∀ j ∈ Sg, t.groups[j]? = s.groups[j]?) ∧
  (∀ j ∈ Sn, t.nodes[j]? = s.nodes[j]?)

/-- The group indices of the layout subtree rooted at a group index:
the root followed by the trees of its resolved child groups, reading
`children` from a fixed group list; fuelled like `layoutGroupRec`. -/
def treeG (gm nm : List (String × Nat)) (gs : List DiagramGroup) :
    Nat → Nat → List Nat
  | 0, _ => []
  | Nat.succ f, gi =>
    gi :: ((resolveChildren gm nm (gs.getD gi default).children).1.flatMap
      (treeG gm nm gs f))

/-- The node indices of the layout subtree rooted at a group index: the
root's resolved child nodes followed by the child groups' subtree nodes. -/
def treeN (gm nm : List (String × Nat)) (gs : List DiagramGroup) :
    Nat → Nat → List Nat
  | 0, _ => []
  | Nat.succ f, gi =>
    (resolveChildren gm nm (gs.getD gi default).children).2 ++
      ((resolveChildren gm nm (gs.getD gi default).children).1.flatMap
        (treeN gm nm gs f))

/-- A node's position-plus-size rectangle lies inside a bounding box minus
the padding margins and the header strip. -/
def nodeInBox (bb : BoundingBox) (n : DiagramNode) : Bool :=
  decide (bb.x + GROUP_PADDING ≤ n.position.x) &&
  decide (n.position.x + n.size.w ≤ bb.x + bb.w - GROUP_PADDING) &&
  decide (bb.y + GROUP_PADDING + GROUP_HEADER_HEIGHT ≤ n.position.y) &&
  decide (n.position.y + n.size.h ≤ bb.y + bb.h - GROUP_PADDING)

/-- A child bounding box lies inside a parent bounding box minus the
padding margins and the header strip. -/
def boxInBox (bb cb : BoundingBox) : Bool :=
  decide (bb.x + GROUP_PADDING ≤ cb.x) &&
  decide (cb.x + cb.w ≤ bb.x + bb.w - GROUP_PADDING) &&
  decide (bb.y + GROUP_PADDING + GROUP_HEADER_HEIGHT ≤ cb.y) &&
  decide (cb.y + cb.h ≤ bb.y + bb.h - GROUP_PADDING)

/-- The containment check for one group of a layout state: every resolved
child group's bounding box and every resolved child node's rectangle lie
inside the group's bounding box minus the margins. -/
def groupOk (gm nm : List (String × Nat)) (st : LayoutSt) (gi : Nat) : Bool :=
  let g := groupAt st gi
  let r := resolveChildren gm nm g.children
  r.1.all (fun ci => boxInBox g.bounding_box (groupAt st ci).bounding_box) &&
  r.2.all (fun ni => nodeInBox g.bounding_box (nodeAt st ni))

/-- The node-ID-to-index map a layout pass builds for a page. -/
def pageNodeMap (p : DiagramPage) : List (String × Nat) :=
  buildIdIndex (p.nodes.map (fun n => n.id))

/-- The group-ID-to-index map a layout pass builds for a page. -/
def pageGroupMap (p : DiagramPage) : List (String × Nat) :=
  buildIdIndex (p.groups.map (fun g => g.id))

/-- The indices of a page's parentless (root) groups. -/
def rootIdxsOf (p : DiagramPage) : List Nat :=
  idxWhere p.groups (fun g => g.parent_id.isNone)

/-- The group and node indices of all root-group layout subtrees of a page,
at the fuel `layoutHierarchical` uses. -/
def hierTrees (p : DiagramPage) : List Nat × List Nat :=
  ((rootIdxsOf p).flatMap
      (treeG (pageGroupMap p) (pageNodeMap p) p.groups (p.groups.length + 1)),
   (rootIdxsOf p).flatMap
      (treeN (pageGroupMap p) (pageNodeMap p) p.groups (p.groups.length + 1)))

/-- The indices of a page's ungrouped nodes (referenced by no group's
`children`). -/
def hierUngrouped (p : DiagramPage) : List Nat :=
  idxWhere p.nodes (fun n => !(groupedIds p.groups).contains n.id)

/-- The whole-page hierarchical-containment check: every group of the page
passes `groupOk` under the page's own ID-to-index maps. -/
def hierOk (p : DiagramPage) : Bool :=
  (List.range p.groups.length).all
    (fun gi => groupOk (pageGroupMap p) (pageNodeMap p) ⟨p.nodes, p.groups⟩ gi)

/-- Induction statement for `layoutGroupRec`: writes stay inside the
subtree, the laid-out group's box sits at the requested corner with floored
dimensions, and in any later state that agrees on the subtree's slots every
subtree group passes the containment check. -/
def QSpec (fuel : Nat) : Prop :=
  ∀ (gi : Nat) (gm nm : List (String × Nat)) (sx sy : ℚ) (st st' : LayoutSt),
    layoutGroupRec fuel gi gm nm sx sy st = some st' →
    (∀ p ∈ gm, p.2 < st.groups.length) →
    (∀ p ∈ nm, p.2 < st.nodes.length) →
    widthsOk st → gi < st.groups.length →
    (treeG gm nm st.groups fuel gi).Nodup →
    (treeN gm nm st.groups fuel gi).Nodup →
    localTo (treeG gm nm st.groups fuel gi) (treeN gm nm st.groups fuel gi) st st' ∧
    ((groupAt st' gi).bounding_box.x = sx ∧ (groupAt st' gi).bounding_box.y = sy ∧
      300 ≤ (groupAt st' gi).bounding_box.w ∧ 100 ≤ (groupAt st' gi).bounding_box.h) ∧
    (∀ st2 : LayoutSt,
      agreeOn (treeG gm nm st.groups fuel gi) (treeN gm nm st.groups fuel gi) st' st2 →
      ∀ gj ∈ treeG gm nm st.groups fuel gi, groupOk gm nm st2 gj = true)

/-- Induction statement for `layoutChildGroups`: writes stay inside the
sibling subtrees, the cursor and height accumulator grow, every laid-out
sibling's box sits in the swept band, and containment holds for all sibling
subtrees in any agreeing later state. -/
def PSpec (fuel : Nat) : Prop :=
  ∀ (gm nm : List (String × Nat)) (iy : ℚ) (gis : List Nat) (cx mh : ℚ)
    (st : LayoutSt) (oc oh : ℚ) (ost : LayoutSt),
    layoutChildGroups fuel gm nm iy gis (cx, mh, st) = some (oc, oh, ost) →
    (∀ p ∈ gm, p.2 < st.groups.length) →
    (∀ p ∈ nm, p.2 < st.nodes.length) →
    widthsOk st → (∀ gi ∈ gis, gi < st.groups.length) →
    (gis.flatMap (treeG gm nm st.groups fuel)).Nodup →
    (gis.flatMap (treeN gm nm st.groups fuel)).Nodup →
    localTo (gis.flatMap (treeG gm nm st.groups fuel))
      (gis.flatMap (treeN gm nm st.groups fuel)) st ost ∧
    (cx ≤ oc ∧ mh ≤ oh) ∧
    (∀ gi ∈ gis,
      (groupAt ost gi).bounding_box.y = iy ∧
      cx ≤ (groupAt ost gi).bounding_box.x ∧
      (groupAt ost gi).bounding_box.x + (groupAt ost gi).bounding_box.w
          + PADDING ≤ oc ∧
      (groupAt ost gi).bounding_box.h ≤ oh ∧
      300 ≤ (groupAt ost gi).bounding_box.w ∧
      100 ≤ (groupAt ost gi).bounding_box.h) ∧
    (∀ st2 : LayoutSt,
      agreeOn (gis.flatMap (treeG gm nm st.groups fuel))
        (gis.flatMap (treeN gm nm st.groups fuel)) ost st2 →
      ∀ gj ∈ gis.flatMap (treeG gm nm st.groups fuel),
        groupOk gm nm st2 gj = true)

/-- A small concrete page (two nodes, one edge, one group) used to
instantiate the layout theorems. -/
def c7Page : DiagramPage :=
  { id := "p1", title := "Demo",
    nodes :=
      [{ id := "n1", name := "VM 1", azure_resource_type := "Microsoft.Compute/virtualMachines",
         azure_resource_id := "/subscriptions/s/vm1", properties := [],
         position := ⟨0, 0⟩, size := ⟨120, 80⟩, icon_path := Option.none,
         group_id := some "g1", display_info := "", style := [] },
       { id := "n2", name := "VM 2", azure_resource_type := "Microsoft.Compute/virtualMachines",
         azure_resource_id := "/subscriptions/s/vm2", properties := [],
         position := ⟨0, 0⟩, size := ⟨120, 80⟩, icon_path := Option.none,
         group_id := Option.none, display_info := "", style := [] }],
    edges :=
      [{ id := "e1", source_id := "n1", target_id := "n2", label := "HTTPS",
         edge_type := "network_connection", style := [], bidirectional := false }],
    groups :=
      [{ id := "g1", name := "VNet", group_type := "vnet", children := ["n1"],
         parent_id := Option.none, bounding_box := defaultBox, style := [],
         azure_resource_id := "/subscriptions/s/vnet1", properties := [] }] }

/-- Counterexample page for the literal C5 claim: the node `"n"` is listed
as a child of BOTH root groups `A` and `B`; laying out `B` moves it out of
`A`'s bounding box. -/
def c5Page : DiagramPage :=
  { id := "p5", title := "Shared child",
    nodes :=
      [{ id := "n", name := "VM", azure_resource_type := "t",
         azure_resource_id := "r", properties := [], position := ⟨0, 0⟩,
         size := ⟨120, 80⟩, icon_path := Option.none, group_id := some "A",
         display_info := "", style := [] }],
    edges := [],
    groups :=
      [{ id := "A", name := "Group A", group_type := "vnet", children := ["n"],
         parent_id := Option.none, bounding_box := defaultBox, style := [],
         azure_resource_id := "", properties := [] },
       { id := "B", name := "Group B", group_type := "vnet", children := ["n"],
         parent_id := Option.none, bounding_box := defaultBox, style := [],
         azure_resource_id := "", properties := [] }] }

/-- The hierarchical layout of `c5Page`. -/
def c5Laid : DiagramPage := (layoutHierarchical c5Page).getD default

/-- Witness page for the amended C5: three levels of group nesting
`G1 ⊃ G2 ⊃ G3` with one node in each group. -/
def c5wPage : DiagramPage :=
  { id := "p5w", title := "Nested",
    nodes :=
      [{ id := "n1", name := "VM 1", azure_resource_type := "t",
         azure_resource_id := "r1", properties := [], position := ⟨0, 0⟩,
         size := ⟨120, 80⟩, icon_path := Option.none, group_id := some "G1",
         display_info := "", style := [] },
       { id := "n2", name := "VM 2", azure_resource_type := "t",
         azure_resource_id := "r2", properties := [], position := ⟨0, 0⟩,
         size := ⟨120, 80⟩, icon_path := Option.none, group_id := some "G2",
         display_info := "", style := [] },
       { id := "n3", name := "VM 3", azure_resource_type := "t",
         azure_resource_id := "r3", properties := [], position := ⟨0, 0⟩,
         size := ⟨120, 80⟩, icon_path := Option.none, group_id := some "G3",
         display_info := "", style := [] }],
    edges := [],
    groups :=
      [{ id := "G1", name := "Level 1", group_type := "vnet",
         children := ["G2", "n1"], parent_id := Option.none,
         bounding_box := defaultBox, style := [], azure_resource_id := "",
         properties := [] },
       { id := "G2", name := "Level 2", group_type := "subnet",
         children := ["G3", "n2"], parent_id := some "G1",
         bounding_box := defaultBox, style := [], azure_resource_id := "",
         properties := [] },
       { id := "G3", name := "Level 3", group_type := "subnet",
         children := ["n3"], parent_id := some "G2",
         bounding_box := defaultBox, style := [], azure_resource_id := "",
         properties := [] }] }

/-- The hierarchical layout of `c5wPage`. -/
def c5wLaid : DiagramPage := (layoutHierarchical c5wPage).getD default

/-! ## Theorems -/

theorem strUpper_ne_empty {s : String} (h : s ≠ "") : strUpper s ≠ "" := by
  intro hc
  have hd := congrArg String.data hc
  unfold strUpper at hd
  cases s with
  | mk data =>
    cases data with
    | nil => exact h rfl
    | cons c rest => simp at hd

theorem intercalate_pair_ne (a b : String) : String.intercalate " " [a, b] ≠ "" := by
  show a ++ " " ++ b ≠ ""
  intro hc
  have hd := congrArg String.data hc
  simp [String.data_append] at hd

theorem intercalate_single (a : String) : String.intercalate " " [a] = a := rfl

theorem autoLabel_ne {prot port : String}
    (h : (prot ≠ "" ∧ prot ≠ "*") ∨ (port ≠ "" ∧ port ≠ "*")) :
    autoLabel prot port ≠ "" := by
  unfold autoLabel
  rcases h with ⟨h1, h2⟩ | ⟨h1, h2⟩
  · simp only [ne_eq, h1, not_false_eq_true, h2, and_self, reduceIte]
    by_cases hp : port ≠ "" ∧ port ≠ "*"
    · simp only [hp, reduceIte]
      exact intercalate_pair_ne _ _
    · simp only [hp, reduceIte, List.append_nil, intercalate_single]
      exact strUpper_ne_empty h1
  · simp only [ne_eq, h1, not_false_eq_true, h2, and_self, reduceIte]
    by_cases hp : prot ≠ "" ∧ prot ≠ "*"
    · simp only [hp, reduceIte]
      exact intercalate_pair_ne _ _
    · simp only [hp, reduceIte, List.nil_append, intercalate_single]
      exact h1

theorem except_bind_ok {α β : Type} (a : α) (f : α → Except PyErr β) :
    (Except.ok a >>= f) = f a := rfl

theorem buildLabel_str (prot port : String) :
    buildLabel (.str prot) port = .ok (autoLabel prot port) := by
  unfold buildLabel autoLabel
  simp only [Py.truthy, pyEqStr, pyUpperStr, bne_iff_ne, ne_eq, decide_not]
  by_cases h1 : prot = ""
  · simp [h1]
  · by_cases h2 : prot = "*" <;> simp [h1, h2, except_bind_ok]

/-- C9: a `DataFlow` constructed with an empty (or omitted) label stores the
auto-derived label (uppercased protocol then port, space-joined, omitting
`"*"` and empty values), so an explicit empty label cannot suppress the
derivation; and no `DataFlow` whose protocol or port is non-empty and not
`"*"` ever has an empty label. -/
theorem C9_dataflow_label :
    (∀ (s d : Py) (prot port ft : String) (df : DataFlow),
        mkDataFlow s d (.str prot) port "" ft = .ok df →
        df.label = autoLabel prot port) ∧
    (∀ (s d : Py) (prot port lbl ft : String) (df : DataFlow),
        mkDataFlow s d (.str prot) port lbl ft = .ok df →
        ((prot ≠ "" ∧ prot ≠ "*") ∨ (port ≠ "" ∧ port ≠ "*")) → df.label ≠ "") := by
  constructor
  · intro s d prot port ft df h
    unfold mkDataFlow at h
    simp only [buildLabel_str, except_bind_ok, ne_eq, not_true_eq_false, reduceIte] at h
    simp at h
    rw [← h]
  · intro s d prot port lbl ft df h hne
    unfold mkDataFlow at h
    by_cases hl : lbl = ""
    · subst hl
      simp only [buildLabel_str, except_bind_ok, ne_eq, not_true_eq_false, reduceIte] at h
      simp at h
      rw [← h]
      exact autoLabel_ne hne
    · simp only [hl, ne_eq, not_false_eq_true, reduceIte] at h
      simp [pure, Except.pure, except_bind_ok] at h
      rw [← h]
      simpa using hl

theorem except_bind_err {α β : Type} (e : PyErr) (f : α → Except PyErr β) :
    (Except.error e >>= f) = (Except.error e : Except PyErr β) := rfl

/-- C10: `has_public_ip` is true for every resource whose lower-cased type
is `microsoft.network/publicipaddresses`, regardless of its properties, and
false for every resource of any type other than public IP address, virtual
machine, load balancer, or application gateway — in particular for a network
interface that references a public IP. -/
theorem C10_has_public_ip_types :
    (∀ (res : IPResolver) (r : Py),
        resourceTypeLower r = .ok "microsoft.network/publicipaddresses" →
        hasPublicIp res r = .ok true) ∧
    (∀ (res : IPResolver) (r : Py) (t : String),
        resourceTypeLower r = .ok t →
        t ∉ (["microsoft.network/publicipaddresses",
              "microsoft.compute/virtualmachines",
              "microsoft.network/loadbalancers",
              "microsoft.network/applicationgateways"] : List String) →
        hasPublicIp res r = .ok false) := by
  constructor
  · intro res r h
    unfold resourceTypeLower at h
    unfold hasPublicIp
    cases hg : pyGet r "type" Py.none with
    | error e => rw [hg, except_bind_err] at h; exact absurd h (by simp)
    | ok tv =>
      rw [hg, except_bind_ok] at h
      rw [except_bind_ok, h, except_bind_ok]
      simp
  · intro res r t h hmem
    unfold resourceTypeLower at h
    unfold hasPublicIp
    cases hg : pyGet r "type" Py.none with
    | error e => rw [hg, except_bind_err] at h; exact absurd h (by simp)
    | ok tv =>
      rw [hg, except_bind_ok] at h
      rw [except_bind_ok, h, except_bind_ok]
      simp only [List.mem_cons, List.mem_singleton] at hmem
      push_neg at hmem
      obtain ⟨h1, h2, h3, h4⟩ := hmem
      simp [h1, h2, h3, h4]

theorem listStartsWith_append (pre rest : List Char) :
    listStartsWith (pre ++ rest) pre = true := by
  induction pre with
  | nil => simp [listStartsWith]
  | cons c cs ih => simp [listStartsWith, ih]

theorem pyStartsWith_append (pre s : String) :
    pyStartsWith (pre ++ s) pre = true := by
  unfold pyStartsWith
  rw [String.data_append]
  exact listStartsWith_append _ _

theorem feTagged_mk (s : String) : feTagged ("fe: " ++ s) := pyStartsWith_append "fe: " s

theorem lbFeBody_tagged {res : IPResolver} {acc acc2 : List String} {fe : Py}
    (h : lbFeBody res acc fe = .ok acc2) (hacc : ∀ ip ∈ acc, feTagged ip) :
    ∀ ip ∈ acc2, feTagged ip := by
  unfold lbFeBody at h
  cases h1 : pyGet fe "properties" Py.none with
  | error e => simp only [h1, except_bind_err] at h; exact absurd h (by simp)
  | ok feProps0 =>
    simp only [h1, except_bind_ok] at h
    cases h2 : pyGet (pyOr feProps0 (Py.dict [])) "privateIPAddress" (Py.str "") with
    | error e => simp only [h2, except_bind_err] at h; exact absurd h (by simp)
    | ok privIp =>
      simp only [h2, except_bind_ok] at h
      cases h3 : pyGet (pyOr feProps0 (Py.dict [])) "publicIPAddress" Py.none with
      | error e => simp only [h3, except_bind_err] at h; exact absurd h (by simp)
      | ok pipRef0 =>
        simp only [h3, except_bind_ok] at h
        cases h4 : guardedIdLower (pyOr pipRef0 (Py.dict [])) with
        | error e => simp only [h4, except_bind_err] at h; exact absurd h (by simp)
        | ok pipId =>
          simp only [h4, except_bind_ok] at h
          have hacc1 : ∀ ip ∈ (if privIp.truthy = true then acc ++ ["fe: " ++ pyStr privIp] else acc),
              feTagged ip := by
            intro ip hip
            by_cases hp : privIp.truthy = true
            · simp only [hp, reduceIte, List.mem_append, List.mem_singleton] at hip
              rcases hip with hip | hip
              · exact hacc ip hip
              · rw [hip]; exact feTagged_mk _
            · simp only [hp, reduceIte] at hip
              exact hacc ip hip
          by_cases h5 : pipId ≠ ""
          · rw [if_pos h5] at h
            by_cases h6 : ((pyLookup res.publicIpAddresses pipId).getD (Py.str "")).truthy = true
            · rw [if_pos h6] at h
              simp only [Except.ok.injEq] at h
              intro ip hip
              rw [← h] at hip
              simp only [List.mem_append, List.mem_singleton] at hip
              rcases hip with hip | hip
              · exact hacc1 ip hip
              · rw [hip]; exact feTagged_mk _
            · rw [if_neg h6] at h
              simp only [Except.ok.injEq] at h
              rw [← h]
              exact hacc1
          · rw [if_neg h5] at h
            simp only [Except.ok.injEq] at h
            rw [← h]
            exact hacc1

theorem getLb_tagged_aux {res : IPResolver} :
    ∀ (items : List Py) (acc out : List String),
      items.foldlM (lbFeBody res) acc = .ok out →
      (∀ ip ∈ acc, feTagged ip) → ∀ ip ∈ out, feTagged ip := by
  intro items
  induction items with
  | nil => intro acc out h hacc; simp [List.foldlM, pure, Except.pure] at h; rw [← h]; exact hacc
  | cons x xs ih =>
    intro acc out h hacc
    rw [List.foldlM_cons] at h
    cases hb : lbFeBody res acc x with
    | error e => simp only [hb, except_bind_err] at h; exact absurd h (by simp)
    | ok acc1 =>
      simp only [hb, except_bind_ok] at h
      exact ih acc1 out h (lbFeBody_tagged hb hacc)

theorem getLbFrontendIps_tagged {res : IPResolver} {lb : Py} {ips : List String}
    (h : getLbFrontendIps res lb = .ok ips) : ∀ ip ∈ ips, feTagged ip := by
  unfold getLbFrontendIps at h
  cases h1 : pyGet lb "properties" Py.none with
  | error e => simp only [h1, except_bind_err] at h; exact absurd h (by simp)
  | ok props0 =>
    simp only [h1, except_bind_ok] at h
    cases h2 : pyGet (pyOr props0 (Py.dict [])) "frontendIPConfigurations" (Py.list []) with
    | error e => simp only [h2, except_bind_err] at h; exact absurd h (by simp)
    | ok feConfigs =>
      simp only [h2, except_bind_ok] at h
      cases h3 : pyIter feConfigs with
      | error e => simp only [h3, except_bind_err] at h; exact absurd h (by simp)
      | ok items =>
        simp only [h3, except_bind_ok] at h
        exact getLb_tagged_aux items [] ips h (by simp)

/-- C8: for a load balancer or application gateway, `has_public_ip` is true
if and only if some resolved frontend IP display string does not match the
private prefixes `fe: 10.`, `fe: 172.`, `fe: 192.168.`; every such string
carries the `fe: ` tag followed by the address. -/
theorem C8_lb_public_ip_iff :
    ∀ (res : IPResolver) (r : Py) (t : String) (ips : List String),
      resourceTypeLower r = .ok t →
      (t = "microsoft.network/loadbalancers" ∨ t = "microsoft.network/applicationgateways") →
      getLbFrontendIps res r = .ok ips →
      ((hasPublicIp res r = .ok true ↔ ∃ ip ∈ ips, privateFe ip = false) ∧
        ∀ ip ∈ ips, pyStartsWith ip "fe: " = true) := by
  intro res r t ips h ht hips
  refine ⟨?_, getLbFrontendIps_tagged hips⟩
  unfold resourceTypeLower at h
  unfold hasPublicIp
  cases hg : pyGet r "type" Py.none with
  | error e => rw [hg, except_bind_err] at h; exact absurd h (by simp)
  | ok tv =>
    rw [hg, except_bind_ok] at h
    rw [except_bind_ok, h, except_bind_ok]
    have hne1 : t ≠ "microsoft.network/publicipaddresses" := by
      rcases ht with ht | ht <;> subst ht <;> decide
    have hne2 : t ≠ "microsoft.compute/virtualmachines" := by
      rcases ht with ht | ht <;> subst ht <;> decide
    rw [if_neg hne1, if_neg hne2, if_pos ht, hips, except_bind_ok]
    constructor
    · intro hh
      simp only [Except.ok.injEq] at hh
      rw [List.any_eq_true] at hh
      obtain ⟨ip, hmem, hip⟩ := hh
      exact ⟨ip, hmem, by simpa using hip⟩
    · intro ⟨ip, hmem, hip⟩
      have : ips.any (fun ip => !privateFe ip) = true :=
        List.any_eq_true.mpr ⟨ip, hmem, by simp [hip]⟩
      rw [this]

theorem pyOr_str_empty (a : String) : pyOr (.str a) (.str "") = .str a := by
  unfold pyOr
  by_cases h : a = "" <;> simp [Py.truthy, h]

theorem strCond (a : String) :
    ((Py.str a).truthy && !(pyEqStr (.str a) "*")) = decide (a ≠ "" ∧ a ≠ "*") := by
  by_cases h1 : a = "" <;> by_cases h2 : a = "*" <;> simp [Py.truthy, pyEqStr, h1, h2]

theorem ruleFlows_nonallow (access direction src dst proto dport nsg rname : String)
    (h : strLower access ≠ "allow") :
    ruleFlows (mkNsgRule access direction src dst proto dport nsg rname) = .ok [] := by
  unfold ruleFlows mkNsgRule
  simp only [pyGet, pyLookup, reduceIte, except_bind_ok, Option.getD_some, pyOr_str_empty,
    pyLowerStr]
  simp [h, pyOr_str_empty, except_bind_ok]

theorem ruleFlows_wildcard (access direction proto dport nsg rname : String) :
    ruleFlows (mkNsgRule access direction "*" "*" proto dport nsg rname) = .ok [] := by
  unfold ruleFlows mkNsgRule
  simp only [pyGet, pyLookup, reduceIte, except_bind_ok, Option.getD_some, pyOr_str_empty,
    pyLowerStr]
  by_cases h : strLower access = "allow"
  · simp [h, pyEqStr, pyOr_str_empty, except_bind_ok]
  · simp [h, pyOr_str_empty, except_bind_ok]

theorem mkDataFlow_autoLabel (s d : Py) (proto port ft : String) :
    mkDataFlow s d (.str proto) port (autoLabel proto port) ft =
      .ok ⟨s, d, .str proto, port, autoLabel proto port, ft⟩ := by
  unfold mkDataFlow
  by_cases hl : autoLabel proto port = ""
  · rw [if_neg (by simpa using hl), buildLabel_str, except_bind_ok]
  · rw [if_pos (by simpa using hl)]
    rfl

theorem nsgRuleLabel_str (a b : String) :
    nsgRuleLabel (.str a) (.str b) = .ok (autoLabel a b) := by
  unfold nsgRuleLabel autoLabel
  simp only [Py.truthy, pyEqStr, pyUpperStr, pyStr]
  by_cases h1 : a = "" <;> by_cases h2 : a = "*" <;>
    by_cases h3 : b = "" <;> by_cases h4 : b = "*" <;>
      simp [h1, h2, h3, h4, except_bind_ok, pure, Except.pure]

theorem ruleFlows_inbound (access direction src dst proto dport nsg rname : String)
    (hA : strLower access = "allow") (hD : strLower direction = "inbound")
    (hW : ¬(src = "*" ∧ dst = "*")) :
    ruleFlows (mkNsgRule access direction src dst proto dport nsg rname) =
      .ok [⟨.str src, .str (nsg ++ " (" ++ dst ++ ")"), .str proto, dport,
            autoLabel proto dport, "network"⟩] := by
  unfold ruleFlows mkNsgRule
  simp only [pyGet, pyLookup, except_bind_ok, Option.getD_some, pyOr_str_empty,
    pyLowerStr, hA, hD, pyEqStr, String.reduceEq, reduceIte, nsgRuleLabel_str, pyStr]
  rw [if_neg (by simp)]
  rw [if_neg (by simpa [Bool.and_eq_true, decide_eq_true_eq] using hW)]
  rw [mkDataFlow_autoLabel]
  rfl

theorem ruleFlows_outbound (access direction src dst proto dport nsg rname : String)
    (hA : strLower access = "allow") (hD : strLower direction = "outbound")
    (hW : ¬(src = "*" ∧ dst = "*")) :
    ruleFlows (mkNsgRule access direction src dst proto dport nsg rname) =
      .ok [⟨.str (nsg ++ " (" ++ src ++ ")"), .str dst, .str proto, dport,
            autoLabel proto dport, "network"⟩] := by
  unfold ruleFlows mkNsgRule
  simp only [pyGet, pyLookup, except_bind_ok, Option.getD_some, pyOr_str_empty,
    pyLowerStr, hA, hD, pyEqStr, String.reduceEq, reduceIte, nsgRuleLabel_str, pyStr]
  rw [if_neg (by simp)]
  rw [if_neg (by simpa [Bool.and_eq_true, decide_eq_true_eq] using hW)]
  rw [mkDataFlow_autoLabel]
  rfl

theorem ruleFlows_length_le (rule : Py) (fs : List DataFlow)
    (h : ruleFlows rule = .ok fs) :
    fs.length ≤ (if isAllowRule rule then 1 else 0) := by
  cases rule with
  | dict entries =>
    unfold ruleFlows at h
    simp only [pyGet, except_bind_ok] at h
    cases hl : pyLowerStr (pyOr ((pyLookup entries "access").getD Py.none) (Py.str "")) with
    | error e => rw [hl, except_bind_err] at h; exact absurd h (by simp)
    | ok a =>
      rw [hl, except_bind_ok] at h
      have hAllow : isAllowRule (.dict entries) = decide (a = "allow") := by
        unfold isAllowRule ruleAccess
        simp only [pyGet, except_bind_ok, hl]
      cases hd : pyLowerStr (pyOr ((pyLookup entries "direction").getD Py.none) (Py.str "")) with
      | error e => rw [hd, except_bind_err] at h; exact absurd h (by simp)
      | ok d =>
        rw [hd, except_bind_ok] at h
        by_cases ha : a = "allow"
        · rw [if_neg (by simp [ha])] at h
          rw [hAllow]
          simp [ha]
          split at h
          · simp only [Except.ok.injEq] at h; rw [← h]; simp
          · cases hL : nsgRuleLabel ((pyLookup entries "protocol").getD (Py.str "*"))
                ((pyLookup entries "destinationPortRange").getD (Py.str "*")) with
            | error e => rw [hL, except_bind_err] at h; exact absurd h (by simp)
            | ok lbl =>
              rw [hL, except_bind_ok] at h
              split at h
              · cases hm : mkDataFlow ((pyLookup entries "sourceAddressPrefix").getD (Py.str "*"))
                    (Py.str (pyStr ((pyLookup entries "nsgName").getD (Py.str "")) ++ " (" ++
                      pyStr ((pyLookup entries "destinationAddressPrefix").getD (Py.str "*")) ++ ")"))
                    ((pyLookup entries "protocol").getD (Py.str "*"))
                    (pyStr ((pyLookup entries "destinationPortRange").getD (Py.str "*"))) lbl "network" with
                | error e => rw [hm, except_bind_err] at h; exact absurd h (by simp)
                | ok f => rw [hm, except_bind_ok] at h; simp only [Except.ok.injEq] at h; rw [← h]; simp
              · split at h
                · cases hm : mkDataFlow
                      (Py.str (pyStr ((pyLookup entries "nsgName").getD (Py.str "")) ++ " (" ++
                        pyStr ((pyLookup entries "sourceAddressPrefix").getD (Py.str "*")) ++ ")"))
                      ((pyLookup entries "destinationAddressPrefix").getD (Py.str "*"))
                      ((pyLookup entries "protocol").getD (Py.str "*"))
                      (pyStr ((pyLookup entries "destinationPortRange").getD (Py.str "*"))) lbl "network" with
                  | error e => rw [hm, except_bind_err] at h; exact absurd h (by simp)
                  | ok f => rw [hm, except_bind_ok] at h; simp only [Except.ok.injEq] at h; rw [← h]; simp
                · simp only [Except.ok.injEq] at h; rw [← h]; simp
        · rw [if_pos (by simp [ha])] at h
          simp only [Except.ok.injEq] at h
          rw [← h]
          simp
  | none => unfold ruleFlows at h; simp only [pyGet, except_bind_err] at h; exact absurd h (by simp)
  | bool b => unfold ruleFlows at h; simp only [pyGet, except_bind_err] at h; exact absurd h (by simp)
  | int n => unfold ruleFlows at h; simp only [pyGet, except_bind_err] at h; exact absurd h (by simp)
  | str s => unfold ruleFlows at h; simp only [pyGet, except_bind_err] at h; exact absurd h (by simp)
  | list xs => unfold ruleFlows at h; simp only [pyGet, except_bind_err] at h; exact absurd h (by simp)

theorem flowsFromNsgRules_length : ∀ (rules : List Py) (out : List DataFlow),
    flowsFromNsgRules rules = .ok out → out.length ≤ rules.countP isAllowRule := by
  intro rules
  induction rules with
  | nil => intro out h; unfold flowsFromNsgRules at h; simp at h; simp [h]
  | cons r rest ih =>
    intro out h
    unfold flowsFromNsgRules at h
    cases hr : ruleFlows r with
    | error e => rw [hr, except_bind_err] at h; exact absurd h (by simp)
    | ok fs =>
      rw [hr, except_bind_ok] at h
      cases ht : flowsFromNsgRules rest with
      | error e => rw [ht, except_bind_err] at h; exact absurd h (by simp)
      | ok tail =>
        rw [ht, except_bind_ok] at h
        simp only [Except.ok.injEq] at h
        rw [← h]
        have h1 := ruleFlows_length_le r fs hr
        have h2 := ih tail ht
        rw [List.length_append, List.countP_cons]
        by_cases hA : isAllowRule r = true
        · rw [if_pos hA] at h1 ⊢; omega
        · rw [if_neg hA] at h1 ⊢; omega

theorem flowsFromNsgRules_singleton (r : Py) (fs : List DataFlow)
    (h : ruleFlows r = .ok fs) : flowsFromNsgRules [r] = .ok fs := by
  unfold flowsFromNsgRules
  rw [h, except_bind_ok]
  rw [show flowsFromNsgRules [] = .ok [] from rfl, except_bind_ok]
  simp

/-- Witness for C9 at protocol TCP, port 443: the label is `TCP 443`. -/
theorem C9_witness :
    mkDataFlow (.str "a") (.str "b") (.str "TCP") "443" "" "network" = .ok c9Flow ∧
    c9Flow.label = autoLabel "TCP" "443" ∧ c9Flow.label ≠ "" :=
  ⟨rfl, C9_dataflow_label.1 (.str "a") (.str "b") "TCP" "443" "network" c9Flow rfl,
   C9_dataflow_label.2 (.str "a") (.str "b") "TCP" "443" "" "network" c9Flow rfl
     (Or.inl ⟨by decide, by decide⟩)⟩

/-- Witness for C10: a public-IP resource with no `ipAddress` yields true; a
NIC referencing a public IP yields false. -/
theorem C10_witness :
    resourceTypeLower c10PipRes = .ok "microsoft.network/publicipaddresses" ∧
    hasPublicIp emptyResolver c10PipRes = .ok true ∧
    resourceTypeLower c10NicRes = .ok "microsoft.network/networkinterfaces" ∧
    ("microsoft.network/networkinterfaces" : String) ∉
      (["microsoft.network/publicipaddresses", "microsoft.compute/virtualmachines",
        "microsoft.network/loadbalancers", "microsoft.network/applicationgateways"] : List String) ∧
    hasPublicIp emptyResolver c10NicRes = .ok false :=
  ⟨rfl, C10_has_public_ip_types.1 emptyResolver c10PipRes rfl, rfl, by decide,
   C10_has_public_ip_types.2 emptyResolver c10NicRes _ rfl (by decide)⟩

/-- Witness for C8: a load balancer with one public frontend IP. -/
theorem C8_witness :
    resourceTypeLower c8Lb = .ok "microsoft.network/loadbalancers" ∧
    getLbFrontendIps c8Resolver c8Lb = .ok ["fe: 20.185.100.42"] ∧
    (hasPublicIp c8Resolver c8Lb = .ok true ↔
      ∃ ip ∈ ["fe: 20.185.100.42"], privateFe ip = false) ∧
    (∀ ip ∈ ["fe: 20.185.100.42"], pyStartsWith ip "fe: " = true) :=
  ⟨rfl, rfl,
   (C8_lb_public_ip_iff c8Resolver c8Lb _ _ rfl (Or.inl rfl) rfl).1,
   (C8_lb_public_ip_iff c8Resolver c8Lb _ _ rfl (Or.inl rfl) rfl).2⟩

/-- C3: `_flows_from_nsg_rules` emits at most one flow per rule and only for
rules whose access evaluates to `allow` case-insensitively; an allow rule
with direction `inbound` yields one flow from the rule's source to
`"<nsg> (<destination>)"`, direction `outbound` one flow from
`"<nsg> (<source>)"` to the destination, both of flow type `network` with
the port stringified; a rule whose source and destination are both `"*"`
yields no flow regardless of access. -/
theorem C3_nsg_rule_filtering :
    (∀ (rules : List Py) (out : List DataFlow),
        flowsFromNsgRules rules = .ok out → out.length ≤ rules.countP isAllowRule) ∧
    (∀ access direction src dst proto dport nsg rname : String,
        strLower access ≠ "allow" →
        flowsFromNsgRules [mkNsgRule access direction src dst proto dport nsg rname] = .ok []) ∧
    (∀ access direction proto dport nsg rname : String,
        flowsFromNsgRules [mkNsgRule access direction "*" "*" proto dport nsg rname] = .ok []) ∧
    (∀ access direction src dst proto dport nsg rname : String,
        strLower access = "allow" → strLower direction = "inbound" →
        ¬(src = "*" ∧ dst = "*") →
        flowsFromNsgRules [mkNsgRule access direction src dst proto dport nsg rname] =
          .ok [⟨.str src, .str (nsg ++ " (" ++ dst ++ ")"), .str proto, dport,
                autoLabel proto dport, "network"⟩]) ∧
    (∀ access direction src dst proto dport nsg rname : String,
        strLower access = "allow" → strLower direction = "outbound" →
        ¬(src = "*" ∧ dst = "*") →
        flowsFromNsgRules [mkNsgRule access direction src dst proto dport nsg rname] =
          .ok [⟨.str (nsg ++ " (" ++ src ++ ")"), .str dst, .str proto, dport,
                autoLabel proto dport, "network"⟩]) :=
  ⟨flowsFromNsgRules_length,
   fun a d s t p q n r h =>
     flowsFromNsgRules_singleton _ _ (ruleFlows_nonallow a d s t p q n r h),
   fun a d p q n r =>
     flowsFromNsgRules_singleton _ _ (ruleFlows_wildcard a d p q n r),
   fun a d s t p q n r h1 h2 h3 =>
     flowsFromNsgRules_singleton _ _ (ruleFlows_inbound a d s t p q n r h1 h2 h3),
   fun a d s t p q n r h1 h2 h3 =>
     flowsFromNsgRules_singleton _ _ (ruleFlows_outbound a d s t p q n r h1 h2 h3)⟩

/-- Witness for C3: an Allow+Inbound rule with destination port 80 produces
exactly one network-type flow whose port is `"80"`. -/
theorem C3_witness :
    strLower "Allow" = "allow" ∧ strLower "Inbound" = "inbound" ∧
    ¬(("Internet" : String) = "*" ∧ ("10.0.1.0/24" : String) = "*") ∧
    flowsFromNsgRules
        [mkNsgRule "Allow" "Inbound" "Internet" "10.0.1.0/24" "Tcp" "80" "web-nsg" "allow-http"] =
      .ok [⟨.str "Internet", .str ("web-nsg" ++ " (" ++ "10.0.1.0/24" ++ ")"), .str "Tcp", "80",
            autoLabel "Tcp" "80", "network"⟩] :=
  ⟨by decide, by decide, by decide,
   C3_nsg_rule_filtering.2.2.2.1 "Allow" "Inbound" "Internet" "10.0.1.0/24" "Tcp" "80"
     "web-nsg" "allow-http" (by decide) (by decide) (by decide)⟩


theorem relEq_iff (a b : ResourceRelationship) :
    relEq a b = true ↔ relTriple a = relTriple b := by
  unfold relEq relTriple
  simp [Prod.ext_iff, and_assoc]

theorem bind_ok_decomp {α β : Type} {m : Except PyErr α} {k : α → Except PyErr β}
    {out : β} (h : (m >>= k) = .ok out) : ∃ a, m = .ok a ∧ k a = .ok out := by
  cases m with
  | error e => exact absurd h (by simp [except_bind_err])
  | ok a => exact ⟨a, rfl, h⟩

theorem mkRelationship_lowered {a : String} {b : Py} {c d : String}
    {r : ResourceRelationship} (h : mkRelationship a b c d = .ok r) : relLowered r := by
  unfold mkRelationship at h
  cases b with
  | str s =>
    simp only [pyLowerStr, except_bind_ok, Except.ok.injEq] at h
    exact ⟨⟨a, by rw [← h]⟩, ⟨s, by rw [← h]⟩⟩
  | none => exact absurd h (by simp [pyLowerStr, except_bind_err])
  | bool x => exact absurd h (by simp [pyLowerStr, except_bind_err])
  | int n => exact absurd h (by simp [pyLowerStr, except_bind_err])
  | list xs => exact absurd h (by simp [pyLowerStr, except_bind_err])
  | dict e => exact absurd h (by simp [pyLowerStr, except_bind_err])

theorem relIf_lowered {s : String} {t : Py} {ty lbl : String} {fs : List ResourceRelationship}
    (h : relIf s t ty lbl = .ok fs) : ∀ x ∈ fs, relLowered x := by
  unfold relIf at h
  split at h
  · obtain ⟨r, hm, h⟩ := bind_ok_decomp h
    simp only [Except.ok.injEq] at h
    subst h
    intro x hx
    simp only [List.mem_singleton] at hx
    subst hx
    exact mkRelationship_lowered hm
  · simp only [Except.ok.injEq] at h
    subst h
    simp

theorem append_all {α : Type} {P : α → Prop} {l1 l2 : List α}
    (h1 : ∀ x ∈ l1, P x) (h2 : ∀ x ∈ l2, P x) : ∀ x ∈ l1 ++ l2, P x := by
  intro x hx
  rcases List.mem_append.mp hx with hx | hx
  · exact h1 x hx
  · exact h2 x hx

theorem pyForRels_all {body : Py → Except PyErr (List ResourceRelationship)}
    (hb : ∀ x fs, body x = .ok fs → ∀ r ∈ fs, relLowered r) :
    ∀ (l : List Py) (out : List ResourceRelationship),
      pyForRels body l = .ok out → ∀ r ∈ out, relLowered r := by
  intro l
  induction l with
  | nil => intro out h; unfold pyForRels at h; simp at h; subst h; simp
  | cons x rest ih =>
    intro out h
    unfold pyForRels at h
    obtain ⟨fs, h1, h⟩ := bind_ok_decomp h
    obtain ⟨tail, h2, h⟩ := bind_ok_decomp h
    simp only [Except.ok.injEq] at h
    subst h
    exact append_all (hb x fs h1) (ih tail h2)

theorem nicIpConfigBody_lowered (nicId : String) :
    ∀ x fs, nicIpConfigBody nicId x = .ok fs → ∀ r ∈ fs, relLowered r := by
  intro x fs h
  unfold nicIpConfigBody at h
  obtain ⟨p0, h1, h⟩ := bind_ok_decomp h
  obtain ⟨subnetRef, h2, h⟩ := bind_ok_decomp h
  obtain ⟨part1, h3, h⟩ := bind_ok_decomp h
  obtain ⟨pipRef, h4, h⟩ := bind_ok_decomp h
  obtain ⟨part2, h5, h⟩ := bind_ok_decomp h
  simp only [Except.ok.injEq] at h
  subst h
  exact append_all (relIf_lowered h3) (relIf_lowered h5)

theorem inferVm_lowered {rid : String} {props : Py} {out : List ResourceRelationship}
    (h : inferVmRelationships rid props = .ok out) : ∀ r ∈ out, relLowered r := by
  unfold inferVmRelationships at h
  obtain ⟨items, h1, h⟩ := bind_ok_decomp h
  exact pyForRels_all (fun x fs hx => relIf_lowered hx) items out h

theorem inferNic_lowered {rid : String} {props : Py} {out : List ResourceRelationship}
    (h : inferNicRelationships rid props = .ok out) : ∀ r ∈ out, relLowered r := by
  unfold inferNicRelationships at h
  obtain ⟨head, h1, h⟩ := bind_ok_decomp h
  obtain ⟨items, h2, h⟩ := bind_ok_decomp h
  obtain ⟨rest, h3, h⟩ := bind_ok_decomp h
  simp only [Except.ok.injEq] at h
  subst h
  exact append_all (relIf_lowered h1) (pyForRels_all (nicIpConfigBody_lowered rid) items rest h3)

theorem vnetPeeringBody_lowered (vnetId : String) :
    ∀ x fs, vnetPeeringBody vnetId x = .ok fs → ∀ r ∈ fs, relLowered r := by
  intro x fs h
  unfold vnetPeeringBody at h
  obtain ⟨p0, h1, h⟩ := bind_ok_decomp h
  exact relIf_lowered h

theorem inferVnet_lowered {rid : String} {props : Py} {out : List ResourceRelationship}
    (h : inferVnetRelationships rid props = .ok out) : ∀ r ∈ out, relLowered r := by
  unfold inferVnetRelationships at h
  obtain ⟨items, h1, h⟩ := bind_ok_decomp h
  exact pyForRels_all (vnetPeeringBody_lowered rid) items out h

theorem inferNsg_lowered {rid : String} {props : Py} {out : List ResourceRelationship}
    (h : inferNsgRelationships rid props = .ok out) : ∀ r ∈ out, relLowered r := by
  unfold inferNsgRelationships at h
  obtain ⟨items1, h1, h⟩ := bind_ok_decomp h
  obtain ⟨part1, h2, h⟩ := bind_ok_decomp h
  obtain ⟨items2, h3, h⟩ := bind_ok_decomp h
  obtain ⟨part2, h4, h⟩ := bind_ok_decomp h
  simp only [Except.ok.injEq] at h
  subst h
  exact append_all (pyForRels_all (fun x fs hx => relIf_lowered hx) items1 part1 h2)
    (pyForRels_all (fun x fs hx => relIf_lowered hx) items2 part2 h4)

theorem lbIfaceBody_lowered (lbId : String) :
    ∀ x fs, lbIfaceBody lbId x = .ok fs → ∀ r ∈ fs, relLowered r := by
  intro x fs h
  unfold lbIfaceBody at h
  split at h
  · obtain ⟨nicId, h1, h⟩ := bind_ok_decomp h
    cases nicId with
    | some nid => exact relIf_lowered h
    | none => simp only [Except.ok.injEq] at h; subst h; simp
  · simp only [Except.ok.injEq] at h; subst h; simp

theorem lbPoolBody_lowered (lbId : String) :
    ∀ x fs, lbPoolBody lbId x = .ok fs → ∀ r ∈ fs, relLowered r := by
  intro x fs h
  unfold lbPoolBody at h
  obtain ⟨p0, h1, h⟩ := bind_ok_decomp h
  obtain ⟨interfaces, h2, h⟩ := bind_ok_decomp h
  obtain ⟨items, h3, h⟩ := bind_ok_decomp h
  exact pyForRels_all (lbIfaceBody_lowered lbId) items fs h

theorem inferLb_lowered {rid : String} {props : Py} {out : List ResourceRelationship}
    (h : inferLbRelationships rid props = .ok out) : ∀ r ∈ out, relLowered r := by
  unfold inferLbRelationships at h
  obtain ⟨items, h1, h⟩ := bind_ok_decomp h
  exact pyForRels_all (lbPoolBody_lowered rid) items out h

theorem appgwAddrBody_lowered (appgwId : String) :
    ∀ x fs, appgwAddrBody appgwId x = .ok fs → ∀ r ∈ fs, relLowered r := by
  intro x fs h
  unfold appgwAddrBody at h
  obtain ⟨fqdn, h1, h⟩ := bind_ok_decomp h
  exact relIf_lowered h

theorem appgwPoolBody_lowered (appgwId : String) :
    ∀ x fs, appgwPoolBody appgwId x = .ok fs → ∀ r ∈ fs, relLowered r := by
  intro x fs h
  unfold appgwPoolBody at h
  obtain ⟨p0, h1, h⟩ := bind_ok_decomp h
  obtain ⟨addresses, h2, h⟩ := bind_ok_decomp h
  obtain ⟨items, h3, h⟩ := bind_ok_decomp h
  exact pyForRels_all (appgwAddrBody_lowered appgwId) items fs h

theorem appgwGwIpBody_lowered (appgwId : String) :
    ∀ x fs, appgwGwIpBody appgwId x = .ok fs → ∀ r ∈ fs, relLowered r := by
  intro x fs h
  unfold appgwGwIpBody at h
  obtain ⟨p0, h1, h⟩ := bind_ok_decomp h
  obtain ⟨subnetRef, h2, h⟩ := bind_ok_decomp h
  exact relIf_lowered h

theorem inferAppgw_lowered {rid : String} {props : Py} {out : List ResourceRelationship}
    (h : inferAppgwRelationships rid props = .ok out) : ∀ r ∈ out, relLowered r := by
  unfold inferAppgwRelationships at h
  obtain ⟨items1, h1, h⟩ := bind_ok_decomp h
  obtain ⟨part1, h2, h⟩ := bind_ok_decomp h
  obtain ⟨items2, h3, h⟩ := bind_ok_decomp h
  obtain ⟨part2, h4, h⟩ := bind_ok_decomp h
  simp only [Except.ok.injEq] at h
  subst h
  exact append_all (pyForRels_all (appgwPoolBody_lowered rid) items1 part1 h2)
    (pyForRels_all (appgwGwIpBody_lowered rid) items2 part2 h4)

theorem peConnBody_lowered (peId : String) :
    ∀ x fs, peConnBody peId x = .ok fs → ∀ r ∈ fs, relLowered r := by
  intro x fs h
  unfold peConnBody at h
  obtain ⟨p0, h1, h⟩ := bind_ok_decomp h
  obtain ⟨serviceId, h2, h⟩ := bind_ok_decomp h
  exact relIf_lowered h

theorem inferPe_lowered {rid : String} {props : Py} {out : List ResourceRelationship}
    (h : inferPeRelationships rid props = .ok out) : ∀ r ∈ out, relLowered r := by
  unfold inferPeRelationships at h
  obtain ⟨connections, h1, h⟩ := bind_ok_decomp h
  obtain ⟨items, h2, h⟩ := bind_ok_decomp h
  obtain ⟨part1, h3, h⟩ := bind_ok_decomp h
  obtain ⟨part2, h4, h⟩ := bind_ok_decomp h
  simp only [Except.ok.injEq] at h
  subst h
  exact append_all (pyForRels_all (peConnBody_lowered rid) items part1 h3) (relIf_lowered h4)

theorem inferAppService_lowered {rid : String} {props : Py} {out : List ResourceRelationship}
    (h : inferAppServiceRelationships rid props = .ok out) : ∀ r ∈ out, relLowered r := by
  unfold inferAppServiceRelationships at h
  obtain ⟨part1, h1, h⟩ := bind_ok_decomp h
  obtain ⟨part2, h2, h⟩ := bind_ok_decomp h
  simp only [Except.ok.injEq] at h
  subst h
  exact append_all (relIf_lowered h1) (relIf_lowered h2)

theorem dataPeBody_lowered (rid : String) :
    ∀ x fs, dataPeBody rid x = .ok fs → ∀ r ∈ fs, relLowered r := by
  intro x fs h
  unfold dataPeBody at h
  obtain ⟨p0, h1, h⟩ := bind_ok_decomp h
  exact relIf_lowered h

theorem dataVnetRuleBody_lowered (rid : String) :
    ∀ x fs, dataVnetRuleBody rid x = .ok fs → ∀ r ∈ fs, relLowered r := by
  intro x fs h
  unfold dataVnetRuleBody at h
  obtain ⟨fromProps, h1, h⟩ := bind_ok_decomp h
  obtain ⟨subnetId, h2, h⟩ := bind_ok_decomp h
  split at h
  · obtain ⟨sl, h3, h⟩ := bind_ok_decomp h
    split at h
    · exact relIf_lowered h
    · simp only [Except.ok.injEq] at h; subst h; simp
  · simp only [Except.ok.injEq] at h; subst h; simp

theorem inferData_lowered {rid : String} {props : Py} {out : List ResourceRelationship}
    (h : inferDataResourceRelationships rid props = .ok out) : ∀ r ∈ out, relLowered r := by
  unfold inferDataResourceRelationships at h
  obtain ⟨items1, h1, h⟩ := bind_ok_decomp h
  obtain ⟨part1, h2, h⟩ := bind_ok_decomp h
  obtain ⟨items2, h3, h⟩ := bind_ok_decomp h
  obtain ⟨part2, h4, h⟩ := bind_ok_decomp h
  simp only [Except.ok.injEq] at h
  subst h
  exact append_all (pyForRels_all (dataPeBody_lowered rid) items1 part1 h2)
    (pyForRels_all (dataVnetRuleBody_lowered rid) items2 part2 h4)

theorem setInsert_good {s : List ResourceRelationship} {r : ResourceRelationship}
    (hs : relGood s) (hr : relLowered r) : relGood (setInsert s r) := by
  unfold setInsert
  split
  · exact hs
  · rename_i hany
    constructor
    · rw [List.map_append]
      rw [List.nodup_append]
      refine ⟨hs.1, by simp, ?_⟩
      intro t ht ht2
      simp only [List.map_singleton, List.mem_singleton] at ht2
      subst ht2
      rcases List.mem_map.mp ht with ⟨x, hx, hxt⟩
      exact absurd (List.any_eq_true.mpr ⟨x, hx, (relEq_iff x r).mpr hxt⟩) (by simpa using hany)
    · exact append_all hs.2 (by intro x hx; simp only [List.mem_singleton] at hx; subst hx; exact hr)

theorem setUpdate_good {s : List ResourceRelationship} {new : List ResourceRelationship}
    (hs : relGood s) (hnew : ∀ r ∈ new, relLowered r) : relGood (setUpdate s new) := by
  unfold setUpdate
  induction new generalizing s with
  | nil => simpa using hs
  | cons x rest ih =>
    simp only [List.foldl_cons]
    exact ih (setInsert_good hs (hnew x (by simp)))
      (fun r hr => hnew r (by simp [hr]))

theorem dispatchResource_good {acc : List ResourceRelationship} {resource : Py}
    {out : List ResourceRelationship}
    (h : dispatchResource acc resource = .ok out) (hacc : relGood acc) : relGood out := by
  unfold dispatchResource at h
  obtain ⟨idv, h1, h⟩ := bind_ok_decomp h
  obtain ⟨rid, h2, h⟩ := bind_ok_decomp h
  obtain ⟨tyv, h3, h⟩ := bind_ok_decomp h
  obtain ⟨rtype, h4, h⟩ := bind_ok_decomp h
  obtain ⟨pv, h0, h⟩ := bind_ok_decomp h
  split at h
  · obtain ⟨new, h5, h⟩ := bind_ok_decomp h
    simp only [pure, Except.pure, Except.ok.injEq] at h
    subst h
    exact setUpdate_good hacc (inferVm_lowered h5)
  · split at h
    · obtain ⟨new, h5, h⟩ := bind_ok_decomp h
      simp only [pure, Except.pure, Except.ok.injEq] at h
      subst h
      exact setUpdate_good hacc (inferNic_lowered h5)
    · split at h
      · obtain ⟨new, h5, h⟩ := bind_ok_decomp h
        simp only [pure, Except.pure, Except.ok.injEq] at h
        subst h
        exact setUpdate_good hacc (inferVnet_lowered h5)
      · split at h
        · obtain ⟨new, h5, h⟩ := bind_ok_decomp h
          simp only [pure, Except.pure, Except.ok.injEq] at h
          subst h
          exact setUpdate_good hacc (inferNsg_lowered h5)
        · split at h
          · obtain ⟨new, h5, h⟩ := bind_ok_decomp h
            simp only [pure, Except.pure, Except.ok.injEq] at h
            subst h
            exact setUpdate_good hacc (inferLb_lowered h5)
          · split at h
            · obtain ⟨new, h5, h⟩ := bind_ok_decomp h
              simp only [pure, Except.pure, Except.ok.injEq] at h
              subst h
              exact setUpdate_good hacc (inferAppgw_lowered h5)
            · split at h
              · obtain ⟨new, h5, h⟩ := bind_ok_decomp h
                simp only [pure, Except.pure, Except.ok.injEq] at h
                subst h
                exact setUpdate_good hacc (inferPe_lowered h5)
              · split at h
                · obtain ⟨new, h5, h⟩ := bind_ok_decomp h
                  simp only [pure, Except.pure, Except.ok.injEq] at h
                  subst h
                  exact setUpdate_good hacc (inferAppService_lowered h5)
                · split at h
                  · obtain ⟨new, h5, h⟩ := bind_ok_decomp h
                    simp only [pure, Except.pure, Except.ok.injEq] at h
                    subst h
                    exact setUpdate_good hacc (inferData_lowered h5)
                  · simp only [pure, Except.pure, Except.ok.injEq] at h
                    subst h
                    exact hacc

theorem buildRel_fold_good :
    ∀ (resources : List Py) (acc out : List ResourceRelationship),
      resources.foldlM dispatchResource acc = .ok out → relGood acc → relGood out := by
  intro resources
  induction resources with
  | nil =>
    intro acc out h hacc
    simp [List.foldlM, pure, Except.pure] at h
    subst h
    exact hacc
  | cons x rest ih =>
    intro acc out h hacc
    rw [List.foldlM_cons] at h
    obtain ⟨acc1, h1, h⟩ := bind_ok_decomp h
    exact ih acc1 out h (dispatchResource_good h1 hacc)

theorem buildRelationshipSet_good {resources : List Py} {out : List ResourceRelationship}
    (h : buildRelationshipSet resources = .ok out) : relGood out := by
  unfold buildRelationshipSet at h
  obtain ⟨u, h1, h⟩ := bind_ok_decomp h
  exact buildRel_fold_good resources [] out h (by constructor <;> simp)

theorem setUpdate_label_no_role (s : List ResourceRelationship)
    (a b : ResourceRelationship) (h : relTriple a = relTriple b) :
    setUpdate s [a, b] = setUpdate s [a] := by
  unfold setUpdate
  simp only [List.foldl_cons, List.foldl_nil]
  have key : ∃ x ∈ setInsert s a, relEq x b = true := by
    unfold setInsert
    split
    · rename_i hany
      rcases List.any_eq_true.mp hany with ⟨x, hx, hxa⟩
      exact ⟨x, hx, (relEq_iff x b).mpr (((relEq_iff x a).mp hxa).trans h)⟩
    · exact ⟨a, by simp, (relEq_iff a b).mpr h⟩
  show setInsert (setInsert s a) b = setInsert s a
  unfold setInsert
  rw [if_pos]
  rcases key with ⟨x, hx, hxb⟩
  exact List.any_eq_true.mpr ⟨x, hx, hxb⟩

/-- C6: relationship equality and hash are defined over the
`(source_id, target_id, relationship_type)` triple only, with both IDs
lower-cased before storage; `build_relationship_graph` therefore returns each
triple at most once, and a later relationship that differs only in its label
adds nothing to the set. -/
theorem C6_relationship_identity :
    (∀ (resources : List Py) (out : List ResourceRelationship),
        buildRelationshipSet resources = .ok out →
        (out.map relTriple).Nodup ∧
        ∀ r ∈ out, (∃ s, r.source_id = strLower s) ∧ (∃ t, r.target_id = strLower t)) ∧
    (∀ (s : List ResourceRelationship) (a b : ResourceRelationship),
        relTriple a = relTriple b → setUpdate s [a, b] = setUpdate s [a]) :=
  ⟨fun _ _ h => buildRelationshipSet_good h, setUpdate_label_no_role⟩

/-- Witness for C6: a VM listing the same NIC twice with differing case
yields a single lower-cased `has_nic` relationship. -/
theorem C6_witness :
    buildRelationshipSet c6Input =
      .ok [⟨"vm1", "/subscriptions/s/nic1", "has_nic", "NIC"⟩] ∧
    (([(⟨"vm1", "/subscriptions/s/nic1", "has_nic", "NIC"⟩ : ResourceRelationship)].map
        relTriple).Nodup ∧
      ∀ r ∈ [(⟨"vm1", "/subscriptions/s/nic1", "has_nic", "NIC"⟩ : ResourceRelationship)],
        (∃ s, r.source_id = strLower s) ∧ (∃ t, r.target_id = strLower t)) :=
  ⟨rfl, C6_relationship_identity.1 c6Input _ rfl⟩

/-- C4 (refuting the never-raises claim): on a resource whose
`networkInterfaces` property is `null`, `build_relationship_graph` raises a
TypeError (`for nic_ref in None`) instead of skipping the malformed field. -/
theorem C4_malformed_input_raises :
    buildRelationshipSet c4Input = .error .typeError := by rfl

/-- C1 (order instability): the relationship-set contents inferred from
`c1Input` are two distinct relationships; `list(set)` in CPython may
enumerate them in either order (string hashing is seeded per process), and
both orders are permutations of the same contents, so the returned order is
not determined by the input. -/
theorem C1_relationship_order_underdetermined :
    buildRelationshipSet c1Input = .ok [c1RelSubnet, c1RelPip] ∧
    c1RelSubnet ≠ c1RelPip ∧
    [c1RelPip, c1RelSubnet].Perm [c1RelSubnet, c1RelPip] ∧
    [c1RelPip, c1RelSubnet] ≠ [c1RelSubnet, c1RelPip] :=
  ⟨rfl, by decide, List.Perm.swap c1RelSubnet c1RelPip [], by decide⟩

theorem alistLookup_any (d : List (String × String)) (k : String) :
    (d.any fun kv => kv.1 = k) = (alistLookup d k).isSome := by
  induction d with
  | nil => simp [alistLookup]
  | cons kv rest ih =>
    unfold alistLookup
    by_cases h : kv.1 = k
    · simp [h]
    · simp only [List.any_cons, h, decide_False, Bool.false_or, if_neg h]
      exact ih

theorem alistLookup_mapReplace_self (d : List (String × String)) (k v : String) :
    alistLookup (d.map (fun kv => if kv.1 = k then (k, v) else kv)) k =
      (alistLookup d k).map (fun _ => v) := by
  induction d with
  | nil => simp [alistLookup]
  | cons kv rest ih =>
    simp only [List.map_cons]
    by_cases h : kv.1 = k
    · rw [if_pos h]
      unfold alistLookup
      rw [if_pos h, if_pos (show (k, v).1 = k from rfl)]
      rfl
    · rw [if_neg h]
      unfold alistLookup
      rw [if_neg h, if_neg h]
      exact ih

theorem alistLookup_mapReplace_ne (d : List (String × String)) (k v k2 : String)
    (hne : k2 ≠ k) :
    alistLookup (d.map (fun kv => if kv.1 = k then (k, v) else kv)) k2 =
      alistLookup d k2 := by
  induction d with
  | nil => simp [alistLookup]
  | cons kv rest ih =>
    simp only [List.map_cons]
    unfold alistLookup
    by_cases h : kv.1 = k
    · rw [if_pos h]
      rw [if_neg (by simpa using Ne.symm (by simpa [h] using hne)), if_neg (by rw [h]; exact Ne.symm hne)]
      exact ih
    · rw [if_neg h]
      by_cases h2 : kv.1 = k2
      · rw [if_pos h2, if_pos h2]
      · rw [if_neg h2, if_neg h2]
        exact ih

theorem alistLookup_append_single (d : List (String × String)) (k v k2 : String) :
    alistLookup (d ++ [(k, v)]) k2 =
      match alistLookup d k2 with
      | some w => some w
      | Option.none => if k2 = k then some v else Option.none := by
  induction d with
  | nil => simp [alistLookup, eq_comm]
  | cons kv rest ih =>
    unfold alistLookup
    simp only [List.cons_append]
    by_cases h : kv.1 = k2
    · rw [if_pos h, if_pos h]
    · rw [if_neg h, if_neg h]
      exact ih

theorem alistLookup_dictInsertStr (d : List (String × String)) (k v k2 : String) :
    alistLookup (dictInsertStr d k v) k2 =
      if k2 = k then some v else alistLookup d k2 := by
  unfold dictInsertStr
  by_cases hk : k2 = k
  · subst hk
    rw [if_pos rfl]
    split
    · rename_i hany
      rw [alistLookup_mapReplace_self]
      rw [alistLookup_any] at hany
      cases hq : alistLookup d k2 with
      | some w => simp
      | none => rw [hq] at hany; simp at hany
    · rename_i hany
      rw [alistLookup_append_single]
      rw [alistLookup_any] at hany
      cases hq : alistLookup d k2 with
      | some w => rw [hq] at hany; simp at hany
      | none => simp
  · rw [if_neg hk]
    split
    · exact alistLookup_mapReplace_ne d k v k2 hk
    · rw [alistLookup_append_single]
      cases hq : alistLookup d k2 with
      | some w => simp
      | none => simp [hk]

theorem peMapsStep_mono (m : List (String × String) × List (String × String))
    (rel : ResourceRelationship) (k : String) (h : (alistLookup m.1 k).isSome) :
    (alistLookup (peMapsStep m rel).1 k).isSome := by
  unfold peMapsStep
  split
  · simp only [alistLookup_dictInsertStr]
    split
    · rfl
    · exact h
  · split
    · exact h
    · exact h

theorem peMaps_fold_mono (rels : List ResourceRelationship)
    (m : List (String × String) × List (String × String)) (k : String)
    (h : (alistLookup m.1 k).isSome) :
    (alistLookup (rels.foldl peMapsStep m).1 k).isSome := by
  induction rels generalizing m with
  | nil => exact h
  | cons r rest ih => exact ih (peMapsStep m r) (peMapsStep_mono m r k h)

theorem peToService_mem (rels : List ResourceRelationship) (r : ResourceRelationship)
    (hr : r ∈ rels) (ht : r.relationship_type = "private_link_to") :
    ∃ svc, alistLookup (peToService rels) r.source_id = some svc := by
  unfold peToService
  suffices h : ∀ m : List (String × String) × List (String × String), r ∈ rels →
      (alistLookup (rels.foldl peMapsStep m).1 r.source_id).isSome by
    have h2 := h ([], []) hr
    cases hq : alistLookup (List.foldl peMapsStep ([], []) rels).1 r.source_id with
    | some v => exact ⟨v, rfl⟩
    | none => rw [hq] at h2; simp at h2
  clear hr
  induction rels with
  | nil => intro m hr; simp at hr
  | cons x rest ih =>
    intro m hr
    rcases List.mem_cons.mp hr with hx | hx
    · subst hx
      simp only [List.foldl_cons]
      apply peMaps_fold_mono
      unfold peMapsStep
      rw [if_pos ht]
      simp [alistLookup_dictInsertStr]
    · simp only [List.foldl_cons]
      exact ih (peMapsStep m x) hx


/-- C2 (amended): `_flows_from_private_endpoints` emits exactly one
`private_link` flow per entry of the endpoint-to-service map (every endpoint
with a `private_link_to` relationship has an entry, the last-listed target
winning), with protocol TCP, port 443, destination the target service name
(resource name when known, else the last ID path segment), label
`Private Link -> <target>`, and source the last path segment of the
endpoint's subnet ID when an `in_subnet` relationship exists (`"VNet"` if
that segment is empty) and the string `"Unknown"` when none exists. -/
theorem C2_private_endpoint_flows :
    ∀ (resources : List Py) (rels : List ResourceRelationship)
      (names : List (String × Py)) (out : List DataFlow),
      resourceNames resources = .ok names →
      flowsFromPrivateEndpoints resources rels = .ok out →
      out.length = (peToService rels).length ∧
      (∀ r ∈ rels, r.relationship_type = "private_link_to" →
        ∃ svc, alistLookup (peToService rels) r.source_id = some svc) ∧
      ∀ (i : Nat) (h1 : i < (peToService rels).length) (h2 : i < out.length),
        (out.get ⟨i, h2⟩).flow_type = "private_link" ∧
        (out.get ⟨i, h2⟩).protocol = .str "TCP" ∧
        (out.get ⟨i, h2⟩).port = "443" ∧
        (out.get ⟨i, h2⟩).destination =
          (pyLookup names (strLower ((peToService rels).get ⟨i, h1⟩).2)).getD
            (.str (extractNameStr ((peToService rels).get ⟨i, h1⟩).2)) ∧
        (out.get ⟨i, h2⟩).label =
          "Private Link -> " ++ pyStr (out.get ⟨i, h2⟩).destination ∧
        (out.get ⟨i, h2⟩).source = .str
          (match alistLookup (peToSubnet rels) ((peToService rels).get ⟨i, h1⟩).1 with
           | some sid => if extractNameStr sid = "" then "VNet" else extractNameStr sid
           | Option.none => "Unknown") := by
  intro resources rels names out hn hf
  unfold flowsFromPrivateEndpoints at hf
  obtain ⟨names0, hn0, hf⟩ := bind_ok_decomp hf
  rw [hn] at hn0
  have hnames : names0 = names := by simpa using hn0.symm
  subst hnames
  simp only [Except.ok.injEq] at hf
  subst hf
  refine ⟨by simp, fun r hr ht => peToService_mem rels r hr ht, ?_⟩
  intro i h1 h2
  have hget : (List.map (peFlowOf names0 (peToSubnet rels)) (peToService rels)).get
      ⟨i, h2⟩ = peFlowOf names0 (peToSubnet rels) ((peToService rels).get ⟨i, h1⟩) := by
    simp [List.get_eq_getElem, List.getElem_map]
  rw [hget]
  unfold peFlowOf
  refine ⟨rfl, rfl, rfl, rfl, rfl, ?_⟩
  cases hlk : alistLookup (peToSubnet rels) ((peToService rels).get ⟨i, h1⟩).1 with
  | some sid => simp [hlk]
  | none => simp [hlk, extractNameStr]

/-- Counterexample for C2 as stated: with no `in_subnet` relationship the
emitted flow's source is `"Unknown"`, not `"VNet"` (the `or "VNet"` fallback
is unreachable because `_extract_name_from_id("")` returns `"Unknown"`). -/
theorem C2_counterexample :
    discoverDataFlows [] [c2Rel] Option.none = .ok [c2Flow] ∧
    c2Flow.source = .str "Unknown" ∧ ("Unknown" : String) ≠ "VNet" :=
  ⟨by rfl, rfl, by decide⟩

/-- Witness for C2: an endpoint with both target and subnet yields one flow
from the subnet name. -/
theorem C2_witness :
    resourceNames c2wResources = .ok c2wNames ∧
    flowsFromPrivateEndpoints c2wResources c2wRels = .ok c2wOut ∧
    c2wOut.length = (peToService c2wRels).length :=
  ⟨rfl, rfl, (C2_private_endpoint_flows c2wResources c2wRels c2wNames c2wOut rfl rfl).1⟩

/-- Reading `modifyIdx` at an index: the modified slot at `i`, every other
slot unchanged. -/
theorem modifyIdx_getElem? {α : Type} :
    ∀ (l : List α) (i : Nat) (f : α → α) (j : Nat),
      (modifyIdx l i f)[j]? = if j = i then Option.map f l[i]? else l[j]?
  | [], i, f, j => by simp [modifyIdx]
  | a :: l, 0, f, 0 => by simp [modifyIdx]
  | a :: l, 0, f, Nat.succ j => by simp [modifyIdx]
  | a :: l, Nat.succ i, f, 0 => by simp [modifyIdx]
  | a :: l, Nat.succ i, f, Nat.succ j => by
    simp only [modifyIdx, List.getElem?_cons_succ, modifyIdx_getElem? l i f j]
    by_cases h : j = i <;> simp [h]

/-- `nodeFrame` is reflexive. -/
theorem nodeFrame_refl (a : DiagramNode) : nodeFrame a a := by cases a; rfl

/-- `groupFrame` is reflexive. -/
theorem groupFrame_refl (a : DiagramGroup) : groupFrame a a := by cases a; rfl

/-- `nodeFrame` is transitive. -/
theorem nodeFrame_trans {a b c : DiagramNode} (h1 : nodeFrame a b)
    (h2 : nodeFrame b c) : nodeFrame a c := by
  cases a; cases b; cases c
  simp only [nodeFrame, DiagramNode.mk.injEq] at h1 h2 ⊢
  simp_all

/-- `groupFrame` is transitive. -/
theorem groupFrame_trans {a b c : DiagramGroup} (h1 : groupFrame a b)
    (h2 : groupFrame b c) : groupFrame a c := by
  cases a; cases b; cases c
  simp only [groupFrame, DiagramGroup.mk.injEq] at h1 h2 ⊢
  simp_all

/-- `List.Forall₂` of a transitive relation composes. -/
theorem forall2_trans {α : Type} {R : α → α → Prop} {l1 l2 l3 : List α}
    (h1 : List.Forall₂ R l1 l2) (h2 : List.Forall₂ R l2 l3)
    (ht : ∀ a b c, R a b → R b c → R a c) : List.Forall₂ R l1 l3 := by
  induction h1 generalizing l3 with
  | nil => cases h2; exact List.Forall₂.nil
  | cons h t ih =>
    cases h2 with
    | cons h' t' => exact List.Forall₂.cons (ht _ _ _ h h') (ih t')

/-- `List.Forall₂` transfers to `getD` reads, given the relation holds at
the default. -/
theorem forall2_getD {α : Type} {R : α → α → Prop} {l1 l2 : List α}
    (h : List.Forall₂ R l1 l2) (d : α) (hd : R d d) :
    ∀ i : Nat, R (l1.getD i d) (l2.getD i d) := by
  induction h with
  | nil => intro i; exact hd
  | cons h t ih =>
    intro i
    cases i with
    | zero => simpa using h
    | succ j => simpa using ih j

/-- A list is `Forall₂`-related to any single-slot modification of itself
by a relation the modification respects. -/
theorem forall2_modifyIdx {α : Type} {R : α → α → Prop} (hr : ∀ a, R a a)
    {f : α → α} (hf : ∀ a, R a (f a)) :
    ∀ (l : List α) (i : Nat), List.Forall₂ R l (modifyIdx l i f)
  | [], _ => List.Forall₂.nil
  | a :: l, 0 =>
    List.Forall₂.cons (hf a) (List.forall₂_same.mpr fun x _ => hr x)
  | a :: l, Nat.succ i => List.Forall₂.cons (hr a) (forall2_modifyIdx hr hf l i)

/-- `stFrame` is reflexive. -/
theorem stFrame_refl (s : LayoutSt) : stFrame s s :=
  ⟨List.forall₂_same.mpr fun x _ => nodeFrame_refl x,
   List.forall₂_same.mpr fun x _ => groupFrame_refl x⟩

/-- `stFrame` is transitive. -/
theorem stFrame_trans {s t u : LayoutSt} (h1 : stFrame s t) (h2 : stFrame t u) :
    stFrame s u :=
  ⟨forall2_trans h1.1 h2.1 (fun _ _ _ ha hb => nodeFrame_trans ha hb),
   forall2_trans h1.2 h2.2 (fun _ _ _ ha hb => groupFrame_trans ha hb)⟩

/-- Overwriting a node's position is a `nodeFrame` step. -/
theorem nodeFrame_setPos (n : DiagramNode) (p : Position) :
    nodeFrame n { n with position := p } := rfl

/-- Overwriting a group's bounding box is a `groupFrame` step. -/
theorem groupFrame_setBox (g : DiagramGroup) (bb : BoundingBox) :
    groupFrame g { g with bounding_box := bb } := rfl

/-- Writing one node position is a frame step. -/
theorem setNodePos_frame (st : LayoutSt) (i : Nat) (p : Position) :
    stFrame st (setNodePos st i p) :=
  ⟨forall2_modifyIdx nodeFrame_refl (fun n => nodeFrame_setPos n p) st.nodes i,
   List.forall₂_same.mpr fun x _ => groupFrame_refl x⟩

/-- Writing one group bounding box is a frame step. -/
theorem setGroupBox_frame (st : LayoutSt) (i : Nat) (bb : BoundingBox) :
    stFrame st (setGroupBox st i bb) :=
  ⟨List.forall₂_same.mpr fun x _ => nodeFrame_refl x,
   forall2_modifyIdx groupFrame_refl (fun g => groupFrame_setBox g bb) st.groups i⟩

/-- One row step is a frame step on the carried layout state. -/
theorem rowStep_frame (innerX : ℚ) (ni : Nat) (s : RowSt) :
    stFrame s.st (rowStep innerX ni s).st := by
  unfold rowStep
  by_cases h : s.col ≥ nodesPerRow <;>
    simp only [h, ite_true, ite_false] <;> exact setNodePos_frame _ _ _

/-- The child-node row loop is a frame transformation. -/
theorem layoutNodeRow_frame (innerX : ℚ) :
    ∀ (idxs : List Nat) (s : RowSt) (st0 : LayoutSt), st0 = s.st →
      stFrame st0 (layoutNodeRow innerX idxs s).st
  | [], s, st0, h => h ▸ stFrame_refl s.st
  | ni :: rest, s, st0, h => by
    subst h
    exact stFrame_trans (rowStep_frame innerX ni s)
      (layoutNodeRow_frame innerX rest (rowStep innerX ni s) _ rfl)

/-- The mutual group-layout recursion is a frame transformation: whenever
`layoutGroupRec` or `layoutChildGroups` succeeds, only node positions and
group bounding boxes change. -/
theorem layoutGroup_frame : ∀ fuel : Nat,
    (∀ gi gm nm sx sy st st',
      layoutGroupRec fuel gi gm nm sx sy st = some st' → stFrame st st') ∧
    (∀ gm nm iy gis cx mh st out,
      layoutChildGroups fuel gm nm iy gis (cx, mh, st) = some out →
      stFrame st out.2.2) := by
  intro fuel
  induction fuel with
  | zero =>
    constructor
    · intro gi gm nm sx sy st st' h
      simp only [layoutGroupRec] at h
      exact Option.noConfusion h
    · intro gm nm iy gis cx mh st out h
      cases gis with
      | nil =>
        simp only [layoutChildGroups, Option.some.injEq] at h
        subst h
        exact stFrame_refl st
      | cons gi rest =>
        simp only [layoutChildGroups, layoutGroupRec] at h
        exact Option.noConfusion h
  | succ f ih =>
    have hQ : ∀ gi gm nm sx sy st st',
        layoutGroupRec (f + 1) gi gm nm sx sy st = some st' → stFrame st st' := by
      intro gi gm nm sx sy st st' h
      simp only [layoutGroupRec] at h
      split at h
      · exact Option.noConfusion h
      · rename_i cx mH st1 heq
        injection h with h
        subst h
        refine stFrame_trans (ih.2 _ _ _ _ _ _ _ _ heq) ?_
        refine stFrame_trans ?_ (setGroupBox_frame _ _ _)
        exact layoutNodeRow_frame _ _ _ _ rfl
    refine ⟨hQ, ?_⟩
    intro gm nm iy gis
    induction gis with
    | nil =>
      intro cx mh st out h
      simp only [layoutChildGroups, Option.some.injEq] at h
      subst h
      exact stFrame_refl st
    | cons gi rest ih2 =>
      intro cx mh st out h
      simp only [layoutChildGroups] at h
      split at h
      · exact Option.noConfusion h
      · rename_i st1 heq
        exact stFrame_trans (hQ _ _ _ _ _ _ _ heq) (ih2 _ _ _ _ h)

/-- The root-group loop of `_layout_hierarchical` is a frame
transformation. -/
theorem rootLoop_frame (fuel : Nat) (gm nm : List (String × Nat)) :
    ∀ (gis : List Nat) (cx : ℚ) (st : LayoutSt) (out : ℚ × LayoutSt),
      rootLoop fuel gm nm gis (cx, st) = some out → stFrame st out.2
  | [], cx, st, out, h => by
    simp only [rootLoop, Option.some.injEq] at h
    subst h
    exact stFrame_refl st
  | gi :: rest, cx, st, out, h => by
    simp only [rootLoop] at h
    split at h
    · exact Option.noConfusion h
    · rename_i st1 heq
      exact stFrame_trans ((layoutGroup_frame fuel).1 _ _ _ _ _ _ _ heq)
        (rootLoop_frame fuel gm nm rest _ st1 out h)

/-- The ungrouped-node row of `_layout_hierarchical` is a frame
transformation. -/
theorem placeUngrouped_frame (uy : ℚ) :
    ∀ (idxs : List Nat) (acc : ℚ × LayoutSt) (st0 : LayoutSt), st0 = acc.2 →
      stFrame st0 (placeUngrouped uy idxs acc)
  | [], acc, st0, h => h ▸ stFrame_refl acc.2
  | ni :: rest, acc, st0, h => by
    subst h
    obtain ⟨ux, st⟩ := acc
    exact stFrame_trans (setNodePos_frame st ni _)
      (placeUngrouped_frame uy rest _ _ rfl)

/-- `_layout_hierarchical` is a frame transformation at page level. -/
theorem layoutHierarchical_frame {page page' : DiagramPage}
    (h : layoutHierarchical page = some page') :
    page'.id = page.id ∧ page'.title = page.title ∧ page'.edges = page.edges ∧
    List.Forall₂ nodeFrame page.nodes page'.nodes ∧
    List.Forall₂ groupFrame page.groups page'.groups := by
  simp only [layoutHierarchical] at h
  split at h
  · exact Option.noConfusion h
  · rename_i x st1 heq
    injection h with h
    subst h
    have h1 : stFrame ⟨page.nodes, page.groups⟩ st1 :=
      rootLoop_frame _ _ _ _ _ _ _ heq
    refine ⟨rfl, rfl, rfl, ?_⟩
    split
    · exact ⟨h1.1, h1.2⟩
    · exact ⟨(stFrame_trans h1 (placeUngrouped_frame _ _ _ _ rfl)).1,
        (stFrame_trans h1 (placeUngrouped_frame _ _ _ _ rfl)).2⟩

/-- The lane-node loop of `_layout_left_to_right` is a frame
transformation. -/
theorem ltrNodeLoop_frame (colX : ℚ) :
    ∀ (idxs : List Nat) (acc : ℚ × ℚ × LayoutSt) (st0 : LayoutSt),
      st0 = acc.2.2 → stFrame st0 (ltrNodeLoop colX idxs acc).2.2
  | [], acc, st0, h => h ▸ stFrame_refl acc.2.2
  | ni :: rest, acc, st0, h => by
    subst h
    obtain ⟨y, w, st⟩ := acc
    exact stFrame_trans (setNodePos_frame st ni _)
      (ltrNodeLoop_frame colX rest _ _ rfl)

/-- The swim-lane loop of `_layout_left_to_right` is a frame
transformation. -/
theorem ltrGroupLoop_frame (nm : List (String × Nat)) :
    ∀ (gis : List Nat) (acc : ℚ × LayoutSt) (st0 : LayoutSt), st0 = acc.2 →
      stFrame st0 (ltrGroupLoop nm gis acc).2
  | [], acc, st0, h => h ▸ stFrame_refl acc.2
  | gi :: rest, acc, st0, h => by
    subst h
    obtain ⟨colX, st⟩ := acc
    refine stFrame_trans ?_ (ltrGroupLoop_frame nm rest _ _ rfl)
    refine stFrame_trans ?_ (setGroupBox_frame _ _ _)
    exact ltrNodeLoop_frame _ _ _ _ rfl

/-- The ungrouped-node column of `_layout_left_to_right` is a frame
transformation. -/
theorem ltrUngrouped_frame (colX : ℚ) :
    ∀ (idxs : List Nat) (acc : ℚ × LayoutSt) (st0 : LayoutSt), st0 = acc.2 →
      stFrame st0 (ltrUngrouped colX idxs acc)
  | [], acc, st0, h => h ▸ stFrame_refl acc.2
  | ni :: rest, acc, st0, h => by
    subst h
    obtain ⟨uy, st⟩ := acc
    exact stFrame_trans (setNodePos_frame st ni _)
      (ltrUngrouped_frame colX rest _ _ rfl)

/-- `_layout_left_to_right` is a frame transformation at page level. -/
theorem layoutLeftToRight_frame (page : DiagramPage) :
    (layoutLeftToRight page).id = page.id ∧
    (layoutLeftToRight page).title = page.title ∧
    (layoutLeftToRight page).edges = page.edges ∧
    List.Forall₂ nodeFrame page.nodes (layoutLeftToRight page).nodes ∧
    List.Forall₂ groupFrame page.groups (layoutLeftToRight page).groups := by
  have h1 : stFrame ⟨page.nodes, page.groups⟩
      (ltrGroupLoop (buildIdIndex (page.nodes.map (fun n => n.id)))
        (List.range page.groups.length) (PADDING, ⟨page.nodes, page.groups⟩)).2 :=
    ltrGroupLoop_frame _ _ _ _ rfl
  have h2 := stFrame_trans h1 (ltrUngrouped_frame
    (ltrGroupLoop (buildIdIndex (page.nodes.map (fun n => n.id)))
        (List.range page.groups.length) (PADDING, ⟨page.nodes, page.groups⟩)).1
    (idxWhere page.nodes fun n => !(groupedIds page.groups).contains n.id)
    (PADDING,
     (ltrGroupLoop (buildIdIndex (page.nodes.map (fun n => n.id)))
        (List.range page.groups.length) (PADDING, ⟨page.nodes, page.groups⟩)).2)
    _ rfl)
  exact ⟨rfl, rfl, rfl, h2.1, h2.2⟩

/-- The cell-node loop of `_layout_grid` is a frame transformation. -/
theorem gridNodeLoop_frame (gx cw : ℚ) :
    ∀ (idxs : List Nat) (acc : ℚ × ℚ × LayoutSt) (st0 : LayoutSt),
      st0 = acc.2.2 → stFrame st0 (gridNodeLoop gx cw idxs acc).2.2
  | [], acc, st0, h => h ▸ stFrame_refl acc.2.2
  | ni :: rest, acc, st0, h => by
    subst h
    obtain ⟨nx, ny, st⟩ := acc
    exact stFrame_trans (setNodePos_frame st ni _)
      (gridNodeLoop_frame gx cw rest _ _ rfl)

/-- The child-group loop of `_layout_grid` is a frame transformation. -/
theorem gridChildGroups_frame (fuel : Nat) (gm nm : List (String × Nat))
    (cgy : ℚ) :
    ∀ (gis : List Nat) (cgx : ℚ) (st st' : LayoutSt),
      gridChildGroups fuel gm nm cgy gis (cgx, st) = some st' → stFrame st st'
  | [], cgx, st, st', h => by
    simp only [gridChildGroups, Option.some.injEq] at h
    subst h
    exact stFrame_refl st
  | gi :: rest, cgx, st, st', h => by
    simp only [gridChildGroups] at h
    split at h
    · exact Option.noConfusion h
    · rename_i st1 heq
      exact stFrame_trans ((layoutGroup_frame fuel).1 _ _ _ _ _ _ _ heq)
        (gridChildGroups_frame fuel gm nm cgy rest _ st1 st' h)

/-- The root-group loop of `_layout_grid` is a frame transformation. -/
theorem gridRootLoop_frame (fuel : Nat) (gm nm : List (String × Nat))
    (cols : Nat) :
    ∀ (items : List (Nat × Nat)) (st st' : LayoutSt),
      gridRootLoop fuel gm nm cols items st = some st' → stFrame st st'
  | [], st, st', h => by
    simp only [gridRootLoop, Option.some.injEq] at h
    subst h
    exact stFrame_refl st
  | (idx, gi) :: rest, st, st', h => by
    simp only [gridRootLoop] at h
    split at h
    · exact Option.noConfusion h
    · rename_i st2 heq
      refine stFrame_trans ?_ (gridRootLoop_frame fuel gm nm cols rest st2 st' h)
      refine stFrame_trans ?_ (gridChildGroups_frame fuel gm nm _ _ _ _ st2 heq)
      refine stFrame_trans (setGroupBox_frame st gi
        ⟨PADDING + ((idx % cols : ℕ) : ℚ) * (350 + PADDING),
         PADDING + ((idx / cols : ℕ) : ℚ) * (250 + PADDING), 350, 250⟩) ?_
      exact gridNodeLoop_frame _ _ _ _ _ rfl

/-- `_layout_grid` is a frame transformation at page level. -/
theorem layoutGrid_frame {page page' : DiagramPage}
    (h : layoutGrid page = some page') :
    page'.id = page.id ∧ page'.title = page.title ∧ page'.edges = page.edges ∧
    List.Forall₂ nodeFrame page.nodes page'.nodes ∧
    List.Forall₂ groupFrame page.groups page'.groups := by
  simp only [layoutGrid] at h
  split at h
  · exact Option.noConfusion h
  · rename_i st1 heq
    injection h with h
    subst h
    have h1 : stFrame ⟨page.nodes, page.groups⟩ st1 :=
      gridRootLoop_frame _ _ _ _ _ _ _ heq
    exact ⟨rfl, rfl, rfl, h1.1, h1.2⟩

/-- **C7**: for every page and every strategy, whenever `layout_page`
returns a page it is the given page with at most node `position`s and group
`bounding_box`es rewritten: the page identity, title and edge list are
unchanged, and the node and group lists keep their length and order with
every field other than `position` (nodes) and `bounding_box` (groups)
preserved — in particular all IDs, names, labels, sizes, edge endpoints,
children lists, `parent_id`s and styles. -/
theorem C7_layout_frame (page : DiagramPage) (strategy : LayoutStrategy)
    (page' : DiagramPage) (h : layoutPage page strategy = some page') :
    page'.id = page.id ∧ page'.title = page.title ∧ page'.edges = page.edges ∧
    List.Forall₂ nodeFrame page.nodes page'.nodes ∧
    List.Forall₂ groupFrame page.groups page'.groups := by
  cases strategy with
  | hierarchical => exact layoutHierarchical_frame h
  | left_to_right =>
    simp only [layoutPage, Option.some.injEq] at h
    subst h
    exact layoutLeftToRight_frame page
  | grid => exact layoutGrid_frame h
  | force_directed => exact layoutHierarchical_frame h

/-- Witness for C7 at a concrete page and the `left_to_right` strategy. -/
theorem C7_witness :
    layoutPage c7Page .left_to_right = some (layoutLeftToRight c7Page) ∧
    List.Forall₂ nodeFrame c7Page.nodes (layoutLeftToRight c7Page).nodes ∧
    (layoutLeftToRight c7Page).edges = c7Page.edges :=
  ⟨rfl,
   (C7_layout_frame c7Page .left_to_right (layoutLeftToRight c7Page) rfl).2.2.2.1,
   (C7_layout_frame c7Page .left_to_right (layoutLeftToRight c7Page) rfl).2.2.1⟩

/-- `localTo` is reflexive. -/
theorem localTo_refl (Sg Sn : List Nat) (s : LayoutSt) : localTo Sg Sn s s :=
  ⟨fun _ _ => rfl, fun _ _ => rfl⟩

/-- Growing the write sets weakens `localTo`. -/
theorem localTo_mono {Sg Sn Sg' Sn' : List Nat} {s t : LayoutSt}
    (h : localTo Sg Sn s t) (hg : ∀ x ∈ Sg, x ∈ Sg') (hn : ∀ x ∈ Sn, x ∈ Sn') :
    localTo Sg' Sn' s t :=
  ⟨fun j hj => h.1 j (fun c => hj (hg j c)),
   fun j hj => h.2 j (fun c => hj (hn j c))⟩

/-- Two consecutive local steps write only inside the union of the sets. -/
theorem localTo_trans {Sg Sn Tg Tn : List Nat} {s t u : LayoutSt}
    (h1 : localTo Sg Sn s t) (h2 : localTo Tg Tn t u) :
    localTo (Sg ++ Tg) (Sn ++ Tn) s u := by
  refine ⟨fun j hj => ?_, fun j hj => ?_⟩
  · rw [h2.1 j (fun c => hj (List.mem_append.mpr (Or.inr c)))]
    exact h1.1 j (fun c => hj (List.mem_append.mpr (Or.inl c)))
  · rw [h2.2 j (fun c => hj (List.mem_append.mpr (Or.inr c)))]
    exact h1.2 j (fun c => hj (List.mem_append.mpr (Or.inl c)))

/-- `agreeOn` is reflexive. -/
theorem agreeOn_refl (Sg Sn : List Nat) (s : LayoutSt) : agreeOn Sg Sn s s :=
  ⟨fun _ _ => rfl, fun _ _ => rfl⟩

/-- `agreeOn` composes. -/
theorem agreeOn_trans {Sg Sn : List Nat} {s t u : LayoutSt}
    (h1 : agreeOn Sg Sn s t) (h2 : agreeOn Sg Sn t u) : agreeOn Sg Sn s u :=
  ⟨fun j hj => (h2.1 j hj).trans (h1.1 j hj),
   fun j hj => (h2.2 j hj).trans (h1.2 j hj)⟩

/-- Shrinking the sets weakens `agreeOn`. -/
theorem agreeOn_mono {Sg Sn Sg' Sn' : List Nat} {s t : LayoutSt}
    (h : agreeOn Sg Sn s t) (hg : ∀ x ∈ Sg', x ∈ Sg) (hn : ∀ x ∈ Sn', x ∈ Sn) :
    agreeOn Sg' Sn' s t :=
  ⟨fun j hj => h.1 j (hg j hj), fun j hj => h.2 j (hn j hj)⟩

/-- A step local to sets disjoint from `Sg`/`Sn` leaves those slots in
agreement. -/
theorem localTo_agree {Tg Tn Sg Sn : List Nat} {s t : LayoutSt}
    (h : localTo Tg Tn s t) (hg : ∀ x ∈ Sg, x ∉ Tg) (hn : ∀ x ∈ Sn, x ∉ Tn) :
    agreeOn Sg Sn s t :=
  ⟨fun j hj => h.1 j (hg j hj), fun j hj => h.2 j (hn j hj)⟩

/-- `setNodePos` leaves the group list untouched. -/
theorem setNodePos_groups (st : LayoutSt) (i : Nat) (p : Position) :
    (setNodePos st i p).groups = st.groups := rfl

/-- `setGroupBox` leaves the node list untouched. -/
theorem setGroupBox_nodes (st : LayoutSt) (i : Nat) (bb : BoundingBox) :
    (setGroupBox st i bb).nodes = st.nodes := rfl

/-- `setNodePos` writes only node slot `i`. -/
theorem setNodePos_local (st : LayoutSt) (i : Nat) (p : Position) :
    localTo [] [i] st (setNodePos st i p) := by
  refine ⟨fun j _ => rfl, fun j hj => ?_⟩
  have hji : j ≠ i := by simpa using hj
  simp [setNodePos, modifyIdx_getElem?, hji]

/-- `setGroupBox` writes only group slot `i`. -/
theorem setGroupBox_local (st : LayoutSt) (i : Nat) (bb : BoundingBox) :
    localTo [i] [] st (setGroupBox st i bb) := by
  refine ⟨fun j hj => ?_, fun j _ => rfl⟩
  have hji : j ≠ i := by simpa using hj
  simp [setGroupBox, modifyIdx_getElem?, hji]

/-- Equal `getElem?` reads give equal `groupAt` reads. -/
theorem groupAt_eq_of_getElem? {s t : LayoutSt} {j : Nat}
    (h : t.groups[j]? = s.groups[j]?) : groupAt t j = groupAt s j := by
  simp [groupAt, List.getD_eq_getElem?_getD, h]

/-- Equal `getElem?` reads give equal `nodeAt` reads. -/
theorem nodeAt_eq_of_getElem? {s t : LayoutSt} {j : Nat}
    (h : t.nodes[j]? = s.nodes[j]?) : nodeAt t j = nodeAt s j := by
  simp [nodeAt, List.getD_eq_getElem?_getD, h]

/-- Reading back a written bounding box. -/
theorem groupAt_setGroupBox_self {st : LayoutSt} {i : Nat} (bb : BoundingBox)
    (h : i < st.groups.length) :
    groupAt (setGroupBox st i bb) i = { groupAt st i with bounding_box := bb } := by
  simp [groupAt, setGroupBox, List.getD_eq_getElem?_getD, modifyIdx_getElem?,
    List.getElem?_eq_getElem h]

/-- Reading back a written node position. -/
theorem nodeAt_setNodePos_self {st : LayoutSt} {i : Nat} (p : Position)
    (h : i < st.nodes.length) :
    nodeAt (setNodePos st i p) i = { nodeAt st i with position := p } := by
  simp [nodeAt, setNodePos, List.getD_eq_getElem?_getD, modifyIdx_getElem?,
    List.getElem?_eq_getElem h]

/-- Frame-related states have equal list lengths. -/
theorem stFrame_lengths {s t : LayoutSt} (h : stFrame s t) :
    s.nodes.length = t.nodes.length ∧ s.groups.length = t.groups.length :=
  ⟨h.1.length_eq, h.2.length_eq⟩

/-- `groupFrame` preserves `children`. -/
theorem groupFrame_children {a b : DiagramGroup} (h : groupFrame a b) :
    b.children = a.children := by rw [h]

/-- `nodeFrame` preserves `size`. -/
theorem nodeFrame_size {a b : DiagramNode} (h : nodeFrame a b) :
    b.size = a.size := by rw [h]

/-- `nodeFrame` preserves `id`. -/
theorem nodeFrame_id {a b : DiagramNode} (h : nodeFrame a b) :
    b.id = a.id := by rw [h]

/-- `groupFrame` preserves `id`. -/
theorem groupFrame_id {a b : DiagramGroup} (h : groupFrame a b) :
    b.id = a.id := by rw [h]

/-- A frame step keeps every indexed `children` read. -/
theorem stFrame_children {s t : LayoutSt} (h : stFrame s t) (j : Nat) :
    (t.groups.getD j default).children = (s.groups.getD j default).children :=
  groupFrame_children (forall2_getD h.2 default (groupFrame_refl _) j)

/-- A frame step preserves `widthsOk`. -/
theorem widthsOk_frame {s t : LayoutSt} (h : stFrame s t) (hw : widthsOk s) :
    widthsOk t := fun i => by
  have hs := nodeFrame_size (forall2_getD h.1 default (nodeFrame_refl _) i)
  have h0 := hw i
  simp only [nodeAt] at h0 ⊢
  rw [hs]
  exact h0

/-- `flatMap` respects pointwise-equal functions. -/
theorem flatMap_congr {α β : Type} {f g : α → List β} :
    ∀ {l : List α}, (∀ x ∈ l, f x = g x) → l.flatMap f = l.flatMap g
  | [], _ => rfl
  | a :: l, h => by
    simp only [List.flatMap_cons]
    rw [h a (List.mem_cons_self a l),
      flatMap_congr (fun x hx => h x (List.mem_cons_of_mem a hx))]

/-- `treeG` reads the group list only through each slot's `children`. -/
theorem treeG_congr (gm nm : List (String × Nat)) {gs gs' : List DiagramGroup}
    (hc : ∀ j, (gs'.getD j default).children = (gs.getD j default).children) :
    ∀ (f gi : Nat), treeG gm nm gs' f gi = treeG gm nm gs f gi
  | 0, gi => rfl
  | Nat.succ f, gi => by
    simp only [treeG, hc gi]
    rw [flatMap_congr (fun c _ => treeG_congr gm nm hc f c)]

/-- `treeN` reads the group list only through each slot's `children`. -/
theorem treeN_congr (gm nm : List (String × Nat)) {gs gs' : List DiagramGroup}
    (hc : ∀ j, (gs'.getD j default).children = (gs.getD j default).children) :
    ∀ (f gi : Nat), treeN gm nm gs' f gi = treeN gm nm gs f gi
  | 0, gi => rfl
  | Nat.succ f, gi => by
    simp only [treeN, hc gi]
    rw [flatMap_congr (fun c _ => treeN_congr gm nm hc f c)]

/-- Frame steps leave every `treeG` computation unchanged. -/
theorem treeG_frame {s t : LayoutSt} (h : stFrame s t)
    (gm nm : List (String × Nat)) (f gi : Nat) :
    treeG gm nm t.groups f gi = treeG gm nm s.groups f gi :=
  treeG_congr gm nm (stFrame_children h) f gi

/-- Frame steps leave every `treeN` computation unchanged. -/
theorem treeN_frame {s t : LayoutSt} (h : stFrame s t)
    (gm nm : List (String × Nat)) (f gi : Nat) :
    treeN gm nm t.groups f gi = treeN gm nm s.groups f gi :=
  treeN_congr gm nm (stFrame_children h) f gi

/-- A successful association-list lookup is a membership. -/
theorem alistLookup_mem {α : Type} :
    ∀ {m : List (String × α)} {k : String} {v : α},
      alistLookup m k = some v → (k, v) ∈ m
  | [], k, v, h => by simp [alistLookup] at h
  | (k1, v1) :: rest, k, v, h => by
    simp only [alistLookup] at h
    split at h
    · rename_i hk
      injection h with h
      subst h
      subst hk
      exact List.mem_cons_self _ _
    · exact List.mem_cons_of_mem _ (alistLookup_mem h)

/-- `insertIdx` keeps every stored index below a bound. -/
theorem insertIdx_val_lt {m : List (String × Nat)} {k : String} {i B : Nat}
    (hm : ∀ p ∈ m, p.2 < B) (hi : i < B) :
    ∀ p ∈ insertIdx m k i, p.2 < B := by
  intro p hp
  unfold insertIdx at hp
  split at hp
  · obtain ⟨q, hq, hpq⟩ := List.mem_map.mp hp
    by_cases hqk : q.1 = k
    · rw [if_pos hqk] at hpq
      rw [← hpq]
      exact hi
    · rw [if_neg hqk] at hpq
      rw [← hpq]
      exact hm q hq
  · rcases List.mem_append.mp hp with hle | hri
    · exact hm p hle
    · have : p = (k, i) := by simpa using hri
      rw [this]
      exact hi

/-- `buildIdIndexAux` keeps every stored index below the total bound. -/
theorem buildIdIndexAux_val_lt :
    ∀ (l : List String) (n : Nat) (m : List (String × Nat)) (B : Nat),
      (∀ p ∈ m, p.2 < B) → n + l.length ≤ B →
      ∀ p ∈ buildIdIndexAux l n m, p.2 < B
  | [], _, m, _, hm, _, p, hp => hm p hp
  | idv :: rest, n, m, B, hm, hle, p, hp => by
    refine buildIdIndexAux_val_lt rest (n + 1) _ B ?_ ?_ p hp
    · refine insertIdx_val_lt hm ?_
      simp only [List.length_cons] at hle
      omega
    · simp only [List.length_cons] at hle
      omega

/-- Every index stored in a `buildIdIndex` map points into the list. -/
theorem buildIdIndex_val_lt (ids : List String) :
    ∀ p ∈ buildIdIndex ids, p.2 < ids.length := by
  intro p hp
  exact buildIdIndexAux_val_lt ids 0 [] ids.length (by simp) (by omega) p hp

/-- A successful `buildIdIndex` lookup is in range. -/
theorem alistLookup_buildIdIndex_lt {ids : List String} {k : String} {i : Nat}
    (h : alistLookup (buildIdIndex ids) k = some i) : i < ids.length :=
  buildIdIndex_val_lt ids (k, i) (alistLookup_mem h)

/-- `idxWhere` produces in-range indices. -/
theorem idxWhere_lt {α : Type} {l : List α} {p : α → Bool} {i : Nat}
    (h : i ∈ idxWhere l p) : i < l.length := by
  unfold idxWhere at h
  obtain ⟨q, hq, hqi⟩ := List.mem_map.mp h
  rw [← hqi]
  obtain ⟨j, a⟩ := q
  exact (List.mem_enum (List.mem_of_mem_filter hq)).1

/-- A group index produced by `resolveChildren` comes from a `groupMap`
lookup of one of the children. -/
theorem mem_resolveChildren_1 {gm nm : List (String × Nat)} :
    ∀ {l : List String} {ci : Nat}, ci ∈ (resolveChildren gm nm l).1 →
      ∃ cid, cid ∈ l ∧ alistLookup gm cid = some ci
  | [], ci, h => absurd h (by simp [resolveChildren])
  | cid :: rest, ci, h => by
    simp only [resolveChildren] at h
    cases hg : alistLookup gm cid with
    | some gi =>
      rw [hg] at h
      simp only at h
      rw [List.mem_cons] at h
      rcases h with h | h
      · subst h
        exact ⟨cid, List.mem_cons_self _ _, hg⟩
      · obtain ⟨c, hc, hl⟩ := mem_resolveChildren_1 h
        exact ⟨c, List.mem_cons_of_mem _ hc, hl⟩
    | none =>
      rw [hg] at h
      cases hn : alistLookup nm cid with
      | some ni =>
        rw [hn] at h
        simp only at h
        obtain ⟨c, hc, hl⟩ := mem_resolveChildren_1 h
        exact ⟨c, List.mem_cons_of_mem _ hc, hl⟩
      | none =>
        rw [hn] at h
        obtain ⟨c, hc, hl⟩ := mem_resolveChildren_1 h
        exact ⟨c, List.mem_cons_of_mem _ hc, hl⟩

/-- A node index produced by `resolveChildren` comes from a `nodeMap`
lookup of one of the children. -/
theorem mem_resolveChildren_2 {gm nm : List (String × Nat)} :
    ∀ {l : List String} {ni : Nat}, ni ∈ (resolveChildren gm nm l).2 →
      ∃ cid, cid ∈ l ∧ alistLookup nm cid = some ni
  | [], ni, h => absurd h (by simp [resolveChildren])
  | cid :: rest, ni, h => by
    simp only [resolveChildren] at h
    cases hg : alistLookup gm cid with
    | some gi =>
      rw [hg] at h
      simp only at h
      obtain ⟨c, hc, hl⟩ := mem_resolveChildren_2 h
      exact ⟨c, List.mem_cons_of_mem _ hc, hl⟩
    | none =>
      rw [hg] at h
      cases hn : alistLookup nm cid with
      | some mi =>
        rw [hn] at h
        simp only at h
        rw [List.mem_cons] at h
        rcases h with h | h
        · subst h
          exact ⟨cid, List.mem_cons_self _ _, hn⟩
        · obtain ⟨c, hc, hl⟩ := mem_resolveChildren_2 h
          exact ⟨c, List.mem_cons_of_mem _ hc, hl⟩
      | none =>
        rw [hn] at h
        obtain ⟨c, hc, hl⟩ := mem_resolveChildren_2 h
        exact ⟨c, List.mem_cons_of_mem _ hc, hl⟩

/-- A successful `layoutGroupRec` run had positive fuel. -/
theorem LGR_pos {fuel gi : Nat} {gm nm : List (String × Nat)} {sx sy : ℚ}
    {st st' : LayoutSt} (h : layoutGroupRec fuel gi gm nm sx sy st = some st') :
    0 < fuel := by
  cases fuel with
  | zero => simp [layoutGroupRec] at h
  | succ f => exact Nat.succ_pos f

/-- A successful `layoutChildGroups` run on a nonempty list had positive
fuel. -/
theorem LCG_pos {fuel : Nat} {gm nm : List (String × Nat)} {iy : ℚ} {c : Nat}
    {rest : List Nat} {acc out : ℚ × ℚ × LayoutSt}
    (h : layoutChildGroups fuel gm nm iy (c :: rest) acc = some out) :
    0 < fuel := by
  cases fuel with
  | zero =>
    obtain ⟨cx, mh, st⟩ := acc
    simp [layoutChildGroups, layoutGroupRec] at h
  | succ f => exact Nat.succ_pos f

/-- At positive fuel a group index belongs to its own layout subtree. -/
theorem mem_treeG_self (gm nm : List (String × Nat)) (gs : List DiagramGroup)
    {f : Nat} (hf : 0 < f) (gi : Nat) : gi ∈ treeG gm nm gs f gi := by
  cases f with
  | zero => omega
  | succ f => simp [treeG]

/-- Pointwise frame relations give equal projections over a whole list. -/
theorem forall2_map_eq {α β : Type} {R : α → α → Prop} {f : α → β}
    (hf : ∀ a b, R a b → f b = f a) :
    ∀ {l l' : List α}, List.Forall₂ R l l' → l'.map f = l.map f := by
  intro l l' h
  induction h with
  | nil => rfl
  | cons h t ih => simp only [List.map_cons, hf _ _ h, ih]

/-- The Python-style `if a > b then a else b` is `max a b`. -/
theorem ite_gt_eq_max (a b : ℚ) : (if a > b then a else b) = max a b := by
  by_cases h : a > b
  · rw [if_pos h, max_eq_left (le_of_lt h)]
  · rw [if_neg h, max_eq_right (not_lt.mp h)]

/-- One row step: the node is placed at the pre-step cursor and every row
statistic moves monotonically. -/
theorem rowStep_spec (innerX : ℚ) (ni : Nat) (s : RowSt)
    (hx : innerX ≤ s.nodeX) (hrh : 0 ≤ s.rowHeight)
    (hlen : ni < s.st.nodes.length) :
    (∃ px : ℚ,
      (rowStep innerX ni s).st = setNodePos s.st ni ⟨px, (rowStep innerX ni s).nodeY⟩ ∧
      innerX ≤ px ∧
      px + (nodeAt s.st ni).size.w + NODE_SPACING_X = (rowStep innerX ni s).nodeX ∧
      nodeAt (rowStep innerX ni s).st ni =
        { nodeAt s.st ni with position := ⟨px, (rowStep innerX ni s).nodeY⟩ }) ∧
    0 ≤ (rowStep innerX ni s).rowHeight ∧
    s.maxRowWidth ≤ (rowStep innerX ni s).maxRowWidth ∧
    s.nodeY ≤ (rowStep innerX ni s).nodeY ∧
    s.nodeY + s.rowHeight ≤ (rowStep innerX ni s).nodeY + (rowStep innerX ni s).rowHeight ∧
    (rowStep innerX ni s).nodeX - innerX ≤ (rowStep innerX ni s).maxRowWidth ∧
    (nodeAt s.st ni).size.h ≤ (rowStep innerX ni s).rowHeight := by
  have hNSY : (0 : ℚ) ≤ NODE_SPACING_Y := by norm_num [NODE_SPACING_Y]
  unfold rowStep
  by_cases hwrap : s.col ≥ nodesPerRow
  · simp only [hwrap, ite_true, ite_gt_eq_max]
    refine ⟨⟨innerX, rfl, le_refl _, rfl, nodeAt_setNodePos_self _ hlen⟩,
      ?_, ?_, ?_, ?_, ?_, ?_⟩
    · exact le_trans (le_refl 0) (le_max_right _ 0)
    · exact le_max_right _ _
    · linarith
    · have := le_max_right (nodeAt s.st ni).size.h (0 : ℚ)
      linarith
    · exact le_max_left _ _
    · exact le_max_left _ _
  · simp only [hwrap, ite_false, ite_gt_eq_max]
    refine ⟨⟨s.nodeX, rfl, hx, rfl, nodeAt_setNodePos_self _ hlen⟩,
      ?_, ?_, le_refl _, ?_, ?_, ?_⟩
    · exact le_trans hrh (le_max_right _ _)
    · exact le_max_right _ _
    · have := le_max_right (nodeAt s.st ni).size.h s.rowHeight
      linarith
    · exact le_max_left _ _
    · exact le_max_left _ _

/-- The row loop of `_layout_group_recursive`: writes only the given node
slots, moves the row statistics monotonically, and places every listed node
inside the row band `[innerX, innerX + maxRowWidth - NODE_SPACING_X] ×
[start nodeY, final nodeY + final rowHeight]`. -/
theorem layoutNodeRow_spec (innerX : ℚ) :
    ∀ (idxs : List Nat) (s : RowSt),
      idxs.Nodup → innerX ≤ s.nodeX → 0 ≤ s.rowHeight → widthsOk s.st →
      (∀ ni ∈ idxs, ni < s.st.nodes.length) →
      localTo [] idxs s.st (layoutNodeRow innerX idxs s).st ∧
      s.maxRowWidth ≤ (layoutNodeRow innerX idxs s).maxRowWidth ∧
      s.nodeY + s.rowHeight ≤
        (layoutNodeRow innerX idxs s).nodeY + (layoutNodeRow innerX idxs s).rowHeight ∧
      0 ≤ (layoutNodeRow innerX idxs s).rowHeight ∧
      s.nodeY ≤ (layoutNodeRow innerX idxs s).nodeY ∧
      ∀ ni ∈ idxs,
        innerX ≤ (nodeAt (layoutNodeRow innerX idxs s).st ni).position.x ∧
        (nodeAt (layoutNodeRow innerX idxs s).st ni).position.x
            + (nodeAt (layoutNodeRow innerX idxs s).st ni).size.w + NODE_SPACING_X
          ≤ innerX + (layoutNodeRow innerX idxs s).maxRowWidth ∧
        s.nodeY ≤ (nodeAt (layoutNodeRow innerX idxs s).st ni).position.y ∧
        (nodeAt (layoutNodeRow innerX idxs s).st ni).position.y
            + (nodeAt (layoutNodeRow innerX idxs s).st ni).size.h
          ≤ (layoutNodeRow innerX idxs s).nodeY + (layoutNodeRow innerX idxs s).rowHeight := by
  intro idxs
  induction idxs with
  | nil =>
    intro s _ _ hrh _ _
    exact ⟨localTo_refl _ _ _, le_refl _, le_refl _, hrh, le_refl _,
      fun ni h => absurd h (List.not_mem_nil ni)⟩
  | cons ni rest ih =>
    intro s hnd hx hrh hw hlen
    have hnd' := List.nodup_cons.mp hnd
    obtain ⟨⟨px, hst, hpx, hpw, hread⟩, h0, h3, h4, h5, h6, h7⟩ :=
      rowStep_spec innerX ni s hx hrh (hlen ni (List.mem_cons_self _ _))
    have hframe : stFrame s.st (rowStep innerX ni s).st := by
      rw [hst]; exact setNodePos_frame _ _ _
    have hlen1 : (rowStep innerX ni s).st.nodes.length = s.st.nodes.length :=
      ((stFrame_lengths hframe).1).symm
    have hx1 : innerX ≤ (rowStep innerX ni s).nodeX := by
      have hwni := hw ni
      linarith [hpw, hpx, hwni, show (0 : ℚ) ≤ NODE_SPACING_X by norm_num [NODE_SPACING_X]]
    have ihr := ih (rowStep innerX ni s) hnd'.2 hx1 h0
      (widthsOk_frame hframe hw)
      (fun nj hj => hlen1 ▸ hlen nj (List.mem_cons_of_mem _ hj))
    obtain ⟨iL, iMW, iSum, iRH, iY, iNode⟩ := ihr
    have hloc1 : localTo [] [ni] s.st (rowStep innerX ni s).st := by
      rw [hst]; exact setNodePos_local _ _ _
    have hOut : layoutNodeRow innerX (ni :: rest) s =
        layoutNodeRow innerX rest (rowStep innerX ni s) := rfl
    rw [hOut]
    refine ⟨?_, le_trans h3 iMW, le_trans h5 iSum, iRH, le_trans h4 iY, ?_⟩
    · have := localTo_trans hloc1 iL
      exact localTo_mono this (fun x hx => by simp at hx) (fun x hx => hx)
    · intro nj hnj
      rw [List.mem_cons] at hnj
      rcases hnj with rfl | hnj
      · have hagree : nodeAt (layoutNodeRow innerX rest (rowStep innerX nj s)).st nj =
            nodeAt (rowStep innerX nj s).st nj :=
          nodeAt_eq_of_getElem? (iL.2 nj hnd'.1)
        rw [hagree, hread]
        refine ⟨hpx, ?_, le_trans h4 (le_refl _), ?_⟩
        · show px + (nodeAt s.st nj).size.w + NODE_SPACING_X ≤ _
          linarith [hpw, h6, iMW]
        · show (rowStep innerX nj s).nodeY + (nodeAt s.st nj).size.h ≤ _
          linarith [h7, iSum]
      · obtain ⟨a1, a2, a3, a4⟩ := iNode nj hnj
        exact ⟨a1, a2, le_trans h4 a3, a4⟩


/-- Unfolding `treeG` at positive fuel, reading children through `groupAt`. -/
theorem treeG_succ (gm nm : List (String × Nat)) (st : LayoutSt) (f gi : Nat) :
    treeG gm nm st.groups (f + 1) gi =
      gi :: ((resolveChildren gm nm (groupAt st gi).children).1.flatMap
        (treeG gm nm st.groups f)) := rfl

/-- Unfolding `treeN` at positive fuel, reading children through `groupAt`. -/
theorem treeN_succ (gm nm : List (String × Nat)) (st : LayoutSt) (f gi : Nat) :
    treeN gm nm st.groups (f + 1) gi =
      (resolveChildren gm nm (groupAt st gi).children).2 ++
        ((resolveChildren gm nm (groupAt st gi).children).1.flatMap
          (treeN gm nm st.groups f)) := rfl

/-- `stFrame_children` phrased through `groupAt`. -/
theorem stFrame_childrenAt {s t : LayoutSt} (h : stFrame s t) (j : Nat) :
    (groupAt t j).children = (groupAt s j).children := stFrame_children h j

/-- A successful `layoutChildGroups` run on a nonempty list had positive
fuel. -/
theorem LCG_posNe {fuel : Nat} {gm nm : List (String × Nat)} {iy : ℚ}
    {gis : List Nat} {acc out : ℚ × ℚ × LayoutSt}
    (h : layoutChildGroups fuel gm nm iy gis acc = some out) (hne : gis ≠ []) :
    0 < fuel := by
  cases gis with
  | nil => exact absurd rfl hne
  | cons c rest => exact LCG_pos h

/-- `layoutChildGroups` satisfies its loop invariant whenever
`layoutGroupRec` satisfies its own at the same fuel. -/
theorem LCG_spec : ∀ fuel : Nat, QSpec fuel → PSpec fuel := by
  intro fuel hQ gm nm iy gis
  induction gis with
  | nil =>
    intro cx mh st oc oh ost h _ _ _ _ _ _
    simp only [layoutChildGroups, Option.some.injEq, Prod.mk.injEq] at h
    obtain ⟨h1, h2, h3⟩ := h
    subst h1
    subst h2
    subst h3
    simp only [List.flatMap_nil]
    exact ⟨localTo_refl _ _ _, ⟨le_refl _, le_refl _⟩,
      fun gi hgi => absurd hgi (List.not_mem_nil gi),
      fun st2 _ gj hgj => absurd hgj (List.not_mem_nil gj)⟩
  | cons gi rest ih2 =>
    intro cx mh st oc oh ost h hbg hbn hw hgis hndG hndN
    simp only [layoutChildGroups] at h
    split at h
    · exact absurd h (by simp)
    · rename_i st1 heq
      have frame1 : stFrame st st1 := (layoutGroup_frame fuel).1 _ _ _ _ _ _ _ heq
      have hlen1 := stFrame_lengths frame1
      have fuelpos : 0 < fuel := LGR_pos heq
      rw [List.flatMap_cons, List.nodup_append] at hndG hndN
      obtain ⟨hndTg, hndRg, hdisjG⟩ := hndG
      obtain ⟨hndTn, hndRn, hdisjN⟩ := hndN
      obtain ⟨QL, QB, QC⟩ := hQ gi gm nm cx iy st st1 heq hbg hbn hw
        (hgis gi (List.mem_cons_self _ _)) hndTg hndTn
      have hfg : rest.flatMap (treeG gm nm st1.groups fuel) =
          rest.flatMap (treeG gm nm st.groups fuel) :=
        flatMap_congr (fun c _ => treeG_frame frame1 gm nm fuel c)
      have hfn : rest.flatMap (treeN gm nm st1.groups fuel) =
          rest.flatMap (treeN gm nm st.groups fuel) :=
        flatMap_congr (fun c _ => treeN_frame frame1 gm nm fuel c)
      have ihout := ih2 _ _ st1 oc oh ost h
        (fun p hp => hlen1.2 ▸ hbg p hp)
        (fun p hp => hlen1.1 ▸ hbn p hp)
        (widthsOk_frame frame1 hw)
        (fun c hc => hlen1.2 ▸ hgis c (List.mem_cons_of_mem _ hc))
        (by rw [hfg]; exact hndRg)
        (by rw [hfn]; exact hndRn)
      rw [hfg, hfn] at ihout
      obtain ⟨IL, IB, IC, IR⟩ := ihout
      have hgiTree : gi ∈ treeG gm nm st.groups fuel gi :=
        mem_treeG_self gm nm st.groups fuelpos gi
      have hgiNotRest : gi ∉ rest.flatMap (treeG gm nm st.groups fuel) :=
        hdisjG hgiTree
      have hPAD : PADDING = (40 : ℚ) := rfl
      refine ⟨?_, ?_, ?_, ?_⟩
      · rw [List.flatMap_cons, List.flatMap_cons]
        exact localTo_trans QL IL
      · constructor
        · have := IB.1
          have h300 := QB.2.2.1
          linarith
        · rw [ite_gt_eq_max] at IB
          exact le_trans (le_max_right _ _) IB.2
      · intro c hc
        rw [List.mem_cons] at hc
        rcases hc with hceq | hc
        · rw [hceq]
          have hgag : groupAt ost gi = groupAt st1 gi :=
            groupAt_eq_of_getElem? (IL.1 gi hgiNotRest)
          rw [hgag]
          refine ⟨QB.2.1, le_of_eq QB.1.symm, ?_, ?_, QB.2.2.1, QB.2.2.2⟩
          · rw [QB.1]
            exact IB.1
          · rw [ite_gt_eq_max] at IB
            exact le_trans (le_max_left _ _) IB.2
        · obtain ⟨a1, a2, a3, a4, a5, a6⟩ := IC c hc
          refine ⟨a1, ?_, a3, a4, a5, a6⟩
          have h300 := QB.2.2.1
          linarith
      · intro st2 hA gj hgj
        rw [List.flatMap_cons] at hgj
        rcases List.mem_append.mp hgj with hgj | hgj
        · have hA1 : agreeOn (treeG gm nm st.groups fuel gi)
              (treeN gm nm st.groups fuel gi) st1 ost :=
            localTo_agree IL hdisjG hdisjN
          have hA2 : agreeOn (treeG gm nm st.groups fuel gi)
              (treeN gm nm st.groups fuel gi) ost st2 := by
            refine agreeOn_mono hA ?_ ?_ <;> intro x hx <;>
              rw [List.flatMap_cons] <;>
              exact List.mem_append.mpr (Or.inl hx)
          exact QC st2 (agreeOn_trans hA1 hA2) gj hgj
        · refine IR st2 ?_ gj hgj
          refine agreeOn_mono hA ?_ ?_ <;> intro x hx <;>
            rw [List.flatMap_cons] <;>
            exact List.mem_append.mpr (Or.inr hx)

/-- `nodeAt` ignores `setGroupBox`. -/
theorem nodeAt_setGroupBox (st : LayoutSt) (i j : Nat) (bb : BoundingBox) :
    nodeAt (setGroupBox st i bb) j = nodeAt st j := rfl

/-- Reads of unmodified group slots through `setGroupBox`. -/
theorem getElem?_setGroupBox_ne {st : LayoutSt} {i j : Nat} (bb : BoundingBox)
    (h : j ≠ i) : (setGroupBox st i bb).groups[j]? = st.groups[j]? :=
  (setGroupBox_local st i bb).1 j (by simp [h])

/-- `layoutGroupRec` satisfies its layout invariant at every fuel. -/
theorem LGR_spec : ∀ fuel : Nat, QSpec fuel := by
  intro fuel
  induction fuel with
  | zero =>
    intro gi gm nm sx sy st st' h
    simp only [layoutGroupRec] at h
    exact absurd h (by simp)
  | succ f ihf =>
    have hP : PSpec f := LCG_spec f ihf
    intro gi gm nm sx sy st st' h hbg hbn hw hgi hndG hndN
    simp only [layoutGroupRec] at h
    split at h
    · exact absurd h (by simp)
    · rename_i cxf mHf stC heq
      injection h with h
      subst h
      rw [treeG_succ gm nm st f gi] at hndG ⊢
      rw [treeN_succ gm nm st f gi] at hndN ⊢
      set cG := (resolveChildren gm nm (groupAt st gi).children).1 with hcG
      set cN := (resolveChildren gm nm (groupAt st gi).children).2 with hcN
      obtain ⟨hgiF, hndFG⟩ := List.nodup_cons.mp hndG
      obtain ⟨hndCN, hndFN, hdisjCN⟩ := List.nodup_append.mp hndN
      have hframeC : stFrame st stC := (layoutGroup_frame f).2 _ _ _ _ _ _ _ _ heq
      have hlenC := stFrame_lengths hframeC
      obtain ⟨PL, PB, PC, PR⟩ := hP gm nm (sy + GROUP_PADDING + GROUP_HEADER_HEIGHT)
        cG (sx + GROUP_PADDING) 0 st cxf mHf stC heq hbg hbn hw
        (fun c hc => by
          rw [hcG] at hc
          obtain ⟨cid, _, hl⟩ := mem_resolveChildren_1 hc
          exact hbg _ (alistLookup_mem hl))
        hndFG hndFN
      set rS : RowSt :=
        { nodeX := sx + GROUP_PADDING,
          nodeY := sy + GROUP_PADDING + GROUP_HEADER_HEIGHT +
            (if cG.isEmpty then 0 else mHf + PADDING),
          rowHeight := 0, maxRowWidth := 0, col := 0, st := stC } with hrS
      obtain ⟨RL, RMW, RSum, RRH, RY, RNode⟩ :=
        layoutNodeRow_spec (sx + GROUP_PADDING) cN rS
          hndCN (le_refl _) (le_refl _) (widthsOk_frame hframeC hw)
          (fun ni hni => by
            rw [hcN] at hni
            obtain ⟨cid, _, hl⟩ := mem_resolveChildren_2 hni
            exact hlenC.1 ▸ hbn _ (alistLookup_mem hl))
      have hRowGroups : (layoutNodeRow (sx + GROUP_PADDING) cN rS).st.groups =
          stC.groups :=
        List.ext_getElem? (fun j => RL.1 j (List.not_mem_nil j))
      have hgiR : gi < (layoutNodeRow (sx + GROUP_PADDING) cN rS).st.groups.length := by
        rw [hRowGroups, ← hlenC.2]
        exact hgi
      have hPADc : PADDING = (40 : ℚ) := rfl
      have hGPc : GROUP_PADDING = (50 : ℚ) := rfl
      have hHHc : GROUP_HEADER_HEIGHT = (30 : ℚ) := rfl
      have hNSXc : NODE_SPACING_X = (160 : ℚ) := rfl
      refine ⟨?_, ?_, ?_⟩
      · -- locality
        refine localTo_mono (localTo_trans (localTo_trans PL RL)
          (setGroupBox_local (layoutNodeRow (sx + GROUP_PADDING) cN rS).st gi _)) ?_ ?_
        · intro x hx
          simp only [List.mem_append, List.mem_cons, List.not_mem_nil, or_false,
            false_or] at hx ⊢
          tauto
        · intro x hx
          simp only [List.mem_append, List.mem_cons, List.not_mem_nil, or_false,
            false_or] at hx ⊢
          tauto
      · -- bounding box of the laid-out group
        rw [groupAt_setGroupBox_self _ hgiR]
        refine ⟨rfl, rfl, ?_, ?_⟩
        · show (300 : ℚ) ≤
            max (max (cxf - (sx + GROUP_PADDING))
              (layoutNodeRow (sx + GROUP_PADDING) cN rS).maxRowWidth) 200 +
              GROUP_PADDING * 2
          have := le_max_right (max (cxf - (sx + GROUP_PADDING))
            (layoutNodeRow (sx + GROUP_PADDING) cN rS).maxRowWidth) (200 : ℚ)
          linarith
        · exact le_max_right _ _
      · -- containment, robust under later agreement
        intro st2 hA gj hgj
        rw [List.mem_cons] at hgj
        have hAgi := hA.1 gi (List.mem_cons_self _ _)
        have hg2eq : groupAt st2 gi =
            { groupAt (layoutNodeRow (sx + GROUP_PADDING) cN rS).st gi with
              bounding_box :=
                ⟨sx, sy,
                 max (max (cxf - (sx + GROUP_PADDING))
                   (layoutNodeRow (sx + GROUP_PADDING) cN rS).maxRowWidth) 200 +
                   GROUP_PADDING * 2,
                 max ((if cN.isEmpty then
                     sy + GROUP_PADDING + GROUP_HEADER_HEIGHT + mHf
                   else (layoutNodeRow (sx + GROUP_PADDING) cN rS).nodeY +
                     (layoutNodeRow (sx + GROUP_PADDING) cN rS).rowHeight) - sy +
                   GROUP_PADDING) 100⟩ } := by
          rw [groupAt_eq_of_getElem? hAgi, groupAt_setGroupBox_self _ hgiR]
        have hchR : (groupAt (layoutNodeRow (sx + GROUP_PADDING) cN rS).st gi).children =
            (groupAt st gi).children := by
          have h1 : groupAt (layoutNodeRow (sx + GROUP_PADDING) cN rS).st gi =
              groupAt stC gi := by
            simp [groupAt, hRowGroups]
          rw [h1]
          exact stFrame_childrenAt hframeC gi
        rcases hgj with hgjeq | hgjmem
        · -- the laid-out group itself
          rw [hgjeq]
          simp only [groupOk]
          rw [hg2eq]
          simp only [hchR, ← hcG, ← hcN]
          rw [Bool.and_eq_true]
          constructor
          · rw [List.all_eq_true]
            intro ci hci
            have hfpos : 0 < f := LCG_posNe heq (List.ne_nil_of_mem hci)
            have hciF : ci ∈ cG.flatMap (treeG gm nm st.groups f) :=
              List.mem_flatMap.mpr ⟨ci, hci, mem_treeG_self gm nm st.groups hfpos ci⟩
            have hcine : ci ≠ gi := fun hc => hgiF (hc ▸ hciF)
            have t1 := hA.1 ci (List.mem_cons_of_mem _ hciF)
            rw [getElem?_setGroupBox_ne _ hcine, hRowGroups] at t1
            have e1 : groupAt st2 ci = groupAt stC ci := groupAt_eq_of_getElem? t1
            obtain ⟨pc1, pc2, pc3, pc4, pc5, pc6⟩ := PC ci hci
            rw [e1]
            simp only [boxInBox, Bool.and_eq_true, decide_eq_true_eq]
            have hM1 : cxf - (sx + GROUP_PADDING) ≤
                max (max (cxf - (sx + GROUP_PADDING))
                  (layoutNodeRow (sx + GROUP_PADDING) cN rS).maxRowWidth) 200 :=
              le_trans (le_max_left _ _) (le_max_left _ _)
            have hCBlow : sy + GROUP_PADDING + GROUP_HEADER_HEIGHT + mHf ≤
                (if cN.isEmpty then sy + GROUP_PADDING + GROUP_HEADER_HEIGHT + mHf
                 else (layoutNodeRow (sx + GROUP_PADDING) cN rS).nodeY +
                   (layoutNodeRow (sx + GROUP_PADDING) cN rS).rowHeight) := by
              by_cases hE : cN.isEmpty = true
              · rw [if_pos hE]
              · rw [if_neg hE]
                have hGE : cG.isEmpty = false :=
                  List.isEmpty_eq_false.mpr (List.ne_nil_of_mem hci)
                have hrs1 : rS.nodeY = sy + GROUP_PADDING + GROUP_HEADER_HEIGHT +
                    (mHf + PADDING) := by
                  rw [hrS]
                  simp [hGE]
                have hrs2 : rS.rowHeight = 0 := by rw [hrS]
                linarith [RSum, hrs1, hrs2]
            have hM2 : (if cN.isEmpty then
                  sy + GROUP_PADDING + GROUP_HEADER_HEIGHT + mHf
                else (layoutNodeRow (sx + GROUP_PADDING) cN rS).nodeY +
                  (layoutNodeRow (sx + GROUP_PADDING) cN rS).rowHeight) - sy +
                  GROUP_PADDING ≤
                max ((if cN.isEmpty then
                    sy + GROUP_PADDING + GROUP_HEADER_HEIGHT + mHf
                  else (layoutNodeRow (sx + GROUP_PADDING) cN rS).nodeY +
                    (layoutNodeRow (sx + GROUP_PADDING) cN rS).rowHeight) - sy +
                  GROUP_PADDING) 100 := le_max_left _ _
            refine ⟨⟨⟨pc2, ?_⟩, le_of_eq pc1.symm⟩, ?_⟩
            · linarith
            · linarith
          · rw [List.all_eq_true]
            intro ni hni
            have t1 := hA.2 ni (List.mem_append.mpr (Or.inl hni))
            rw [setGroupBox_nodes] at t1
            have e2 : nodeAt st2 ni =
                nodeAt (layoutNodeRow (sx + GROUP_PADDING) cN rS).st ni :=
              nodeAt_eq_of_getElem? t1
            obtain ⟨rn1, rn2, rn3, rn4⟩ := RNode ni hni
            rw [e2]
            simp only [nodeInBox, Bool.and_eq_true, decide_eq_true_eq]
            have hM3 : (layoutNodeRow (sx + GROUP_PADDING) cN rS).maxRowWidth ≤
                max (max (cxf - (sx + GROUP_PADDING))
                  (layoutNodeRow (sx + GROUP_PADDING) cN rS).maxRowWidth) 200 :=
              le_trans (le_max_right _ _) (le_max_left _ _)
            have hCBeq : (if cN.isEmpty then
                  sy + GROUP_PADDING + GROUP_HEADER_HEIGHT + mHf
                else (layoutNodeRow (sx + GROUP_PADDING) cN rS).nodeY +
                  (layoutNodeRow (sx + GROUP_PADDING) cN rS).rowHeight) =
                (layoutNodeRow (sx + GROUP_PADDING) cN rS).nodeY +
                  (layoutNodeRow (sx + GROUP_PADDING) cN rS).rowHeight := by
              have hE : cN.isEmpty = false :=
                List.isEmpty_eq_false.mpr (List.ne_nil_of_mem hni)
              rw [if_neg (by simp [hE])]
            have hM2 : (if cN.isEmpty then
                  sy + GROUP_PADDING + GROUP_HEADER_HEIGHT + mHf
                else (layoutNodeRow (sx + GROUP_PADDING) cN rS).nodeY +
                  (layoutNodeRow (sx + GROUP_PADDING) cN rS).rowHeight) - sy +
                  GROUP_PADDING ≤
                max ((if cN.isEmpty then
                    sy + GROUP_PADDING + GROUP_HEADER_HEIGHT + mHf
                  else (layoutNodeRow (sx + GROUP_PADDING) cN rS).nodeY +
                    (layoutNodeRow (sx + GROUP_PADDING) cN rS).rowHeight) - sy +
                  GROUP_PADDING) 100 := le_max_left _ _
            have hrsl : sy + GROUP_PADDING + GROUP_HEADER_HEIGHT ≤ rS.nodeY := by
              rw [hrS]
              have h0 : (0 : ℚ) ≤ (if cG.isEmpty then 0 else mHf + PADDING) := by
                split
                · exact le_refl 0
                · linarith [PB.2]
              simp only []
              linarith [h0]
            refine ⟨⟨⟨rn1, ?_⟩, ?_⟩, ?_⟩
            · linarith [rn2, hM3]
            · linarith [rn3, hrsl]
            · linarith [rn4, hCBeq, hM2]
        · -- a group inside one of the child subtrees
          refine PR st2 (agreeOn_trans ⟨?_, ?_⟩ (agreeOn_mono hA
            (fun x hx => List.mem_cons_of_mem _ hx)
            (fun x hx => List.mem_append.mpr (Or.inr hx)))) gj hgjmem
          · intro j hj
            have hne : j ≠ gi := fun hc => hgiF (hc ▸ hj)
            rw [getElem?_setGroupBox_ne _ hne, hRowGroups]
          · intro j hj
            have hjn : j ∉ cN := fun hc => hdisjCN hc hj
            rw [setGroupBox_nodes]
            exact RL.2 j hjn

/-- `placeUngrouped` writes only the listed node slots. -/
theorem placeUngrouped_local (uy : ℚ) :
    ∀ (idxs : List Nat) (acc : ℚ × LayoutSt),
      localTo [] idxs acc.2 (placeUngrouped uy idxs acc)
  | [], acc => localTo_refl _ _ _
  | ni :: rest, acc => by
    obtain ⟨ux, st⟩ := acc
    exact localTo_trans (setNodePos_local st ni _)
      (placeUngrouped_local uy rest _)

/-- The root loop of `_layout_hierarchical` writes only inside the root
subtrees and leaves every subtree group passing the containment check in
any agreeing later state. -/
theorem rootLoop_spec (fuel : Nat) (gm nm : List (String × Nat)) :
    ∀ (gis : List Nat) (cx : ℚ) (st : LayoutSt) (oc : ℚ) (ost : LayoutSt),
      rootLoop fuel gm nm gis (cx, st) = some (oc, ost) →
      (∀ p ∈ gm, p.2 < st.groups.length) →
      (∀ p ∈ nm, p.2 < st.nodes.length) →
      widthsOk st → (∀ gi ∈ gis, gi < st.groups.length) →
      (gis.flatMap (treeG gm nm st.groups fuel)).Nodup →
      (gis.flatMap (treeN gm nm st.groups fuel)).Nodup →
      localTo (gis.flatMap (treeG gm nm st.groups fuel))
        (gis.flatMap (treeN gm nm st.groups fuel)) st ost ∧
      (∀ st2 : LayoutSt,
        agreeOn (gis.flatMap (treeG gm nm st.groups fuel))
          (gis.flatMap (treeN gm nm st.groups fuel)) ost st2 →
        ∀ gj ∈ gis.flatMap (treeG gm nm st.groups fuel),
          groupOk gm nm st2 gj = true) := by
  intro gis
  induction gis with
  | nil =>
    intro cx st oc ost h _ _ _ _ _ _
    simp only [rootLoop, Option.some.injEq, Prod.mk.injEq] at h
    obtain ⟨h1, h2⟩ := h
    subst h1
    subst h2
    simp only [List.flatMap_nil]
    exact ⟨localTo_refl _ _ _, fun st2 _ gj hgj => absurd hgj (List.not_mem_nil gj)⟩
  | cons gi rest ih2 =>
    intro cx st oc ost h hbg hbn hw hgis hndG hndN
    simp only [rootLoop] at h
    split at h
    · exact absurd h (by simp)
    · rename_i st1 heq
      have frame1 : stFrame st st1 := (layoutGroup_frame fuel).1 _ _ _ _ _ _ _ heq
      have hlen1 := stFrame_lengths frame1
      have fuelpos : 0 < fuel := LGR_pos heq
      rw [List.flatMap_cons, List.nodup_append] at hndG hndN
      obtain ⟨hndTg, hndRg, hdisjG⟩ := hndG
      obtain ⟨hndTn, hndRn, hdisjN⟩ := hndN
      obtain ⟨QL, _, QC⟩ := LGR_spec fuel gi gm nm cx PADDING st st1 heq hbg hbn hw
        (hgis gi (List.mem_cons_self _ _)) hndTg hndTn
      have hfg : rest.flatMap (treeG gm nm st1.groups fuel) =
          rest.flatMap (treeG gm nm st.groups fuel) :=
        flatMap_congr (fun c _ => treeG_frame frame1 gm nm fuel c)
      have hfn : rest.flatMap (treeN gm nm st1.groups fuel) =
          rest.flatMap (treeN gm nm st.groups fuel) :=
        flatMap_congr (fun c _ => treeN_frame frame1 gm nm fuel c)
      have ihout := ih2 _ st1 oc ost h
        (fun p hp => hlen1.2 ▸ hbg p hp)
        (fun p hp => hlen1.1 ▸ hbn p hp)
        (widthsOk_frame frame1 hw)
        (fun c hc => hlen1.2 ▸ hgis c (List.mem_cons_of_mem _ hc))
        (by rw [hfg]; exact hndRg)
        (by rw [hfn]; exact hndRn)
      rw [hfg, hfn] at ihout
      obtain ⟨IL, IR⟩ := ihout
      refine ⟨?_, ?_⟩
      · rw [List.flatMap_cons, List.flatMap_cons]
        exact localTo_trans QL IL
      · intro st2 hA gj hgj
        rw [List.flatMap_cons] at hgj
        rcases List.mem_append.mp hgj with hgj | hgj
        · have hA1 : agreeOn (treeG gm nm st.groups fuel gi)
              (treeN gm nm st.groups fuel gi) st1 ost :=
            localTo_agree IL hdisjG hdisjN
          have hA2 : agreeOn (treeG gm nm st.groups fuel gi)
              (treeN gm nm st.groups fuel gi) ost st2 := by
            refine agreeOn_mono hA ?_ ?_ <;> intro x hx <;>
              rw [List.flatMap_cons] <;>
              exact List.mem_append.mpr (Or.inl hx)
          exact QC st2 (agreeOn_trans hA1 hA2) gj hgj
        · refine IR st2 ?_ gj hgj
          refine agreeOn_mono hA ?_ ?_ <;> intro x hx <;>
            rw [List.flatMap_cons] <;>
            exact List.mem_append.mpr (Or.inr hx)

/-- **C5** (amended): after hierarchical layout of a page whose node widths
are nonnegative, whose root-group layout subtrees are pairwise disjoint and
repetition-free (no group or node is reachable twice through `children`,
and no grouped node is also ungrouped), and whose groups are all reachable
from some parentless root, every group of the returned page passes the
containment check: each resolved child group's bounding box and each
resolved child node's rectangle lie inside the group's own bounding box
minus the `GROUP_PADDING` margins and the `GROUP_HEADER_HEIGHT` strip —
recursively at every nesting depth, in particular for three levels. -/
theorem C5_hierarchical_containment (page page' : DiagramPage)
    (h : layoutPage page .hierarchical = some page')
    (hw : ∀ n ∈ page.nodes, 0 ≤ n.size.w)
    (hG : (hierTrees page).1.Nodup)
    (hN : ((hierTrees page).2 ++ hierUngrouped page).Nodup)
    (hcov : ∀ gi, gi < page.groups.length → gi ∈ (hierTrees page).1) :
    hierOk page' = true := by
  simp only [layoutPage, layoutHierarchical] at h
  split at h
  · exact absurd h (by simp)
  · rename_i x st1 heq
    injection h with h
    subst h
    have hbg : ∀ p ∈ buildIdIndex (page.groups.map (fun g => g.id)),
        p.2 < (⟨page.nodes, page.groups⟩ : LayoutSt).groups.length := by
      intro p hp
      have := buildIdIndex_val_lt _ p hp
      rwa [List.length_map] at this
    have hbn : ∀ p ∈ buildIdIndex (page.nodes.map (fun n => n.id)),
        p.2 < (⟨page.nodes, page.groups⟩ : LayoutSt).nodes.length := by
      intro p hp
      have := buildIdIndex_val_lt _ p hp
      rwa [List.length_map] at this
    have hw0 : widthsOk ⟨page.nodes, page.groups⟩ := by
      intro i
      simp only [nodeAt]
      rcases lt_or_ge i page.nodes.length with hi | hi
      · rw [List.getD_eq_getElem?_getD, List.getElem?_eq_getElem hi]
        exact hw _ (List.getElem_mem hi)
      · rw [List.getD_eq_getElem?_getD, List.getElem?_eq_none hi]
        exact le_refl _
    obtain ⟨RLoc, RRob⟩ := rootLoop_spec (page.groups.length + 1) _ _ _
      PADDING ⟨page.nodes, page.groups⟩ x st1 heq hbg hbn hw0
      (fun gi hgi => idxWhere_lt hgi)
      hG (List.nodup_append.mp hN).1
    have hndisj : ∀ a ∈ (hierTrees page).2, a ∉ hierUngrouped page :=
      (List.nodup_append.mp hN).2.2
    have final : ∀ st2 : LayoutSt,
        agreeOn (hierTrees page).1 (hierTrees page).2 st1 st2 →
        stFrame ⟨page.nodes, page.groups⟩ st2 →
        hierOk { page with nodes := st2.nodes, groups := st2.groups } = true := by
      intro st2 hagree hframe
      have hgm : pageGroupMap { page with nodes := st2.nodes, groups := st2.groups } =
          pageGroupMap page := by
        simp only [pageGroupMap]
        congr 1
        exact forall2_map_eq (fun a b hab => groupFrame_id hab) hframe.2
      have hnm : pageNodeMap { page with nodes := st2.nodes, groups := st2.groups } =
          pageNodeMap page := by
        simp only [pageNodeMap]
        congr 1
        exact forall2_map_eq (fun a b hab => nodeFrame_id hab) hframe.1
      simp only [hierOk, hgm, hnm]
      rw [List.all_eq_true]
      intro gi hgi
      rw [List.mem_range] at hgi
      have hgi2 : gi < st2.groups.length := hgi
      rw [(stFrame_lengths hframe).2.symm] at hgi2
      exact RRob st2 hagree gi (hcov gi hgi2)
    by_cases hU :
        (idxWhere page.nodes fun n => !(groupedIds page.groups).contains n.id).isEmpty = true
    · rw [if_pos hU]
      refine final st1 (agreeOn_refl _ _ _) ?_
      exact rootLoop_frame _ _ _ _ _ _ (x, st1) heq
    · rw [if_neg hU]
      refine final _ ?_ ?_
      · exact localTo_agree (placeUngrouped_local _ _ _)
          (fun a _ => List.not_mem_nil a) hndisj
      · exact stFrame_trans (rootLoop_frame _ _ _ _ _ _ (x, st1) heq)
          (placeUngrouped_frame _ _ _ _ rfl)

/-- Counterexample to the literal C5 claim: hierarchical layout succeeds on
`c5Page` and yet the containment check fails — the node shared between the
two root groups ends up outside the first group's bounding box. -/
theorem C5_counterexample :
    layoutPage c5Page .hierarchical = some c5Laid ∧ hierOk c5Laid = false := by
  constructor
  · with_unfolding_all rfl
  · with_unfolding_all rfl

/-- Witness for the amended C5 at a concrete page with three levels of
group nesting. -/
theorem C5_witness :
    layoutPage c5wPage .hierarchical = some c5wLaid ∧
    c5wPage.groups.length = 3 ∧
    hierOk c5wLaid = true :=
  ⟨by with_unfolding_all rfl, rfl,
   C5_hierarchical_containment c5wPage c5wLaid (by with_unfolding_all rfl)
     (by decide) (by decide) (by decide) (by decide)⟩
